import Mathlib

/-!
# The xillyfifo ring buffer

A shallow embedding of `src/oepcie/liboepcie/fifo.c` and `fifo.h`: a
single-producer / single-consumer circular byte buffer with a request/commit
protocol on each side and two POSIX semaphores used as wake signals.

Conventions of the embedding:

* `unsigned int` values are naturals below `UINT_RANGE = 2^32`, `unsigned long`
  values naturals below `ULONG_RANGE = 2^64` (LP64); arithmetic on them wraps.
* `int` values are integers; a conversion from `unsigned int` goes through
  `int_of_uint` (two's complement).
* pointers are natural numbers, `NULL` is `0`; memory is a map from addresses to
  bytes.
* a semaphore is its counter. `sem_wait` on a zero counter parks the caller; a
  parked call is the outcome `Outcome.blocked`, and it is resumed (after the
  other thread has acted) by `fifo_request_write_resume` /
  `fifo_request_drain_resume`.
* what the operating system decides (whether `sem_wait` is interrupted or
  fails, whether `sem_getvalue`, `sem_init`, `malloc`, `mlock` succeed) is an
  explicit argument.
-/

/-! ## Machine integers -/

/-- Number of values of an `unsigned int`. -/
def UINT_RANGE : Nat := 4294967296

/-- Number of values of an `unsigned long`. -/
def ULONG_RANGE : Nat := 18446744073709551616

/-- Largest value of an `int`. -/
def INT_MAX : Nat := 2147483647

/-- The macro `FIFO_BACKOFF` of fifo.c, line 3. -/
def FIFO_BACKOFF : Nat := 0

/-- Addition of two `unsigned int`. -/
def uint_add (a b : Nat) : Nat := (a + b) % UINT_RANGE

/-- Subtraction of two `unsigned int`: the difference, plus `UINT_RANGE` when it
would be negative. -/
def uint_sub (a b : Nat) : Nat :=
  if b % UINT_RANGE ≤ a % UINT_RANGE then a % UINT_RANGE - b % UINT_RANGE
  else a % UINT_RANGE + UINT_RANGE - b % UINT_RANGE

/-- Addition of two `unsigned long`. -/
def ulong_add (a b : Nat) : Nat := (a + b) % ULONG_RANGE

/-- Subtraction of two `unsigned long`: the difference, plus `ULONG_RANGE` when
it would be negative. -/
def ulong_sub (a b : Nat) : Nat :=
  if b % ULONG_RANGE ≤ a % ULONG_RANGE then a % ULONG_RANGE - b % ULONG_RANGE
  else a % ULONG_RANGE + ULONG_RANGE - b % ULONG_RANGE

/-- Conversion of an `unsigned int` to `int`. -/
def int_of_uint (u : Nat) : Int :=
  if u % UINT_RANGE ≤ INT_MAX then ((u % UINT_RANGE : Nat) : Int)
  else ((u % UINT_RANGE : Nat) : Int) - (UINT_RANGE : Int)

/-- Conversion of an `int` to `unsigned int`: what a commit function, whose
argument is `unsigned int req_bytes`, sees when it is handed the `int` a request
function returned. -/
def uint_of_int (r : Int) : Nat := (r % (UINT_RANGE : Int)).toNat

/-! ## The two structures of fifo.h -/

/-- The `struct xillyfifo`; the two `sem_t` fields are the semaphore counters. -/
structure xillyfifo where
  read_total : Nat
  write_total : Nat
  bytes_in_fifo : Nat
  read_position : Nat
  write_position : Nat
  size : Nat
  done : Nat
  baseaddr : Nat
  write_sem : Nat
  read_sem : Nat
deriving DecidableEq

/-- The `struct xillyinfo`. -/
structure xillyinfo where
  slept : Int
  bytes : Int
  position : Int
  addr : Nat
deriving DecidableEq

/-- The fields of a `struct xillyfifo` hold values of their C types. -/
def xillyfifo.in_range (f : xillyfifo) : Prop :=
  f.read_total < ULONG_RANGE ∧ f.write_total < ULONG_RANGE ∧
  f.bytes_in_fifo < UINT_RANGE ∧ f.read_position < UINT_RANGE ∧
  f.write_position < UINT_RANGE ∧ f.size < UINT_RANGE ∧ f.done < UINT_RANGE

instance (f : xillyfifo) : Decidable f.in_range := by
  unfold xillyfifo.in_range; infer_instance

/-! ## Memory -/

/-- Memory: the byte stored at each address. -/
abbrev Memory := Nat → Nat

/-- Store of one byte. -/
def store_byte (mem : Memory) (addr : Nat) (b : Nat) : Memory :=
  fun a => if a = addr then b else mem a

/-- Store of the bytes `data` at `addr`, `addr + 1`, ... -/
def store_bytes (mem : Memory) (addr : Nat) (data : List Nat) : Memory :=
  fun a => if addr ≤ a ∧ a < addr + data.length then data.getD (a - addr) 0 else mem a

/-- Load of the `n` bytes at `addr`, `addr + 1`, ... -/
def load_bytes (mem : Memory) (addr : Nat) (n : Nat) : List Nat :=
  (List.range n).map (fun i => mem (addr + i))

/-! ## Semaphores -/

/-- What the operating system does to one call of `sem_wait`, apart from the
counter: nothing special, a signal interrupts it (`-1`, `errno == EINTR`), or it
fails with another error. -/
inductive wait_event where
  | normal
  | eintr
  | error
deriving DecidableEq

/-- Result of one call of `sem_wait`. -/
inductive wait_result where
  /-- the counter is zero and nothing interrupts: the caller stays parked -/
  | parked
  /-- returned nonzero with `errno != EINTR` -/
  | failed
  /-- returned `0` (counter decremented) or was interrupted (counter kept) -/
  | woke (sem : Nat) (rest : List wait_event)
deriving DecidableEq

/-- One call of `sem_wait` on a counter `sem`; the head of `evs` is the event of
this call, and an empty list means no signal and no error. -/
def sem_wait (evs : List wait_event) (sem : Nat) : wait_result :=
  match evs with
  | wait_event.error :: _ => wait_result.failed
  | wait_event.eintr :: rest => wait_result.woke sem rest
  | wait_event.normal :: rest =>
      if sem = 0 then wait_result.parked else wait_result.woke (sem - 1) rest
  | [] => if sem = 0 then wait_result.parked else wait_result.woke (sem - 1) []

/-- One call of `sem_post`. -/
def sem_post (sem : Nat) : Nat := sem + 1

/-! ## fifo_init, fifo_done -/

/-- What the environment answers during `fifo_init`. -/
structure init_env where
  read_sem_ok : Bool
  write_sem_ok : Bool
  malloc_addr : Nat
  mlock_ok : Bool
deriving DecidableEq

/-- The loop `for (i = 0; i < size; i += 1024) buf[i] = 0;` of fifo.c, lines
50-51, from the value `i`, with a bound on the number of iterations; `none`
when the bound is reached. -/
def prefault : Nat → Nat → Nat → Nat → Memory → Option Memory
  | 0, _, _, _, _ => none
  | fuel + 1, buf, size, i, mem =>
      if i < size then prefault fuel buf size (uint_add i 1024) (store_byte mem (buf + i) 0)
      else some mem

/-- The function `fifo_init` (fifo.c, lines 16-57): the return value, the
structure and the memory it leaves; `none` when the pre-fault loop does not end
within `fuel` iterations. -/
def fifo_init (fuel : Nat) (env : init_env) (fifo : xillyfifo) (mem : Memory) (size : Nat) :
    Option (Int × xillyfifo × Memory) :=
  let fifo := { fifo with
    baseaddr := 0, size := 0, bytes_in_fifo := 0, read_position := 0,
    write_position := 0, read_total := 0, write_total := 0, done := 0 }
  if env.read_sem_ok = false then some (-1, fifo, mem) else
  let fifo := { fifo with read_sem := 0 }
  if env.write_sem_ok = false then some (-1, fifo, mem) else
  let fifo := { fifo with write_sem := 1 }
  let fifo := { fifo with baseaddr := env.malloc_addr }
  if fifo.baseaddr = 0 then some (-1, fifo, mem) else
  if env.mlock_ok = false then
    match prefault fuel fifo.baseaddr size 0 mem with
    | none => none
    | some mem1 => some (0, { fifo with size := size }, mem1)
  else some (0, { fifo with size := size }, mem)

/-- The function `fifo_done` (fifo.c, lines 59-64). -/
def fifo_done (fifo : xillyfifo) : xillyfifo :=
  let fifo := { fifo with done := 1 }
  let fifo := { fifo with read_sem := sem_post fifo.read_sem }
  { fifo with write_sem := sem_post fifo.write_sem }

/-! ## The commit functions -/

/-- The function `fifo_drained` (fifo.c, lines 119-142); `getvalue_ok` tells
whether `sem_getvalue` succeeds. -/
def fifo_drained (getvalue_ok : Bool) (fifo : xillyfifo) (req_bytes : Nat) : xillyfifo :=
  if req_bytes = 0 then fifo else
  let fifo := { fifo with bytes_in_fifo := uint_sub fifo.bytes_in_fifo req_bytes }
  let fifo := { fifo with read_total := ulong_add fifo.read_total req_bytes }
  let fifo := { fifo with read_position := uint_add fifo.read_position req_bytes }
  let fifo :=
    if fifo.read_position ≥ fifo.size then
      { fifo with read_position := uint_sub fifo.read_position fifo.size }
    else fifo
  let semval : Nat := if getvalue_ok then fifo.write_sem else 1
  if semval = 0 then { fifo with write_sem := sem_post fifo.write_sem } else fifo

/-- The function `fifo_wrote` (fifo.c, lines 190-213); `getvalue_ok` tells
whether `sem_getvalue` succeeds. -/
def fifo_wrote (getvalue_ok : Bool) (fifo : xillyfifo) (req_bytes : Nat) : xillyfifo :=
  if req_bytes = 0 then fifo else
  let fifo := { fifo with bytes_in_fifo := uint_add fifo.bytes_in_fifo req_bytes }
  let fifo := { fifo with write_total := ulong_add fifo.write_total req_bytes }
  let fifo := { fifo with write_position := uint_add fifo.write_position req_bytes }
  let fifo :=
    if fifo.write_position ≥ fifo.size then
      { fifo with write_position := uint_sub fifo.write_position fifo.size }
    else fifo
  let semval : Nat := if getvalue_ok then fifo.read_sem else 1
  if semval = 0 then { fifo with read_sem := sem_post fifo.read_sem } else fifo

/-! ## The request functions -/

/-- How a call of a request function ends: it returns, or it stays parked in
`sem_wait` (with the `info` and the structure as they are then). -/
inductive Outcome where
  | returned (ret : Int) (info : xillyinfo) (fifo : xillyfifo)
  | blocked (info : xillyinfo) (fifo : xillyfifo)
deriving DecidableEq

/-- What one pass through the test of a wait loop decides. -/
inductive loop_result where
  | exit (o : Outcome)
  | again (fifo : xillyfifo) (info : xillyinfo)
deriving DecidableEq

/-- The end of `fifo_request_write` from the label `fail` (lines 183-187), with
the value of the local `unsigned int taken`. -/
def write_finish (fifo : xillyfifo) (info : xillyinfo) (taken : Nat) : Outcome :=
  let info := { info with bytes := int_of_uint taken }
  let info := { info with position := int_of_uint fifo.write_position }
  Outcome.returned (int_of_uint taken) info fifo

/-- Lines 175-187 of `fifo_request_write`: the lease computed from `now_bytes`. -/
def write_grant (fifo : xillyfifo) (info : xillyinfo) (now_bytes : Nat) : Outcome :=
  let taken := uint_sub fifo.size (uint_add now_bytes FIFO_BACKOFF)
  let max_bytes := uint_sub fifo.size fifo.write_position
  let taken := if taken > max_bytes then max_bytes else taken
  let info := { info with addr := fifo.baseaddr + fifo.write_position }
  write_finish fifo info taken

/-- The test `now_bytes >= fifo->size - FIFO_BACKOFF` of the loop of
`fifo_request_write` (line 157) and what follows it: another wait (with
`info->slept = 1`) or the lease. -/
def write_test (fifo : xillyfifo) (info : xillyinfo) (now_bytes : Nat) : loop_result :=
  if now_bytes ≥ uint_sub fifo.size FIFO_BACKOFF then
    loop_result.again fifo { info with slept := 1 }
  else loop_result.exit (write_grant fifo info now_bytes)

/-- What `fifo_request_write` does when `sem_wait` has returned without a fatal
error (lines 169-173 and the loop test): the re-check. -/
def write_recheck (fifo : xillyfifo) (info : xillyinfo) : loop_result :=
  if fifo.done ≠ 0 then loop_result.exit (write_finish fifo info 0)
  else write_test fifo info fifo.bytes_in_fifo

/-- A bound on the number of waits of one call of a request function: every wait
uses up an event or a unit of the semaphore. -/
def wait_bound (evs : List wait_event) (sem : Nat) : Nat := evs.length + sem + 1

/-- The wait loop of `fifo_request_write` from its call of `sem_wait` (line
166), at most `fuel` waits; `none` when the bound is reached. -/
def write_wait : Nat → List wait_event → xillyfifo → xillyinfo → Option Outcome
  | 0, _, _, _ => none
  | fuel + 1, evs, fifo, info =>
      match sem_wait evs fifo.write_sem with
      | wait_result.parked => some (Outcome.blocked info fifo)
      | wait_result.failed => some (write_finish fifo info 0)
      | wait_result.woke sem rest =>
          match write_recheck { fifo with write_sem := sem } info with
          | loop_result.exit o => some o
          | loop_result.again fifo1 info1 => write_wait fuel rest fifo1 info1

/-- The function `fifo_request_write` (fifo.c, lines 144-188). -/
def fifo_request_write (evs : List wait_event) (fifo : xillyfifo) (info : xillyinfo) :
    Option Outcome :=
  let info := { info with slept := 0 }
  let info := { info with addr := 0 }
  let now_bytes := fifo.bytes_in_fifo
  if fifo.done ≠ 0 then some (write_finish fifo info 0)
  else
    match write_test fifo info now_bytes with
    | loop_result.exit o => some o
    | loop_result.again fifo1 info1 =>
        write_wait (wait_bound evs fifo1.write_sem) evs fifo1 info1

/-- A call of `fifo_request_write` that was parked in `sem_wait` goes on, on the
structure as it is now. -/
def fifo_request_write_resume (evs : List wait_event) (fifo : xillyfifo) (info : xillyinfo) :
    Option Outcome :=
  write_wait (wait_bound evs fifo.write_sem) evs fifo info

/-- The end of `fifo_request_drain` from the label `fail` (lines 112-116), with
the value of the local `int taken`. -/
def drain_finish (fifo : xillyfifo) (info : xillyinfo) (taken : Int) : Outcome :=
  let info := { info with bytes := taken }
  let info := { info with position := int_of_uint fifo.read_position }
  Outcome.returned taken info fifo

/-- Lines 108-116 of `fifo_request_drain`: the lease computed from `now_bytes`. -/
def drain_grant (fifo : xillyfifo) (info : xillyinfo) (now_bytes : Nat) : Outcome :=
  let max_bytes := uint_sub fifo.size fifo.read_position
  let taken : Int := int_of_uint (if now_bytes < max_bytes then now_bytes else max_bytes)
  let info := { info with addr := fifo.baseaddr + fifo.read_position }
  drain_finish fifo info taken

/-- The test `now_bytes == 0` of the loop of `fifo_request_drain` (line 90) and
what precedes the wait (lines 91-100): the end of stream, another wait (with
`info->slept = 1`), or the lease. -/
def drain_test (fifo : xillyfifo) (info : xillyinfo) (now_bytes : Nat) : loop_result :=
  if now_bytes = 0 then
    if fifo.done ≠ 0 then loop_result.exit (drain_finish fifo info 0)
    else loop_result.again fifo { info with slept := 1 }
  else loop_result.exit (drain_grant fifo info now_bytes)

/-- What `fifo_request_drain` does when `sem_wait` has returned without a fatal
error (line 105 and the loop test): the re-check. -/
def drain_recheck (fifo : xillyfifo) (info : xillyinfo) : loop_result :=
  drain_test fifo info fifo.bytes_in_fifo

/-- The wait loop of `fifo_request_drain` from its call of `sem_wait` (line
102), at most `fuel` waits; `none` when the bound is reached. -/
def drain_wait : Nat → List wait_event → xillyfifo → xillyinfo → Option Outcome
  | 0, _, _, _ => none
  | fuel + 1, evs, fifo, info =>
      match sem_wait evs fifo.read_sem with
      | wait_result.parked => some (Outcome.blocked info fifo)
      | wait_result.failed => some (drain_finish fifo info 0)
      | wait_result.woke sem rest =>
          match drain_recheck { fifo with read_sem := sem } info with
          | loop_result.exit o => some o
          | loop_result.again fifo1 info1 => drain_wait fuel rest fifo1 info1

/-- The function `fifo_request_drain` (fifo.c, lines 80-117). -/
def fifo_request_drain (evs : List wait_event) (fifo : xillyfifo) (info : xillyinfo) :
    Option Outcome :=
  let info := { info with slept := 0 }
  let info := { info with addr := 0 }
  let now_bytes := fifo.bytes_in_fifo
  match drain_test fifo info now_bytes with
  | loop_result.exit o => some o
  | loop_result.again fifo1 info1 =>
      drain_wait (wait_bound evs fifo1.read_sem) evs fifo1 info1

/-- A call of `fifo_request_drain` that was parked in `sem_wait` goes on, on the
structure as it is now. -/
def fifo_request_drain_resume (evs : List wait_event) (fifo : xillyfifo) (info : xillyinfo) :
    Option Outcome :=
  drain_wait (wait_bound evs fifo.read_sem) evs fifo info

/-! ## Sequences of calls under the caller contract -/

/-- A fifo in use together with what the caller contract needs: for each side,
how many bytes of the most recent lease returned on that side have not been
committed yet (a lease is valid until its matching commit). The length of a
lease is the value the request function returned, as the `unsigned int` the
commit function takes. -/
structure session where
  fifo : xillyfifo
  write_lease : Nat
  read_lease : Nat
deriving DecidableEq

/-- The calls a producer and a consumer make on a fifo. -/
inductive fifo_call where
  | request_write (evs : List wait_event) (info : xillyinfo)
  | resume_write (evs : List wait_event) (info : xillyinfo)
  | wrote (getvalue_ok : Bool) (n : Nat)
  | request_drain (evs : List wait_event) (info : xillyinfo)
  | resume_drain (evs : List wait_event) (info : xillyinfo)
  | drained (getvalue_ok : Bool) (n : Nat)
  | done
deriving DecidableEq

/-- The session after a request on the write side ended as `o`. -/
def after_write_request (s : session) (o : Option Outcome) : Option session :=
  match o with
  | some (Outcome.returned ret _ fifo) =>
      some { fifo := fifo, write_lease := uint_of_int ret, read_lease := s.read_lease }
  | some (Outcome.blocked _ fifo) =>
      some { fifo := fifo, write_lease := s.write_lease, read_lease := s.read_lease }
  | none => none

/-- The session after a request on the read side ended as `o`. -/
def after_drain_request (s : session) (o : Option Outcome) : Option session :=
  match o with
  | some (Outcome.returned ret _ fifo) =>
      some { fifo := fifo, write_lease := s.write_lease, read_lease := uint_of_int ret }
  | some (Outcome.blocked _ fifo) =>
      some { fifo := fifo, write_lease := s.write_lease, read_lease := s.read_lease }
  | none => none

/-- One call; `none` when a commit reports more bytes than the caller contract
allows. -/
def call_step (s : session) (c : fifo_call) : Option session :=
  match c with
  | fifo_call.request_write evs info =>
      after_write_request s (fifo_request_write evs s.fifo info)
  | fifo_call.resume_write evs info =>
      after_write_request s (fifo_request_write_resume evs s.fifo info)
  | fifo_call.wrote gv n =>
      if n ≤ s.write_lease then
        some { fifo := fifo_wrote gv s.fifo n, write_lease := s.write_lease - n,
               read_lease := s.read_lease }
      else none
  | fifo_call.request_drain evs info =>
      after_drain_request s (fifo_request_drain evs s.fifo info)
  | fifo_call.resume_drain evs info =>
      after_drain_request s (fifo_request_drain_resume evs s.fifo info)
  | fifo_call.drained gv n =>
      if n ≤ s.read_lease then
        some { fifo := fifo_drained gv s.fifo n, write_lease := s.write_lease,
               read_lease := s.read_lease - n }
      else none
  | fifo_call.done =>
      some { fifo := fifo_done s.fifo, write_lease := s.write_lease,
             read_lease := s.read_lease }

/-- A sequence of calls, one after the other. -/
def run_calls (s : session) : List fifo_call → Option session
  | [] => some s
  | c :: cs =>
      match call_step s c with
      | some s1 => run_calls s1 cs
      | none => none

/-- The structure `fifo` is what a call `fifo_init(&fifo, size)` that returned
`0` has left. -/
def init_success (size : Nat) (fifo : xillyfifo) : Prop :=
  size < UINT_RANGE ∧
  ∃ (fuel : Nat) (env : init_env) (fifo0 : xillyfifo) (mem0 mem : Memory),
    fifo_init fuel env fifo0 mem0 size = some (0, fifo, mem)

/-- The session right after `fifo_init`: no lease has been returned yet. -/
def fresh (fifo : xillyfifo) : session :=
  { fifo := fifo, write_lease := 0, read_lease := 0 }

/-- The structure a successful `fifo_init(&fifo, size)` leaves when `malloc`
returns `addr` (a closed form, used to build examples). -/
def fifo_fresh (size addr : Nat) : xillyfifo :=
  { read_total := 0, write_total := 0, bytes_in_fifo := 0, read_position := 0,
    write_position := 0, size := size, done := 0, baseaddr := addr,
    write_sem := 1, read_sem := 0 }

/-- Number of calls of `fifo_done` in a sequence of calls. -/
def count_done : List fifo_call → Nat
  | [] => 0
  | fifo_call.done :: cs => count_done cs + 1
  | _ :: cs => count_done cs

/-! ## Bytes through the fifo -/

/-- A fifo in use with the memory its buffer lives in, the pointer and the
remaining length of each side's most recent lease, and the bytes committed by
the producer (`written`) and taken by the consumer (`consumed`), in order. -/
structure stream where
  fifo : xillyfifo
  mem : Memory
  write_addr : Nat
  write_lease : Nat
  read_addr : Nat
  read_lease : Nat
  written : List Nat
  consumed : List Nat

/-- The steps of a producer and a consumer that move bytes through a fifo. -/
inductive stream_step where
  | request_write (evs : List wait_event) (info : xillyinfo)
  | resume_write (evs : List wait_event) (info : xillyinfo)
  /-- store `data` at the start of the leased window, then `fifo_wrote(k)` -/
  | produce (getvalue_ok : Bool) (data : List Nat) (k : Nat)
  | request_drain (evs : List wait_event) (info : xillyinfo)
  | resume_drain (evs : List wait_event) (info : xillyinfo)
  /-- load `k` bytes from the start of the leased window, then `fifo_drained(k)` -/
  | consume (getvalue_ok : Bool) (k : Nat)
  | done

/-- The stream after a request on the write side ended as `o`. -/
def stream_after_write_request (s : stream) (o : Option Outcome) : Option stream :=
  match o with
  | some (Outcome.returned ret info fifo) =>
      some { s with fifo := fifo, write_addr := info.addr, write_lease := uint_of_int ret }
  | some (Outcome.blocked _ fifo) => some { s with fifo := fifo }
  | none => none

/-- The stream after a request on the read side ended as `o`. -/
def stream_after_drain_request (s : stream) (o : Option Outcome) : Option stream :=
  match o with
  | some (Outcome.returned ret info fifo) =>
      some { s with fifo := fifo, read_addr := info.addr, read_lease := uint_of_int ret }
  | some (Outcome.blocked _ fifo) => some { s with fifo := fifo }
  | none => none

/-- One step; `none` when the step leaves the leased window or commits more than
the lease. -/
def stream_do (s : stream) (c : stream_step) : Option stream :=
  match c with
  | stream_step.request_write evs info =>
      stream_after_write_request s (fifo_request_write evs s.fifo info)
  | stream_step.resume_write evs info =>
      stream_after_write_request s (fifo_request_write_resume evs s.fifo info)
  | stream_step.produce gv data k =>
      if data.length ≤ s.write_lease ∧ k ≤ data.length then
        some { s with
          mem := store_bytes s.mem s.write_addr data,
          fifo := fifo_wrote gv s.fifo k,
          write_addr := s.write_addr + k,
          write_lease := s.write_lease - k,
          written := s.written ++ data.take k }
      else none
  | stream_step.request_drain evs info =>
      stream_after_drain_request s (fifo_request_drain evs s.fifo info)
  | stream_step.resume_drain evs info =>
      stream_after_drain_request s (fifo_request_drain_resume evs s.fifo info)
  | stream_step.consume gv k =>
      if k ≤ s.read_lease then
        some { s with
          consumed := s.consumed ++ load_bytes s.mem s.read_addr k,
          fifo := fifo_drained gv s.fifo k,
          read_addr := s.read_addr + k,
          read_lease := s.read_lease - k }
      else none
  | stream_step.done => some { s with fifo := fifo_done s.fifo }

/-- A sequence of steps, one after the other. -/
def stream_run (s : stream) : List stream_step → Option stream
  | [] => some s
  | c :: cs =>
      match stream_do s c with
      | some s1 => stream_run s1 cs
      | none => none

/-- The stream right after `fifo_init`: nothing written, nothing consumed. -/
def stream_fresh (fifo : xillyfifo) (mem : Memory) : stream :=
  { fifo := fifo, mem := mem, write_addr := 0, write_lease := 0, read_addr := 0,
    read_lease := 0, written := [], consumed := [] }

/-! ## Predicates used to state the properties -/

/-- The structures `f` and `g` differ at most in the two semaphore counters. -/
def same_queue (f g : xillyfifo) : Prop :=
  g.read_total = f.read_total ∧ g.write_total = f.write_total ∧
  g.bytes_in_fifo = f.bytes_in_fifo ∧ g.read_position = f.read_position ∧
  g.write_position = f.write_position ∧ g.size = f.size ∧ g.done = f.done ∧
  g.baseaddr = f.baseaddr

/-- The consistency of the counters and cursors of a fifo: the occupancy is at
most the size, the cursors are inside the buffer, the write cursor is the read
cursor advanced by the occupancy around the ring, and the totals differ by the
occupancy. -/
def queue_inv (f : xillyfifo) : Prop :=
  f.size < UINT_RANGE ∧ f.bytes_in_fifo ≤ f.size ∧
  (f.read_position < f.size ∨ (f.size = 0 ∧ f.read_position = 0)) ∧
  (f.write_position < f.size ∨ (f.size = 0 ∧ f.write_position = 0)) ∧
  (f.write_position = f.read_position + f.bytes_in_fifo ∨
    f.write_position + f.size = f.read_position + f.bytes_in_fifo) ∧
  f.read_total < ULONG_RANGE ∧
  f.write_total = (f.read_total + f.bytes_in_fifo) % ULONG_RANGE

/-- The consistency of a session: that of its fifo, and each side's remaining
lease lies inside what the fifo could lease on that side now. -/
def session_inv (s : session) : Prop :=
  queue_inv s.fifo ∧
  s.write_lease ≤ s.fifo.size - s.fifo.bytes_in_fifo ∧
  s.write_lease ≤ s.fifo.size - s.fifo.write_position ∧
  s.read_lease ≤ s.fifo.bytes_in_fifo ∧
  s.read_lease ≤ s.fifo.size - s.fifo.read_position

/-- The bytes a fifo holds, oldest first: the `bytes_in_fifo` bytes of the buffer
from `read_position` on, around the end of the buffer. -/
def pending (f : xillyfifo) (mem : Memory) : List Nat :=
  (List.range f.bytes_in_fifo).map
    (fun j => mem (f.baseaddr + (f.read_position + j) % f.size))

/-- The consistency of a stream: that of its fifo and leases, each side's pointer
is at its cursor while it holds a lease, and what was written is what was
consumed followed by what the fifo holds. -/
def stream_inv (s : stream) : Prop :=
  session_inv { fifo := s.fifo, write_lease := s.write_lease, read_lease := s.read_lease } ∧
  (0 < s.write_lease → s.write_addr = s.fifo.baseaddr + s.fifo.write_position) ∧
  (0 < s.read_lease → s.read_addr = s.fifo.baseaddr + s.fifo.read_position) ∧
  s.written = s.consumed ++ pending s.fifo s.mem

/-! ## The semaphores as resources -/

/-- Which of the two semaphores of a fifo are initialised: set by a successful
`sem_init`, cleared by `sem_destroy`. -/
structure sem_alloc where
  read_sem : Bool
  write_sem : Bool
deriving DecidableEq

/-- The calls of `sem_init` along `fifo_init` (fifo.c, lines 27-36) with the
returns between them: the return value of `fifo_init` and the semaphores that
are initialised when it returns. No path of `fifo_init` calls `sem_destroy`. -/
def fifo_init_sems (env : init_env) (sems : sem_alloc) : Int × sem_alloc :=
  if env.read_sem_ok = false then (-1, sems) else
  let sems := { sems with read_sem := true }
  if env.write_sem_ok = false then (-1, sems) else
  let sems := { sems with write_sem := true }
  if env.malloc_addr = 0 then (-1, sems) else
  (0, sems)

/-- The function `fifo_destroy` (fifo.c, lines 66-78), on the structure and on
the semaphores as resources. -/
def fifo_destroy (fifo : xillyfifo) (sems : sem_alloc) : xillyfifo × sem_alloc :=
  if fifo.baseaddr = 0 then (fifo, sems) else
  let sems := { sems with read_sem := false }
  let sems := { sems with write_sem := false }
  ({ fifo with baseaddr := 0 }, sems)

/-! ## Concrete runs, used as examples -/

/-- An `info` structure before any call. -/
def info_zero : xillyinfo := { slept := 0, bytes := 0, position := 0, addr := 0 }

/-- A run on a fifo of 16 bytes: 12 bytes go in and out, then 16 bytes go in
through two leases around the end of the buffer, and a further write request
parks. -/
def calls_wrap16 : List fifo_call :=
  [fifo_call.request_write [] info_zero, fifo_call.wrote true 12,
   fifo_call.request_drain [] info_zero, fifo_call.drained true 12,
   fifo_call.request_write [] info_zero, fifo_call.wrote true 4,
   fifo_call.request_write [] info_zero, fifo_call.wrote false 12,
   fifo_call.request_write [wait_event.eintr] info_zero]

/-- The session `calls_wrap16` ends in. -/
def session_wrap16 : session :=
  { fifo := { read_total := 12, write_total := 28, bytes_in_fifo := 16,
              read_position := 12, write_position := 12, size := 16, done := 0,
              baseaddr := 4096, write_sem := 0, read_sem := 1 },
    write_lease := 0, read_lease := 0 }

/-- The first four calls of `calls_wrap16`: 12 bytes go in and out. -/
def calls_fill12 : List fifo_call :=
  [fifo_call.request_write [] info_zero, fifo_call.wrote true 12,
   fifo_call.request_drain [] info_zero, fifo_call.drained true 12]

/-- The session `calls_fill12` ends in: empty, both cursors at 12, and 4 bytes of
the first write lease not used. -/
def session_fill12 : session :=
  { fifo := { read_total := 12, write_total := 12, bytes_in_fifo := 0,
              read_position := 12, write_position := 12, size := 16, done := 0,
              baseaddr := 4096, write_sem := 1, read_sem := 1 },
    write_lease := 4, read_lease := 0 }

/-- The lease a write request returns in `session_fill12`: 4 bytes at offset 12. -/
def lease_12_4 : xillyinfo := { slept := 0, bytes := 4, position := 12, addr := 4108 }

/-- A run on a fifo of 16 bytes: 12 bytes go in, and the consumer has requested
them. -/
def calls_read12 : List fifo_call :=
  [fifo_call.request_write [] info_zero, fifo_call.wrote true 12,
   fifo_call.request_drain [] info_zero]

/-- The session `calls_read12` ends in. -/
def session_read12 : session :=
  { fifo := { read_total := 0, write_total := 12, bytes_in_fifo := 12,
              read_position := 0, write_position := 12, size := 16, done := 0,
              baseaddr := 4096, write_sem := 1, read_sem := 1 },
    write_lease := 4, read_lease := 12 }

/-- A run on a fifo of 16 bytes: 3 bytes go in. -/
def calls_in3 : List fifo_call :=
  [fifo_call.request_write [] info_zero, fifo_call.wrote true 3]

/-- The session `calls_in3` followed by `fifo_done` ends in. -/
def session_done3 : session :=
  { fifo := { read_total := 0, write_total := 3, bytes_in_fifo := 3,
              read_position := 0, write_position := 3, size := 16, done := 1,
              baseaddr := 4096, write_sem := 2, read_sem := 2 },
    write_lease := 13, read_lease := 0 }

/-- The run `calls_wrap16`, after which the consumer requests data. -/
def calls_full16 : List fifo_call :=
  calls_wrap16 ++ [fifo_call.request_drain [] info_zero]

/-- The session `calls_full16` ends in: the fifo is full, and the consumer holds
a lease of 4 bytes at offset 12. -/
def session_full16 : session :=
  { fifo := { read_total := 12, write_total := 28, bytes_in_fifo := 16,
              read_position := 12, write_position := 12, size := 16, done := 0,
              baseaddr := 4096, write_sem := 0, read_sem := 1 },
    write_lease := 0, read_lease := 4 }

/-- A run on a fifo of 8 bytes: 5 bytes go in, 3 come out. -/
def calls_cap8 : List fifo_call :=
  [fifo_call.request_write [] info_zero, fifo_call.wrote true 5,
   fifo_call.request_drain [] info_zero, fifo_call.drained true 3]

/-- The session `calls_cap8` ends in: 2 bytes pending, 6 free, write cursor at 5. -/
def session_cap8 : session :=
  { fifo := { read_total := 3, write_total := 5, bytes_in_fifo := 2,
              read_position := 3, write_position := 5, size := 8, done := 0,
              baseaddr := 4096, write_sem := 1, read_sem := 1 },
    write_lease := 3, read_lease := 2 }

/-- A memory that holds 0 everywhere. -/
def mem_zero : Memory := fun _ => 0

/-- A run of a producer and a consumer on a fifo of 16 bytes: 12 bytes go through,
which leaves the fifo empty with both cursors at 12; then 16 bytes are written
through two leases and read back through two leases. -/
def steps_wrap16 : List stream_step :=
  [stream_step.request_write [] info_zero,
   stream_step.produce true [1, 2, 3, 4, 5, 6, 7, 8, 9, 10, 11, 12] 12,
   stream_step.request_drain [] info_zero,
   stream_step.consume true 12,
   stream_step.request_write [] info_zero,
   stream_step.produce true [21, 22, 23, 24] 4,
   stream_step.request_write [] info_zero,
   stream_step.produce true [25, 26, 27, 28, 29, 30, 31, 32, 33, 34, 35, 36] 12,
   stream_step.request_drain [] info_zero,
   stream_step.consume true 4,
   stream_step.request_drain [] info_zero,
   stream_step.consume true 12]

/-- The stream `steps_wrap16` ends in. -/
def stream_wrap16 : stream :=
  { fifo := { read_total := 28, write_total := 28, bytes_in_fifo := 0,
              read_position := 12, write_position := 12, size := 16, done := 0,
              baseaddr := 4096, write_sem := 1, read_sem := 1 },
    mem := store_bytes
      (store_bytes (store_bytes mem_zero 4096 [1, 2, 3, 4, 5, 6, 7, 8, 9, 10, 11, 12])
        4108 [21, 22, 23, 24])
      4096 [25, 26, 27, 28, 29, 30, 31, 32, 33, 34, 35, 36],
    write_addr := 4108, write_lease := 0, read_addr := 4108, read_lease := 0,
    written := [1, 2, 3, 4, 5, 6, 7, 8, 9, 10, 11, 12, 21, 22, 23, 24,
                25, 26, 27, 28, 29, 30, 31, 32, 33, 34, 35, 36],
    consumed := [1, 2, 3, 4, 5, 6, 7, 8, 9, 10, 11, 12, 21, 22, 23, 24,
                 25, 26, 27, 28, 29, 30, 31, 32, 33, 34, 35, 36] }

/-! # Properties -/

/-! ## Machine integers -/

theorem uint_sub_of_le (a b : Nat) (ha : a < UINT_RANGE) (hb : b ≤ a) : uint_sub a b = a - b := by
  simp only [uint_sub, UINT_RANGE] at *
  split <;> omega

theorem uint_add_of_lt (a b : Nat) (h : a + b < UINT_RANGE) : uint_add a b = a + b := by
  simp only [uint_add, UINT_RANGE] at *
  omega

theorem int_of_uint_le (u : Nat) (h : u < UINT_RANGE) : int_of_uint u ≤ (u : Int) := by
  simp only [int_of_uint, UINT_RANGE, INT_MAX] at *
  split <;> omega

theorem int_of_uint_small (u : Nat) (h : u ≤ INT_MAX) : int_of_uint u = (u : Int) := by
  simp only [int_of_uint, UINT_RANGE, INT_MAX] at *
  split <;> omega

theorem uint_of_int_of_uint (u : Nat) (h : u < UINT_RANGE) : uint_of_int (int_of_uint u) = u := by
  simp only [uint_of_int, int_of_uint, UINT_RANGE, INT_MAX] at *
  split <;> omega

theorem uint_of_int_zero : uint_of_int 0 = 0 := by
  decide

theorem int_of_uint_zero : int_of_uint 0 = 0 := by
  decide

theorem fifo_wrote_eq (gv : Bool) (f : xillyfifo) (n : Nat) :
    fifo_wrote gv f n =
      if n = 0 then f else
      { f with
        bytes_in_fifo := uint_add f.bytes_in_fifo n,
        write_total := ulong_add f.write_total n,
        write_position :=
          if uint_add f.write_position n ≥ f.size then
            uint_sub (uint_add f.write_position n) f.size
          else uint_add f.write_position n,
        read_sem := if gv = true ∧ f.read_sem = 0 then f.read_sem + 1 else f.read_sem } := by
  unfold fifo_wrote
  by_cases h0 : n = 0
  · simp [h0]
  · by_cases h1 : uint_add f.write_position n ≥ f.size <;> cases gv <;>
      by_cases h2 : f.read_sem = 0 <;> simp [h0, h1, h2, sem_post]

theorem fifo_drained_eq (gv : Bool) (f : xillyfifo) (n : Nat) :
    fifo_drained gv f n =
      if n = 0 then f else
      { f with
        bytes_in_fifo := uint_sub f.bytes_in_fifo n,
        read_total := ulong_add f.read_total n,
        read_position :=
          if uint_add f.read_position n ≥ f.size then
            uint_sub (uint_add f.read_position n) f.size
          else uint_add f.read_position n,
        write_sem := if gv = true ∧ f.write_sem = 0 then f.write_sem + 1 else f.write_sem } := by
  unfold fifo_drained
  by_cases h0 : n = 0
  · simp [h0]
  · by_cases h1 : uint_add f.read_position n ≥ f.size <;> cases gv <;>
      by_cases h2 : f.write_sem = 0 <;> simp [h0, h1, h2, sem_post]

theorem fifo_wrote_queue_inv (gv : Bool) (f : xillyfifo) (n : Nat) (h : queue_inv f)
    (h1 : n ≤ f.size - f.bytes_in_fifo) (h2 : n ≤ f.size - f.write_position) :
    queue_inv (fifo_wrote gv f n) := by
  rw [fifo_wrote_eq]
  by_cases h0 : n = 0
  · simpa [h0] using h
  · obtain ⟨a1, a2, a3, a4, a5, a6, a7⟩ := h
    have e1 : uint_add f.bytes_in_fifo n = f.bytes_in_fifo + n :=
      uint_add_of_lt _ _ (by omega)
    have e2 : uint_add f.write_position n = f.write_position + n :=
      uint_add_of_lt _ _ (by omega)
    simp only [h0, if_false, e1, e2, queue_inv]
    by_cases h3 : f.write_position + n ≥ f.size
    · have e3 : uint_sub (f.write_position + n) f.size = f.write_position + n - f.size :=
        uint_sub_of_le _ _ (by omega) h3
      simp only [h3, if_true, e3, ulong_add]
      refine ⟨a1, by omega, a3, by omega, by omega, a6, ?_⟩
      rw [a7]; simp only [ULONG_RANGE]; omega
    · simp only [h3, if_false, ulong_add]
      refine ⟨a1, by omega, a3, by omega, by omega, a6, ?_⟩
      rw [a7]; simp only [ULONG_RANGE]; omega

theorem fifo_drained_queue_inv (gv : Bool) (f : xillyfifo) (n : Nat) (h : queue_inv f)
    (h1 : n ≤ f.bytes_in_fifo) (h2 : n ≤ f.size - f.read_position) :
    queue_inv (fifo_drained gv f n) := by
  rw [fifo_drained_eq]
  by_cases h0 : n = 0
  · simpa [h0] using h
  · obtain ⟨a1, a2, a3, a4, a5, a6, a7⟩ := h
    have e1 : uint_sub f.bytes_in_fifo n = f.bytes_in_fifo - n :=
      uint_sub_of_le _ _ (by omega) h1
    have e2 : uint_add f.read_position n = f.read_position + n :=
      uint_add_of_lt _ _ (by omega)
    have e4 : f.write_total = (ulong_add f.read_total n + (f.bytes_in_fifo - n)) % ULONG_RANGE := by
      rw [a7]; simp only [ulong_add, ULONG_RANGE]; omega
    have e5 : ulong_add f.read_total n < ULONG_RANGE := by
      simp only [ulong_add, ULONG_RANGE]; omega
    simp only [h0, if_false, e1, e2, queue_inv]
    by_cases h3 : f.read_position + n ≥ f.size
    · have e3 : uint_sub (f.read_position + n) f.size = f.read_position + n - f.size :=
        uint_sub_of_le _ _ (by omega) h3
      simp only [h3, if_true, e3]
      exact ⟨a1, by omega, by omega, a4, by omega, e5, e4⟩
    · simp only [h3, if_false]
      exact ⟨a1, by omega, by omega, a4, by omega, e5, e4⟩

theorem fifo_done_queue_inv (f : xillyfifo) (h : queue_inv f) : queue_inv (fifo_done f) := by
  simpa [fifo_done, queue_inv] using h

theorem same_queue_refl (f : xillyfifo) : same_queue f f := by
  simp [same_queue]

theorem same_queue_trans {f g k : xillyfifo} (h1 : same_queue f g) (h2 : same_queue g k) :
    same_queue f k := by
  simp only [same_queue] at *
  omega

theorem same_queue_inv {f g : xillyfifo} (h : same_queue f g) (hf : queue_inv f) :
    queue_inv g := by
  obtain ⟨b1, b2, b3, b4, b5, b6, b7, b8⟩ := h
  simp only [queue_inv, b1, b2, b3, b4, b5, b6]
  exact hf

theorem same_queue_write_sem (f : xillyfifo) (k : Nat) :
    same_queue f { f with write_sem := k } := by
  simp [same_queue]

theorem same_queue_read_sem (f : xillyfifo) (k : Nat) :
    same_queue f { f with read_sem := k } := by
  simp [same_queue]

/-! ## sem_wait -/

theorem sem_wait_woke {evs rest : List wait_event} {sem sem1 : Nat}
    (h : sem_wait evs sem = wait_result.woke sem1 rest) :
    sem1 ≤ sem ∧ rest.length + sem1 < evs.length + sem := by
  unfold sem_wait at h
  split at h
  · simp at h
  · simp only [wait_result.woke.injEq] at h
    obtain ⟨rfl, rfl⟩ := h
    simp
  · split at h
    · simp at h
    · simp only [wait_result.woke.injEq] at h
      obtain ⟨rfl, rfl⟩ := h
      simp only [List.length_cons]
      omega
  · split at h
    · simp at h
    · simp only [wait_result.woke.injEq] at h
      obtain ⟨rfl, rfl⟩ := h
      simp only [List.length_nil]
      omega

theorem sem_wait_parked {evs : List wait_event} {sem : Nat}
    (h : sem_wait evs sem = wait_result.parked) : sem = 0 := by
  unfold sem_wait at h
  split at h
  · simp at h
  · simp at h
  · split at h
    · assumption
    · simp at h
  · split at h
    · assumption
    · simp at h

/-! ## The request functions -/

theorem write_finish_eq {f g : xillyfifo} {i0 i : xillyinfo} {t : Nat} {ret : Int}
    (h : write_finish f i0 t = Outcome.returned ret i g) :
    g = f ∧ ret = int_of_uint t ∧ i.bytes = int_of_uint t ∧
    i.position = int_of_uint f.write_position ∧ i.addr = i0.addr ∧ i.slept = i0.slept := by
  simp only [write_finish, Outcome.returned.injEq] at h
  obtain ⟨rfl, rfl, rfl⟩ := h
  simp

theorem write_grant_eq {f g : xillyfifo} {i0 i : xillyinfo} {now : Nat} {ret : Int}
    (h : write_grant f i0 now = Outcome.returned ret i g) :
    g = f ∧
    ret = int_of_uint (if uint_sub f.size (uint_add now FIFO_BACKOFF) > uint_sub f.size f.write_position
        then uint_sub f.size f.write_position else uint_sub f.size (uint_add now FIFO_BACKOFF)) ∧
    i.bytes = ret ∧ i.position = int_of_uint f.write_position ∧
    i.addr = f.baseaddr + f.write_position ∧ i.slept = i0.slept := by
  simp only [write_grant] at h
  obtain ⟨rfl, rfl, h3, h4, h5, h6⟩ := write_finish_eq h
  exact ⟨rfl, rfl, h3, h4, h5, h6⟩

theorem write_test_again {f g : xillyfifo} {i0 i : xillyinfo} {now : Nat}
    (h : write_test f i0 now = loop_result.again g i) :
    g = f ∧ i = { i0 with slept := 1 } ∧ now ≥ uint_sub f.size FIFO_BACKOFF := by
  unfold write_test at h
  split at h
  · simp only [loop_result.again.injEq] at h
    exact ⟨h.1.symm, h.2.symm, by assumption⟩
  · simp at h

theorem write_test_exit {f : xillyfifo} {i0 : xillyinfo} {now : Nat} {o : Outcome}
    (h : write_test f i0 now = loop_result.exit o) :
    now < uint_sub f.size FIFO_BACKOFF ∧ o = write_grant f i0 now := by
  unfold write_test at h
  split at h
  · simp at h
  · simp only [loop_result.exit.injEq] at h
    exact ⟨by omega, h.symm⟩

theorem write_recheck_again {f g : xillyfifo} {i0 i : xillyinfo}
    (h : write_recheck f i0 = loop_result.again g i) :
    g = f ∧ i = { i0 with slept := 1 } ∧ f.done = 0 ∧
    f.bytes_in_fifo ≥ uint_sub f.size FIFO_BACKOFF := by
  unfold write_recheck at h
  split at h
  · simp at h
  · obtain ⟨h1, h2, h3⟩ := write_test_again h
    exact ⟨h1, h2, by omega, h3⟩

theorem write_recheck_exit {f : xillyfifo} {i0 : xillyinfo} {o : Outcome}
    (h : write_recheck f i0 = loop_result.exit o) :
    (f.done ≠ 0 ∧ o = write_finish f i0 0) ∨
    (f.done = 0 ∧ f.bytes_in_fifo < uint_sub f.size FIFO_BACKOFF ∧
      o = write_grant f i0 f.bytes_in_fifo) := by
  unfold write_recheck at h
  split at h
  · simp only [loop_result.exit.injEq] at h
    exact Or.inl ⟨by assumption, h.symm⟩
  · obtain ⟨h1, h2⟩ := write_test_exit h
    exact Or.inr ⟨by omega, h1, h2⟩

/-- What a write request that returned has done: only semaphore units were
taken, and the result is either the zero-length lease of the label `fail` or the
lease computed from the occupancy, which then leaves room. -/
theorem write_wait_returned (fuel : Nat) :
    ∀ (evs : List wait_event) (f : xillyfifo) (info : xillyinfo) (ret : Int) (i : xillyinfo)
      (g : xillyfifo),
      write_wait fuel evs f info = some (Outcome.returned ret i g) →
      same_queue f g ∧ g.read_sem = f.read_sem ∧ g.write_sem ≤ f.write_sem ∧
      ∃ i0 : xillyinfo, (i0 = info ∨ i0 = { info with slept := 1 }) ∧
        (Outcome.returned ret i g = write_finish g i0 0 ∨
          (g.done = 0 ∧ g.bytes_in_fifo < uint_sub g.size FIFO_BACKOFF ∧
            Outcome.returned ret i g = write_grant g i0 g.bytes_in_fifo)) := by
  induction fuel with
  | zero => intro evs f info ret i g h; simp [write_wait] at h
  | succ fuel ih =>
    intro evs f info ret i g h
    unfold write_wait at h
    cases hw : sem_wait evs f.write_sem with
    | parked => simp [hw] at h
    | failed =>
      simp only [hw, Option.some.injEq] at h
      obtain ⟨rfl, -⟩ := write_finish_eq h
      exact ⟨same_queue_refl _, rfl, le_refl _, info, Or.inl rfl, Or.inl h.symm⟩
    | woke sem rest =>
      simp only [hw] at h
      obtain ⟨hs, -⟩ := sem_wait_woke hw
      cases hr : write_recheck { f with write_sem := sem } info with
      | exit o =>
        simp only [hr, Option.some.injEq] at h
        subst h
        rcases write_recheck_exit hr with ⟨-, h2⟩ | ⟨h1, h2, h3⟩
        · obtain ⟨rfl, -⟩ := write_finish_eq h2.symm
          exact ⟨same_queue_write_sem f sem, rfl, hs, info, Or.inl rfl, Or.inl h2⟩
        · obtain ⟨rfl, -⟩ := write_grant_eq h3.symm
          exact ⟨same_queue_write_sem f sem, rfl, hs, info, Or.inl rfl, Or.inr ⟨h1, h2, h3⟩⟩
      | again f1 i1 =>
        simp only [hr] at h
        obtain ⟨rfl, rfl, -, -⟩ := write_recheck_again hr
        obtain ⟨k1, k2, k3, i0, k4, k5⟩ := ih rest _ _ ret i g h
        refine ⟨same_queue_trans (same_queue_write_sem f sem) k1, k2, ?_, i0, ?_, k5⟩
        · simp only at k3; omega
        · rcases k4 with k4 | k4
          · exact Or.inr k4
          · exact Or.inr k4

theorem write_wait_blocked (fuel : Nat) :
    ∀ (evs : List wait_event) (f : xillyfifo) (info i : xillyinfo) (g : xillyfifo),
      write_wait fuel evs f info = some (Outcome.blocked i g) →
      same_queue f g ∧ g.read_sem = f.read_sem ∧ g.write_sem = 0 ∧
      (i = info ∨ i = { info with slept := 1 }) := by
  induction fuel with
  | zero => intro evs f info i g h; simp [write_wait] at h
  | succ fuel ih =>
    intro evs f info i g h
    unfold write_wait at h
    cases hw : sem_wait evs f.write_sem with
    | parked =>
      simp only [hw, Option.some.injEq, Outcome.blocked.injEq] at h
      obtain ⟨rfl, rfl⟩ := h
      exact ⟨same_queue_refl _, rfl, sem_wait_parked hw, Or.inl rfl⟩
    | failed =>
      simp only [hw, Option.some.injEq, write_finish] at h
      simp at h
    | woke sem rest =>
      simp only [hw] at h
      cases hr : write_recheck { f with write_sem := sem } info with
      | exit o =>
        simp only [hr, Option.some.injEq] at h
        subst h
        rcases write_recheck_exit hr with ⟨-, h2⟩ | ⟨-, -, h3⟩
        · simp [write_finish] at h2
        · simp [write_grant, write_finish] at h3
      | again f1 i1 =>
        simp only [hr] at h
        obtain ⟨rfl, rfl, -, -⟩ := write_recheck_again hr
        obtain ⟨k1, k2, k3, k4⟩ := ih rest _ _ i g h
        refine ⟨same_queue_trans (same_queue_write_sem f sem) k1, k2, k3, ?_⟩
        rcases k4 with k4 | k4
        · exact Or.inr k4
        · exact Or.inr k4

theorem write_wait_some (fuel : Nat) :
    ∀ (evs : List wait_event) (f : xillyfifo) (info : xillyinfo),
      evs.length + f.write_sem < fuel → ∃ o, write_wait fuel evs f info = some o := by
  induction fuel with
  | zero => intro evs f info h; omega
  | succ fuel ih =>
    intro evs f info h
    unfold write_wait
    cases hw : sem_wait evs f.write_sem with
    | parked => exact ⟨_, rfl⟩
    | failed => exact ⟨_, rfl⟩
    | woke sem rest =>
      obtain ⟨-, hs⟩ := sem_wait_woke hw
      dsimp only
      cases hr : write_recheck { f with write_sem := sem } info with
      | exit o => exact ⟨_, rfl⟩
      | again f1 i1 =>
        obtain ⟨rfl, rfl, -, -⟩ := write_recheck_again hr
        exact ih rest _ _ (by show rest.length + sem < fuel; omega)

theorem queue_inv_lease_values {f : xillyfifo} (h : queue_inv f) :
    uint_sub f.size FIFO_BACKOFF = f.size ∧
    uint_sub f.size (uint_add f.bytes_in_fifo FIFO_BACKOFF) = f.size - f.bytes_in_fifo ∧
    uint_sub f.size f.write_position = f.size - f.write_position ∧
    uint_sub f.size f.read_position = f.size - f.read_position := by
  obtain ⟨a1, a2, a3, a4, a5, a6, a7⟩ := h
  have e0 : uint_add f.bytes_in_fifo FIFO_BACKOFF = f.bytes_in_fifo :=
    uint_add_of_lt _ _ (by simp only [FIFO_BACKOFF]; omega)
  rw [e0]
  exact ⟨uint_sub_of_le _ _ a1 (by simp [FIFO_BACKOFF]), uint_sub_of_le _ _ a1 a2,
    uint_sub_of_le _ _ a1 (by omega), uint_sub_of_le _ _ a1 (by omega)⟩

theorem fifo_request_write_eq (evs : List wait_event) (f : xillyfifo) (info : xillyinfo) :
    fifo_request_write evs f info =
      if f.done ≠ 0 then some (write_finish f { info with slept := 0, addr := 0 } 0)
      else if f.bytes_in_fifo ≥ uint_sub f.size FIFO_BACKOFF then
        write_wait (wait_bound evs f.write_sem) evs f { info with slept := 1, addr := 0 }
      else some (write_grant f { info with slept := 0, addr := 0 } f.bytes_in_fifo) := by
  unfold fifo_request_write write_test
  by_cases h1 : f.done ≠ 0
  · simp only [if_pos h1]
  · by_cases h2 : f.bytes_in_fifo ≥ uint_sub f.size FIFO_BACKOFF
    · simp only [if_neg h1, if_pos h2]
    · simp only [if_neg h1, if_neg h2]

theorem fifo_request_write_resume_eq (evs : List wait_event) (f : xillyfifo) (info : xillyinfo) :
    fifo_request_write_resume evs f info = write_wait (wait_bound evs f.write_sem) evs f info := by
  rfl

theorem wait_bound_gt (evs : List wait_event) (sem : Nat) : evs.length + sem < wait_bound evs sem := by
  simp [wait_bound]

theorem fifo_request_write_returned {evs : List wait_event} {f g : xillyfifo}
    {info i : xillyinfo} {ret : Int}
    (h : fifo_request_write evs f info = some (Outcome.returned ret i g)) :
    same_queue f g ∧ g.read_sem = f.read_sem ∧ g.write_sem ≤ f.write_sem ∧
    ∃ i0 : xillyinfo, i0.addr = 0 ∧
      (Outcome.returned ret i g = write_finish g i0 0 ∨
        (g.done = 0 ∧ g.bytes_in_fifo < uint_sub g.size FIFO_BACKOFF ∧
          Outcome.returned ret i g = write_grant g i0 g.bytes_in_fifo)) := by
  rw [fifo_request_write_eq] at h
  by_cases h1 : f.done ≠ 0
  · rw [if_pos h1, Option.some.injEq] at h
    obtain ⟨rfl, -⟩ := write_finish_eq h
    exact ⟨same_queue_refl _, rfl, le_refl _, _, rfl, Or.inl h.symm⟩
  · rw [if_neg h1] at h
    by_cases h2 : f.bytes_in_fifo ≥ uint_sub f.size FIFO_BACKOFF
    · rw [if_pos h2] at h
      obtain ⟨k1, k2, k3, i0, k4, k5⟩ := write_wait_returned _ _ _ _ _ _ _ h
      refine ⟨k1, k2, k3, i0, ?_, k5⟩
      rcases k4 with rfl | rfl <;> rfl
    · rw [if_neg h2, Option.some.injEq] at h
      obtain ⟨rfl, -⟩ := write_grant_eq h
      exact ⟨same_queue_refl _, rfl, le_refl _, _, rfl, Or.inr ⟨by omega, by omega, h.symm⟩⟩

theorem fifo_request_write_some (evs : List wait_event) (f : xillyfifo) (info : xillyinfo) :
    ∃ o, fifo_request_write evs f info = some o := by
  rw [fifo_request_write_eq]
  split_ifs
  · exact ⟨_, rfl⟩
  · exact write_wait_some _ _ _ _ (wait_bound_gt _ _)
  · exact ⟨_, rfl⟩

theorem fifo_request_write_resume_some (evs : List wait_event) (f : xillyfifo) (info : xillyinfo) :
    ∃ o, fifo_request_write_resume evs f info = some o :=
  write_wait_some _ _ _ _ (wait_bound_gt _ _)

theorem drain_finish_eq {f g : xillyfifo} {i0 i : xillyinfo} {t ret : Int}
    (h : drain_finish f i0 t = Outcome.returned ret i g) :
    g = f ∧ ret = t ∧ i.bytes = t ∧
    i.position = int_of_uint f.read_position ∧ i.addr = i0.addr ∧ i.slept = i0.slept := by
  simp only [drain_finish, Outcome.returned.injEq] at h
  obtain ⟨rfl, rfl, rfl⟩ := h
  simp

theorem drain_grant_eq {f g : xillyfifo} {i0 i : xillyinfo} {now : Nat} {ret : Int}
    (h : drain_grant f i0 now = Outcome.returned ret i g) :
    g = f ∧
    ret = int_of_uint (if now < uint_sub f.size f.read_position then now
        else uint_sub f.size f.read_position) ∧
    i.bytes = ret ∧ i.position = int_of_uint f.read_position ∧
    i.addr = f.baseaddr + f.read_position ∧ i.slept = i0.slept := by
  simp only [drain_grant] at h
  obtain ⟨rfl, rfl, h3, h4, h5, h6⟩ := drain_finish_eq h
  exact ⟨rfl, rfl, h3, h4, h5, h6⟩

theorem drain_test_again {f g : xillyfifo} {i0 i : xillyinfo} {now : Nat}
    (h : drain_test f i0 now = loop_result.again g i) :
    g = f ∧ i = { i0 with slept := 1 } ∧ now = 0 ∧ f.done = 0 := by
  unfold drain_test at h
  split at h
  · split at h
    · simp at h
    · simp only [loop_result.again.injEq] at h
      exact ⟨h.1.symm, h.2.symm, by assumption, by omega⟩
  · simp at h

theorem drain_test_exit {f : xillyfifo} {i0 : xillyinfo} {now : Nat} {o : Outcome}
    (h : drain_test f i0 now = loop_result.exit o) :
    (now = 0 ∧ f.done ≠ 0 ∧ o = drain_finish f i0 0) ∨
    (now ≠ 0 ∧ o = drain_grant f i0 now) := by
  unfold drain_test at h
  split at h
  · split at h
    · simp only [loop_result.exit.injEq] at h
      exact Or.inl ⟨by assumption, by assumption, h.symm⟩
    · simp at h
  · simp only [loop_result.exit.injEq] at h
    exact Or.inr ⟨by assumption, h.symm⟩

/-- What a drain request that returned has done: only semaphore units were
taken, and the result is either the zero-length lease of the label `fail` or the
lease computed from a nonzero occupancy. -/
theorem drain_wait_returned (fuel : Nat) :
    ∀ (evs : List wait_event) (f : xillyfifo) (info : xillyinfo) (ret : Int) (i : xillyinfo)
      (g : xillyfifo),
      drain_wait fuel evs f info = some (Outcome.returned ret i g) →
      same_queue f g ∧ g.write_sem = f.write_sem ∧ g.read_sem ≤ f.read_sem ∧
      ∃ i0 : xillyinfo, (i0 = info ∨ i0 = { info with slept := 1 }) ∧
        (Outcome.returned ret i g = drain_finish g i0 0 ∨
          (g.bytes_in_fifo ≠ 0 ∧
            Outcome.returned ret i g = drain_grant g i0 g.bytes_in_fifo)) := by
  induction fuel with
  | zero => intro evs f info ret i g h; simp [drain_wait] at h
  | succ fuel ih =>
    intro evs f info ret i g h
    unfold drain_wait at h
    cases hw : sem_wait evs f.read_sem with
    | parked => simp [hw] at h
    | failed =>
      simp only [hw, Option.some.injEq] at h
      obtain ⟨rfl, -⟩ := drain_finish_eq h
      exact ⟨same_queue_refl _, rfl, le_refl _, info, Or.inl rfl, Or.inl h.symm⟩
    | woke sem rest =>
      simp only [hw] at h
      obtain ⟨hs, -⟩ := sem_wait_woke hw
      cases hr : drain_recheck { f with read_sem := sem } info with
      | exit o =>
        simp only [hr, Option.some.injEq] at h
        subst h
        unfold drain_recheck at hr
        rcases drain_test_exit hr with ⟨-, -, h2⟩ | ⟨h1, h3⟩
        · obtain ⟨rfl, -⟩ := drain_finish_eq h2.symm
          exact ⟨same_queue_read_sem f sem, rfl, hs, info, Or.inl rfl, Or.inl h2⟩
        · obtain ⟨rfl, -⟩ := drain_grant_eq h3.symm
          exact ⟨same_queue_read_sem f sem, rfl, hs, info, Or.inl rfl, Or.inr ⟨h1, h3⟩⟩
      | again f1 i1 =>
        simp only [hr] at h
        unfold drain_recheck at hr
        obtain ⟨rfl, rfl, -, -⟩ := drain_test_again hr
        obtain ⟨k1, k2, k3, i0, k4, k5⟩ := ih rest _ _ ret i g h
        refine ⟨same_queue_trans (same_queue_read_sem f sem) k1, k2, ?_, i0, ?_, k5⟩
        · simp only at k3; omega
        · rcases k4 with k4 | k4
          · exact Or.inr k4
          · exact Or.inr k4

theorem drain_wait_blocked (fuel : Nat) :
    ∀ (evs : List wait_event) (f : xillyfifo) (info i : xillyinfo) (g : xillyfifo),
      drain_wait fuel evs f info = some (Outcome.blocked i g) →
      same_queue f g ∧ g.write_sem = f.write_sem ∧ g.read_sem = 0 ∧
      (i = info ∨ i = { info with slept := 1 }) := by
  induction fuel with
  | zero => intro evs f info i g h; simp [drain_wait] at h
  | succ fuel ih =>
    intro evs f info i g h
    unfold drain_wait at h
    cases hw : sem_wait evs f.read_sem with
    | parked =>
      simp only [hw, Option.some.injEq, Outcome.blocked.injEq] at h
      obtain ⟨rfl, rfl⟩ := h
      exact ⟨same_queue_refl _, rfl, sem_wait_parked hw, Or.inl rfl⟩
    | failed =>
      simp only [hw, Option.some.injEq, drain_finish] at h
      simp at h
    | woke sem rest =>
      simp only [hw] at h
      cases hr : drain_recheck { f with read_sem := sem } info with
      | exit o =>
        simp only [hr, Option.some.injEq] at h
        subst h
        unfold drain_recheck at hr
        rcases drain_test_exit hr with ⟨-, -, h2⟩ | ⟨-, h3⟩
        · simp [drain_finish] at h2
        · simp [drain_grant, drain_finish] at h3
      | again f1 i1 =>
        simp only [hr] at h
        unfold drain_recheck at hr
        obtain ⟨rfl, rfl, -, -⟩ := drain_test_again hr
        obtain ⟨k1, k2, k3, k4⟩ := ih rest _ _ i g h
        refine ⟨same_queue_trans (same_queue_read_sem f sem) k1, k2, k3, ?_⟩
        rcases k4 with k4 | k4
        · exact Or.inr k4
        · exact Or.inr k4

theorem drain_wait_some (fuel : Nat) :
    ∀ (evs : List wait_event) (f : xillyfifo) (info : xillyinfo),
      evs.length + f.read_sem < fuel → ∃ o, drain_wait fuel evs f info = some o := by
  induction fuel with
  | zero => intro evs f info h; omega
  | succ fuel ih =>
    intro evs f info h
    unfold drain_wait
    cases hw : sem_wait evs f.read_sem with
    | parked => exact ⟨_, rfl⟩
    | failed => exact ⟨_, rfl⟩
    | woke sem rest =>
      obtain ⟨-, hs⟩ := sem_wait_woke hw
      dsimp only
      cases hr : drain_recheck { f with read_sem := sem } info with
      | exit o => exact ⟨_, rfl⟩
      | again f1 i1 =>
        unfold drain_recheck at hr
        obtain ⟨rfl, rfl, -, -⟩ := drain_test_again hr
        exact ih rest _ _ (by show rest.length + sem < fuel; omega)

theorem fifo_request_drain_eq (evs : List wait_event) (f : xillyfifo) (info : xillyinfo) :
    fifo_request_drain evs f info =
      if f.bytes_in_fifo = 0 then
        if f.done ≠ 0 then some (drain_finish f { info with slept := 0, addr := 0 } 0)
        else drain_wait (wait_bound evs f.read_sem) evs f { info with slept := 1, addr := 0 }
      else some (drain_grant f { info with slept := 0, addr := 0 } f.bytes_in_fifo) := by
  unfold fifo_request_drain drain_test
  by_cases h1 : f.bytes_in_fifo = 0
  · by_cases h2 : f.done ≠ 0
    · simp only [if_pos h1, if_pos h2]
    · simp only [if_pos h1, if_neg h2]
  · simp only [if_neg h1]

theorem fifo_request_drain_resume_eq (evs : List wait_event) (f : xillyfifo) (info : xillyinfo) :
    fifo_request_drain_resume evs f info = drain_wait (wait_bound evs f.read_sem) evs f info := by
  rfl

theorem fifo_request_drain_returned {evs : List wait_event} {f g : xillyfifo}
    {info i : xillyinfo} {ret : Int}
    (h : fifo_request_drain evs f info = some (Outcome.returned ret i g)) :
    same_queue f g ∧ g.write_sem = f.write_sem ∧ g.read_sem ≤ f.read_sem ∧
    ∃ i0 : xillyinfo, i0.addr = 0 ∧
      (Outcome.returned ret i g = drain_finish g i0 0 ∨
        (g.bytes_in_fifo ≠ 0 ∧
          Outcome.returned ret i g = drain_grant g i0 g.bytes_in_fifo)) := by
  rw [fifo_request_drain_eq] at h
  by_cases h1 : f.bytes_in_fifo = 0
  · rw [if_pos h1] at h
    by_cases h2 : f.done ≠ 0
    · rw [if_pos h2, Option.some.injEq] at h
      obtain ⟨rfl, -⟩ := drain_finish_eq h
      exact ⟨same_queue_refl _, rfl, le_refl _, _, rfl, Or.inl h.symm⟩
    · rw [if_neg h2] at h
      obtain ⟨k1, k2, k3, i0, k4, k5⟩ := drain_wait_returned _ _ _ _ _ _ _ h
      refine ⟨k1, k2, k3, i0, ?_, k5⟩
      rcases k4 with rfl | rfl <;> rfl
  · rw [if_neg h1, Option.some.injEq] at h
    obtain ⟨rfl, -⟩ := drain_grant_eq h
    exact ⟨same_queue_refl _, rfl, le_refl _, _, rfl, Or.inr ⟨h1, h.symm⟩⟩

theorem fifo_request_drain_some (evs : List wait_event) (f : xillyfifo) (info : xillyinfo) :
    ∃ o, fifo_request_drain evs f info = some o := by
  rw [fifo_request_drain_eq]
  split_ifs
  · exact ⟨_, rfl⟩
  · exact drain_wait_some _ _ _ _ (wait_bound_gt _ _)
  · exact ⟨_, rfl⟩

theorem fifo_request_drain_resume_some (evs : List wait_event) (f : xillyfifo) (info : xillyinfo) :
    ∃ o, fifo_request_drain_resume evs f info = some o :=
  drain_wait_some _ _ _ _ (wait_bound_gt _ _)

/-! ## Leases stay inside the buffer -/

theorem write_result_bounds {g : xillyfifo} {ret : Int} {i i0 : xillyinfo} (hq : queue_inv g)
    (h : Outcome.returned ret i g = write_finish g i0 0 ∨
      (g.done = 0 ∧ g.bytes_in_fifo < uint_sub g.size FIFO_BACKOFF ∧
        Outcome.returned ret i g = write_grant g i0 g.bytes_in_fifo)) :
    ret = i.bytes ∧ uint_of_int ret ≤ g.size - g.bytes_in_fifo ∧
    uint_of_int ret ≤ g.size - g.write_position ∧ i.position + i.bytes ≤ (g.size : Int) ∧
    (0 < uint_of_int ret → i.addr = g.baseaddr + g.write_position) := by
  obtain ⟨e0, e1, e2, -⟩ := queue_inv_lease_values hq
  obtain ⟨a1, a2, a3, a4, a5, a6, a7⟩ := hq
  have hp := int_of_uint_le g.write_position (by omega)
  rcases h with h | ⟨-, -, h⟩
  · obtain ⟨-, r1, r2, r3, -, -⟩ := write_finish_eq h.symm
    rw [int_of_uint_zero] at r1 r2
    rw [r1, r2, r3, uint_of_int_zero]
    refine ⟨rfl, by omega, by omega, by omega, by omega⟩
  · obtain ⟨-, r1, r2, r3, r4, -⟩ := write_grant_eq h.symm
    rw [e1, e2] at r1
    have hle : (if g.size - g.bytes_in_fifo > g.size - g.write_position
        then g.size - g.write_position else g.size - g.bytes_in_fifo) ≤
        g.size - g.bytes_in_fifo ∧
        (if g.size - g.bytes_in_fifo > g.size - g.write_position
        then g.size - g.write_position else g.size - g.bytes_in_fifo) ≤
        g.size - g.write_position := by
      split <;> omega
    generalize (if g.size - g.bytes_in_fifo > g.size - g.write_position
        then g.size - g.write_position else g.size - g.bytes_in_fifo) = t at r1 hle
    have ht := int_of_uint_le t (by omega)
    rw [r2, r3, r1, uint_of_int_of_uint t (by omega)]
    refine ⟨rfl, by omega, by omega, by omega, fun _ => r4⟩

theorem drain_result_bounds {g : xillyfifo} {ret : Int} {i i0 : xillyinfo} (hq : queue_inv g)
    (h : Outcome.returned ret i g = drain_finish g i0 0 ∨
      (g.bytes_in_fifo ≠ 0 ∧ Outcome.returned ret i g = drain_grant g i0 g.bytes_in_fifo)) :
    ret = i.bytes ∧ uint_of_int ret ≤ g.bytes_in_fifo ∧
    uint_of_int ret ≤ g.size - g.read_position ∧ i.position + i.bytes ≤ (g.size : Int) ∧
    (0 < uint_of_int ret → i.addr = g.baseaddr + g.read_position) := by
  obtain ⟨-, -, -, e3⟩ := queue_inv_lease_values hq
  obtain ⟨a1, a2, a3, a4, a5, a6, a7⟩ := hq
  have hp := int_of_uint_le g.read_position (by omega)
  rcases h with h | ⟨-, h⟩
  · obtain ⟨-, r1, r2, r3, -, -⟩ := drain_finish_eq h.symm
    rw [r1, r2, r3, uint_of_int_zero]
    refine ⟨rfl, by omega, by omega, by omega, by omega⟩
  · obtain ⟨-, r1, r2, r3, r4, -⟩ := drain_grant_eq h.symm
    rw [e3] at r1
    have hle : (if g.bytes_in_fifo < g.size - g.read_position
        then g.bytes_in_fifo else g.size - g.read_position) ≤ g.bytes_in_fifo ∧
        (if g.bytes_in_fifo < g.size - g.read_position
        then g.bytes_in_fifo else g.size - g.read_position) ≤ g.size - g.read_position := by
      split <;> omega
    generalize (if g.bytes_in_fifo < g.size - g.read_position
        then g.bytes_in_fifo else g.size - g.read_position) = t at r1 hle
    have ht := int_of_uint_le t (by omega)
    rw [r2, r3, r1, uint_of_int_of_uint t (by omega)]
    refine ⟨rfl, by omega, by omega, by omega, fun _ => r4⟩

/-! ## fifo_init -/

theorem fifo_init_success {fuel : Nat} {env : init_env} {f0 f : xillyfifo} {m0 m : Memory}
    {size : Nat} (h : fifo_init fuel env f0 m0 size = some (0, f, m)) :
    f = fifo_fresh size env.malloc_addr ∧ env.malloc_addr ≠ 0 := by
  unfold fifo_init at h
  dsimp only at h
  split at h
  · simp at h
  · split at h
    · simp at h
    · split at h
      · simp at h
      · rename_i h3
        split at h
        · split at h
          · simp at h
          · simp only [Option.some.injEq, Prod.mk.injEq, true_and] at h
            exact ⟨h.1.symm, h3⟩
        · simp only [Option.some.injEq, Prod.mk.injEq, true_and] at h
          exact ⟨h.1.symm, h3⟩

theorem fifo_fresh_queue_inv (size addr : Nat) (h : size < UINT_RANGE) :
    queue_inv (fifo_fresh size addr) := by
  refine ⟨h, Nat.zero_le _, ?_, ?_, Or.inl rfl, ?_, rfl⟩
  rotate_left 2
  · show 0 < ULONG_RANGE
    decide
  · show 0 < size ∨ (size = 0 ∧ 0 = 0)
    omega
  · show 0 < size ∨ (size = 0 ∧ 0 = 0)
    omega

theorem init_success_fresh {size : Nat} {f : xillyfifo} (h : init_success size f) :
    ∃ addr, addr ≠ 0 ∧ f = fifo_fresh size addr ∧ size < UINT_RANGE := by
  obtain ⟨hs, fuel, env, f0, m0, m, hi⟩ := h
  obtain ⟨h1, h2⟩ := fifo_init_success hi
  exact ⟨_, h2, h1, hs⟩

theorem init_success_of_fresh (size addr : Nat) (hs : size < UINT_RANGE) (ha : addr ≠ 0) :
    init_success size (fifo_fresh size addr) := by
  refine ⟨hs, 0, ⟨true, true, addr, true⟩, fifo_fresh 0 0, fun _ => 0, fun _ => 0, ?_⟩
  simp [fifo_init, fifo_fresh, ha]

/-! ## The fields after a commit -/

theorem fifo_wrote_fields (gv : Bool) (f : xillyfifo) (n : Nat) (hq : queue_inv f)
    (h1 : n ≤ f.size - f.bytes_in_fifo) (h2 : n ≤ f.size - f.write_position) :
    (fifo_wrote gv f n).bytes_in_fifo = f.bytes_in_fifo + n ∧
    (fifo_wrote gv f n).write_total = ulong_add f.write_total n ∧
    (fifo_wrote gv f n).write_position =
      (if f.write_position + n ≥ f.size then f.write_position + n - f.size
       else f.write_position + n) ∧
    (fifo_wrote gv f n).read_position = f.read_position ∧
    (fifo_wrote gv f n).read_total = f.read_total ∧
    (fifo_wrote gv f n).size = f.size ∧
    (fifo_wrote gv f n).done = f.done ∧
    (fifo_wrote gv f n).baseaddr = f.baseaddr ∧
    (fifo_wrote gv f n).write_sem = f.write_sem ∧
    (fifo_wrote gv f n).read_sem =
      (if n ≠ 0 ∧ gv = true ∧ f.read_sem = 0 then 1 else f.read_sem) := by
  obtain ⟨a1, a2, a3, a4, a5, a6, a7⟩ := hq
  rw [fifo_wrote_eq]
  by_cases h0 : n = 0
  · subst h0
    have e : ulong_add f.write_total 0 = f.write_total := by
      rw [a7]; simp only [ulong_add, ULONG_RANGE]; omega
    simp only [if_true, e, Nat.add_zero, ne_eq, not_true_eq_false, false_and, if_false]
    refine ⟨trivial, trivial, ?_, trivial, trivial, trivial, trivial, trivial, trivial, trivial⟩
    split <;> omega
  · have e1 : uint_add f.bytes_in_fifo n = f.bytes_in_fifo + n :=
      uint_add_of_lt _ _ (by omega)
    have e2 : uint_add f.write_position n = f.write_position + n :=
      uint_add_of_lt _ _ (by omega)
    simp only [h0, if_false, e1, e2, ne_eq, not_false_eq_true, true_and]
    refine ⟨?_, ?_⟩
    · by_cases h3 : f.write_position + n ≥ f.size
      · simp only [h3, if_true]
        exact uint_sub_of_le _ _ (by omega) h3
      · simp only [h3, if_false]
    · split <;> simp_all

theorem fifo_drained_fields (gv : Bool) (f : xillyfifo) (n : Nat) (hq : queue_inv f)
    (h1 : n ≤ f.bytes_in_fifo) (h2 : n ≤ f.size - f.read_position) :
    (fifo_drained gv f n).bytes_in_fifo = f.bytes_in_fifo - n ∧
    (fifo_drained gv f n).read_total = ulong_add f.read_total n ∧
    (fifo_drained gv f n).read_position =
      (if f.read_position + n ≥ f.size then f.read_position + n - f.size
       else f.read_position + n) ∧
    (fifo_drained gv f n).write_position = f.write_position ∧
    (fifo_drained gv f n).write_total = f.write_total ∧
    (fifo_drained gv f n).size = f.size ∧
    (fifo_drained gv f n).done = f.done ∧
    (fifo_drained gv f n).baseaddr = f.baseaddr ∧
    (fifo_drained gv f n).read_sem = f.read_sem ∧
    (fifo_drained gv f n).write_sem =
      (if n ≠ 0 ∧ gv = true ∧ f.write_sem = 0 then 1 else f.write_sem) := by
  obtain ⟨a1, a2, a3, a4, a5, a6, a7⟩ := hq
  rw [fifo_drained_eq]
  by_cases h0 : n = 0
  · subst h0
    have e : ulong_add f.read_total 0 = f.read_total := by
      simp only [ulong_add, ULONG_RANGE] at *; omega
    simp only [if_true, e, Nat.add_zero, Nat.sub_zero, ne_eq, not_true_eq_false, false_and,
      if_false]
    refine ⟨trivial, trivial, ?_, trivial, trivial, trivial, trivial, trivial, trivial, trivial⟩
    split <;> omega
  · have e1 : uint_sub f.bytes_in_fifo n = f.bytes_in_fifo - n :=
      uint_sub_of_le _ _ (by omega) h1
    have e2 : uint_add f.read_position n = f.read_position + n :=
      uint_add_of_lt _ _ (by omega)
    simp only [h0, if_false, e1, e2, ne_eq, not_false_eq_true, true_and]
    refine ⟨?_, ?_⟩
    · by_cases h3 : f.read_position + n ≥ f.size
      · simp only [h3, if_true]
        exact uint_sub_of_le _ _ (by omega) h3
      · simp only [h3, if_false]
    · split <;> simp_all

/-! ## The caller contract keeps a session consistent -/

theorem session_inv_same {f g : xillyfifo} {wl rl : Nat} (hs : same_queue f g)
    (h : session_inv { fifo := f, write_lease := wl, read_lease := rl }) :
    session_inv { fifo := g, write_lease := wl, read_lease := rl } := by
  obtain ⟨h0, h1, h2, h3, h4⟩ := h
  have hq := same_queue_inv hs h0
  obtain ⟨b1, b2, b3, b4, b5, b6, b7, b8⟩ := hs
  refine ⟨hq, ?_, ?_, ?_, ?_⟩
  · show wl ≤ g.size - g.bytes_in_fifo
    rw [b6, b3]; exact h1
  · show wl ≤ g.size - g.write_position
    rw [b6, b5]; exact h2
  · show rl ≤ g.bytes_in_fifo
    rw [b3]; exact h3
  · show rl ≤ g.size - g.read_position
    rw [b6, b4]; exact h4

theorem after_write_request_inv {s s1 : session} {f : xillyfifo} {o : Option Outcome}
    (hi : session_inv s) (hf : f = s.fifo)
    (ho : ∀ ret i g, o = some (Outcome.returned ret i g) →
      same_queue f g ∧ ∃ i0 : xillyinfo,
        (Outcome.returned ret i g = write_finish g i0 0 ∨
          (g.done = 0 ∧ g.bytes_in_fifo < uint_sub g.size FIFO_BACKOFF ∧
            Outcome.returned ret i g = write_grant g i0 g.bytes_in_fifo)))
    (hb : ∀ i g, o = some (Outcome.blocked i g) → same_queue f g)
    (h : after_write_request s o = some s1) : session_inv s1 := by
  subst hf
  cases o with
  | none => simp [after_write_request] at h
  | some oo =>
    cases oo with
    | returned ret i g =>
      simp only [after_write_request, Option.some.injEq] at h
      subst h
      obtain ⟨hs, i0, hr⟩ := ho ret i g rfl
      have hsame := @session_inv_same s.fifo g s.write_lease s.read_lease hs hi
      obtain ⟨h0, h1, h2, h3, h4⟩ := hsame
      obtain ⟨-, r1, r2, -, -⟩ := write_result_bounds h0 hr
      exact ⟨h0, r1, r2, h3, h4⟩
    | blocked i g =>
      simp only [after_write_request, Option.some.injEq] at h
      subst h
      exact session_inv_same (hb i g rfl) hi

theorem after_drain_request_inv {s s1 : session} {f : xillyfifo} {o : Option Outcome}
    (hi : session_inv s) (hf : f = s.fifo)
    (ho : ∀ ret i g, o = some (Outcome.returned ret i g) →
      same_queue f g ∧ ∃ i0 : xillyinfo,
        (Outcome.returned ret i g = drain_finish g i0 0 ∨
          (g.bytes_in_fifo ≠ 0 ∧
            Outcome.returned ret i g = drain_grant g i0 g.bytes_in_fifo)))
    (hb : ∀ i g, o = some (Outcome.blocked i g) → same_queue f g)
    (h : after_drain_request s o = some s1) : session_inv s1 := by
  subst hf
  cases o with
  | none => simp [after_drain_request] at h
  | some oo =>
    cases oo with
    | returned ret i g =>
      simp only [after_drain_request, Option.some.injEq] at h
      subst h
      obtain ⟨hs, i0, hr⟩ := ho ret i g rfl
      have hsame := @session_inv_same s.fifo g s.write_lease s.read_lease hs hi
      obtain ⟨h0, h1, h2, h3, h4⟩ := hsame
      obtain ⟨-, r1, r2, -, -⟩ := drain_result_bounds h0 hr
      exact ⟨h0, h1, h2, r1, r2⟩
    | blocked i g =>
      simp only [after_drain_request, Option.some.injEq] at h
      subst h
      exact session_inv_same (hb i g rfl) hi

/-- What any write request (fresh or resumed) that returned satisfies. -/
theorem write_request_returned_any {evs : List wait_event} {f g : xillyfifo}
    {info i : xillyinfo} {ret : Int}
    (h : fifo_request_write evs f info = some (Outcome.returned ret i g) ∨
      fifo_request_write_resume evs f info = some (Outcome.returned ret i g)) :
    same_queue f g ∧ g.read_sem = f.read_sem ∧ g.write_sem ≤ f.write_sem ∧
    ∃ i0 : xillyinfo,
      (Outcome.returned ret i g = write_finish g i0 0 ∨
        (g.done = 0 ∧ g.bytes_in_fifo < uint_sub g.size FIFO_BACKOFF ∧
          Outcome.returned ret i g = write_grant g i0 g.bytes_in_fifo)) := by
  rcases h with h | h
  · obtain ⟨k1, k2, k3, i0, -, k5⟩ := fifo_request_write_returned h
    exact ⟨k1, k2, k3, i0, k5⟩
  · obtain ⟨k1, k2, k3, i0, -, k5⟩ := write_wait_returned _ _ _ _ _ _ _ h
    exact ⟨k1, k2, k3, i0, k5⟩

theorem write_request_blocked_any {evs : List wait_event} {f g : xillyfifo}
    {info i : xillyinfo}
    (h : fifo_request_write evs f info = some (Outcome.blocked i g) ∨
      fifo_request_write_resume evs f info = some (Outcome.blocked i g)) :
    same_queue f g ∧ g.read_sem = f.read_sem ∧ g.write_sem = 0 := by
  rcases h with h | h
  · rw [fifo_request_write_eq] at h
    split_ifs at h
    · simp [write_finish] at h
    · obtain ⟨k1, k2, k3, -⟩ := write_wait_blocked _ _ _ _ _ _ h
      exact ⟨k1, k2, k3⟩
    · simp [write_grant, write_finish] at h
  · obtain ⟨k1, k2, k3, -⟩ := write_wait_blocked _ _ _ _ _ _ h
    exact ⟨k1, k2, k3⟩

/-- What any drain request (fresh or resumed) that returned satisfies. -/
theorem drain_request_returned_any {evs : List wait_event} {f g : xillyfifo}
    {info i : xillyinfo} {ret : Int}
    (h : fifo_request_drain evs f info = some (Outcome.returned ret i g) ∨
      fifo_request_drain_resume evs f info = some (Outcome.returned ret i g)) :
    same_queue f g ∧ g.write_sem = f.write_sem ∧ g.read_sem ≤ f.read_sem ∧
    ∃ i0 : xillyinfo,
      (Outcome.returned ret i g = drain_finish g i0 0 ∨
        (g.bytes_in_fifo ≠ 0 ∧
          Outcome.returned ret i g = drain_grant g i0 g.bytes_in_fifo)) := by
  rcases h with h | h
  · obtain ⟨k1, k2, k3, i0, -, k5⟩ := fifo_request_drain_returned h
    exact ⟨k1, k2, k3, i0, k5⟩
  · obtain ⟨k1, k2, k3, i0, -, k5⟩ := drain_wait_returned _ _ _ _ _ _ _ h
    exact ⟨k1, k2, k3, i0, k5⟩

theorem drain_request_blocked_any {evs : List wait_event} {f g : xillyfifo}
    {info i : xillyinfo}
    (h : fifo_request_drain evs f info = some (Outcome.blocked i g) ∨
      fifo_request_drain_resume evs f info = some (Outcome.blocked i g)) :
    same_queue f g ∧ g.write_sem = f.write_sem ∧ g.read_sem = 0 := by
  rcases h with h | h
  · rw [fifo_request_drain_eq] at h
    split_ifs at h
    · simp [drain_finish] at h
    · obtain ⟨k1, k2, k3, -⟩ := drain_wait_blocked _ _ _ _ _ _ h
      exact ⟨k1, k2, k3⟩
    · simp [drain_grant, drain_finish] at h
  · obtain ⟨k1, k2, k3, -⟩ := drain_wait_blocked _ _ _ _ _ _ h
    exact ⟨k1, k2, k3⟩

theorem call_step_inv {s s1 : session} {c : fifo_call} (hi : session_inv s)
    (h : call_step s c = some s1) : session_inv s1 := by
  cases c with
  | request_write evs info =>
    refine after_write_request_inv hi rfl ?_ ?_ h
    · intro ret i g ho
      obtain ⟨k1, -, -, k4⟩ := write_request_returned_any (Or.inl ho)
      exact ⟨k1, k4⟩
    · intro i g ho
      exact (write_request_blocked_any (Or.inl ho)).1
  | resume_write evs info =>
    refine after_write_request_inv hi rfl ?_ ?_ h
    · intro ret i g ho
      obtain ⟨k1, -, -, k4⟩ := write_request_returned_any (Or.inr ho)
      exact ⟨k1, k4⟩
    · intro i g ho
      exact (write_request_blocked_any (Or.inr ho)).1
  | request_drain evs info =>
    refine after_drain_request_inv hi rfl ?_ ?_ h
    · intro ret i g ho
      obtain ⟨k1, -, -, k4⟩ := drain_request_returned_any (Or.inl ho)
      exact ⟨k1, k4⟩
    · intro i g ho
      exact (drain_request_blocked_any (Or.inl ho)).1
  | resume_drain evs info =>
    refine after_drain_request_inv hi rfl ?_ ?_ h
    · intro ret i g ho
      obtain ⟨k1, -, -, k4⟩ := drain_request_returned_any (Or.inr ho)
      exact ⟨k1, k4⟩
    · intro i g ho
      exact (drain_request_blocked_any (Or.inr ho)).1
  | wrote gv n =>
    obtain ⟨h0, h1, h2, h3, h4⟩ := hi
    simp only [call_step] at h
    split at h
    · rename_i hn
      simp only [Option.some.injEq] at h
      subst h
      have hq := fifo_wrote_queue_inv gv s.fifo n h0 (by omega) (by omega)
      obtain ⟨e1, -, e3, e4, -, e6, -⟩ := fifo_wrote_fields gv s.fifo n h0 (by omega) (by omega)
      refine ⟨hq, ?_, ?_, ?_, ?_⟩
      · show s.write_lease - n ≤ (fifo_wrote gv s.fifo n).size - (fifo_wrote gv s.fifo n).bytes_in_fifo
        rw [e6, e1]; omega
      · show s.write_lease - n ≤
          (fifo_wrote gv s.fifo n).size - (fifo_wrote gv s.fifo n).write_position
        rw [e6, e3]; split <;> omega
      · show s.read_lease ≤ (fifo_wrote gv s.fifo n).bytes_in_fifo
        rw [e1]; omega
      · show s.read_lease ≤
          (fifo_wrote gv s.fifo n).size - (fifo_wrote gv s.fifo n).read_position
        rw [e6, e4]; exact h4
    · simp at h
  | drained gv n =>
    obtain ⟨h0, h1, h2, h3, h4⟩ := hi
    simp only [call_step] at h
    split at h
    · rename_i hn
      simp only [Option.some.injEq] at h
      subst h
      have hq := fifo_drained_queue_inv gv s.fifo n h0 (by omega) (by omega)
      obtain ⟨e1, -, e3, e4, -, e6, -⟩ :=
        fifo_drained_fields gv s.fifo n h0 (by omega) (by omega)
      refine ⟨hq, ?_, ?_, ?_, ?_⟩
      · show s.write_lease ≤
          (fifo_drained gv s.fifo n).size - (fifo_drained gv s.fifo n).bytes_in_fifo
        rw [e6, e1]; omega
      · show s.write_lease ≤
          (fifo_drained gv s.fifo n).size - (fifo_drained gv s.fifo n).write_position
        rw [e6, e4]; exact h2
      · show s.read_lease - n ≤ (fifo_drained gv s.fifo n).bytes_in_fifo
        rw [e1]; omega
      · show s.read_lease - n ≤
          (fifo_drained gv s.fifo n).size - (fifo_drained gv s.fifo n).read_position
        rw [e6, e3]; split <;> omega
    · simp at h
  | done =>
    simp only [call_step, Option.some.injEq] at h
    subst h
    obtain ⟨h0, h1, h2, h3, h4⟩ := hi
    exact ⟨fifo_done_queue_inv _ h0, h1, h2, h3, h4⟩

theorem run_calls_inv (cs : List fifo_call) :
    ∀ (s s1 : session), session_inv s → run_calls s cs = some s1 → session_inv s1 := by
  induction cs with
  | nil =>
    intro s s1 hi h
    simp only [run_calls, Option.some.injEq] at h
    subst h
    exact hi
  | cons c cs ih =>
    intro s s1 hi h
    simp only [run_calls] at h
    cases hc : call_step s c with
    | none => simp [hc] at h
    | some s2 =>
      simp only [hc] at h
      exact ih s2 s1 (call_step_inv hi hc) h

theorem fresh_session_inv {size : Nat} {f : xillyfifo} (h : init_success size f) :
    session_inv (fresh f) := by
  obtain ⟨addr, -, rfl, hs⟩ := init_success_fresh h
  exact ⟨fifo_fresh_queue_inv size addr hs, Nat.zero_le _, Nat.zero_le _, Nat.zero_le _,
    Nat.zero_le _⟩

theorem reachable_inv {size : Nat} {f : xillyfifo} {cs : List fifo_call} {s : session}
    (hi : init_success size f) (hr : run_calls (fresh f) cs = some s) : session_inv s :=
  run_calls_inv cs _ _ (fresh_session_inv hi) hr

/-! ## What the calls leave alone -/

theorem fifo_wrote_frame (gv : Bool) (f : xillyfifo) (n : Nat) :
    (fifo_wrote gv f n).size = f.size ∧ (fifo_wrote gv f n).baseaddr = f.baseaddr ∧
    (fifo_wrote gv f n).done = f.done ∧ (fifo_wrote gv f n).write_sem = f.write_sem ∧
    (fifo_wrote gv f n).read_position = f.read_position ∧
    (fifo_wrote gv f n).read_total = f.read_total ∧
    ((fifo_wrote gv f n).read_sem = f.read_sem ∨
      (f.read_sem = 0 ∧ (fifo_wrote gv f n).read_sem = 1)) := by
  rw [fifo_wrote_eq]
  by_cases h0 : n = 0
  · simp [h0]
  · by_cases h1 : gv = true ∧ f.read_sem = 0
    · simp [h0, h1]
    · simp only [h0, h1, if_false]
      simp

theorem fifo_drained_frame (gv : Bool) (f : xillyfifo) (n : Nat) :
    (fifo_drained gv f n).size = f.size ∧ (fifo_drained gv f n).baseaddr = f.baseaddr ∧
    (fifo_drained gv f n).done = f.done ∧ (fifo_drained gv f n).read_sem = f.read_sem ∧
    (fifo_drained gv f n).write_position = f.write_position ∧
    (fifo_drained gv f n).write_total = f.write_total ∧
    ((fifo_drained gv f n).write_sem = f.write_sem ∨
      (f.write_sem = 0 ∧ (fifo_drained gv f n).write_sem = 1)) := by
  rw [fifo_drained_eq]
  by_cases h0 : n = 0
  · simp [h0]
  · by_cases h1 : gv = true ∧ f.write_sem = 0
    · simp [h0, h1]
    · simp only [h0, h1, if_false]
      simp

/-- One call changes neither the size nor the buffer address, and raises each
semaphore counter by at most one, beyond `1` only in `fifo_done`. -/
theorem call_step_frame {s s1 : session} {c : fifo_call} (h : call_step s c = some s1) :
    s1.fifo.size = s.fifo.size ∧ s1.fifo.baseaddr = s.fifo.baseaddr ∧
    (c = fifo_call.done →
      s1.fifo.read_sem = s.fifo.read_sem + 1 ∧ s1.fifo.write_sem = s.fifo.write_sem + 1) ∧
    (c ≠ fifo_call.done →
      (s1.fifo.read_sem ≤ s.fifo.read_sem ∨ s1.fifo.read_sem = 1) ∧
      (s1.fifo.write_sem ≤ s.fifo.write_sem ∨ s1.fifo.write_sem = 1)) := by
  have hw : ∀ (o : Option Outcome),
      (∀ ret i g, o = some (Outcome.returned ret i g) →
        same_queue s.fifo g ∧ g.read_sem = s.fifo.read_sem ∧ g.write_sem ≤ s.fifo.write_sem) →
      (∀ i g, o = some (Outcome.blocked i g) →
        same_queue s.fifo g ∧ g.read_sem = s.fifo.read_sem ∧ g.write_sem = 0) →
      after_write_request s o = some s1 →
      s1.fifo.size = s.fifo.size ∧ s1.fifo.baseaddr = s.fifo.baseaddr ∧
      (s1.fifo.read_sem ≤ s.fifo.read_sem ∨ s1.fifo.read_sem = 1) ∧
      (s1.fifo.write_sem ≤ s.fifo.write_sem ∨ s1.fifo.write_sem = 1) := by
    intro o h1 h2 ho
    cases o with
    | none => simp [after_write_request] at ho
    | some oo =>
      cases oo with
      | returned ret i g =>
        simp only [after_write_request, Option.some.injEq] at ho
        subst ho
        obtain ⟨k1, k2, k3⟩ := h1 ret i g rfl
        exact ⟨k1.2.2.2.2.2.1, k1.2.2.2.2.2.2.2, Or.inl (le_of_eq k2), Or.inl k3⟩
      | blocked i g =>
        simp only [after_write_request, Option.some.injEq] at ho
        subst ho
        obtain ⟨k1, k2, k3⟩ := h2 i g rfl
        exact ⟨k1.2.2.2.2.2.1, k1.2.2.2.2.2.2.2, Or.inl (le_of_eq k2),
          Or.inl (by show g.write_sem ≤ _; omega)⟩
  have hd : ∀ (o : Option Outcome),
      (∀ ret i g, o = some (Outcome.returned ret i g) →
        same_queue s.fifo g ∧ g.write_sem = s.fifo.write_sem ∧ g.read_sem ≤ s.fifo.read_sem) →
      (∀ i g, o = some (Outcome.blocked i g) →
        same_queue s.fifo g ∧ g.write_sem = s.fifo.write_sem ∧ g.read_sem = 0) →
      after_drain_request s o = some s1 →
      s1.fifo.size = s.fifo.size ∧ s1.fifo.baseaddr = s.fifo.baseaddr ∧
      (s1.fifo.read_sem ≤ s.fifo.read_sem ∨ s1.fifo.read_sem = 1) ∧
      (s1.fifo.write_sem ≤ s.fifo.write_sem ∨ s1.fifo.write_sem = 1) := by
    intro o h1 h2 ho
    cases o with
    | none => simp [after_drain_request] at ho
    | some oo =>
      cases oo with
      | returned ret i g =>
        simp only [after_drain_request, Option.some.injEq] at ho
        subst ho
        obtain ⟨k1, k2, k3⟩ := h1 ret i g rfl
        exact ⟨k1.2.2.2.2.2.1, k1.2.2.2.2.2.2.2, Or.inl k3, Or.inl (le_of_eq k2)⟩
      | blocked i g =>
        simp only [after_drain_request, Option.some.injEq] at ho
        subst ho
        obtain ⟨k1, k2, k3⟩ := h2 i g rfl
        exact ⟨k1.2.2.2.2.2.1, k1.2.2.2.2.2.2.2, Or.inl (by show g.read_sem ≤ _; omega),
          Or.inl (le_of_eq k2)⟩
  cases c with
  | request_write evs info =>
    obtain ⟨r1, r2, r3⟩ := hw _
      (fun ret i g ho => by
        obtain ⟨k1, k2, k3, -⟩ := write_request_returned_any (Or.inl ho)
        exact ⟨k1, k2, k3⟩)
      (fun i g ho => write_request_blocked_any (Or.inl ho)) h
    exact ⟨r1, r2, fun hc => by simp at hc, fun _ => r3⟩
  | resume_write evs info =>
    obtain ⟨r1, r2, r3⟩ := hw _
      (fun ret i g ho => by
        obtain ⟨k1, k2, k3, -⟩ := write_request_returned_any (Or.inr ho)
        exact ⟨k1, k2, k3⟩)
      (fun i g ho => write_request_blocked_any (Or.inr ho)) h
    exact ⟨r1, r2, fun hc => by simp at hc, fun _ => r3⟩
  | request_drain evs info =>
    obtain ⟨r1, r2, r3⟩ := hd _
      (fun ret i g ho => by
        obtain ⟨k1, k2, k3, -⟩ := drain_request_returned_any (Or.inl ho)
        exact ⟨k1, k2, k3⟩)
      (fun i g ho => drain_request_blocked_any (Or.inl ho)) h
    exact ⟨r1, r2, fun hc => by simp at hc, fun _ => r3⟩
  | resume_drain evs info =>
    obtain ⟨r1, r2, r3⟩ := hd _
      (fun ret i g ho => by
        obtain ⟨k1, k2, k3, -⟩ := drain_request_returned_any (Or.inr ho)
        exact ⟨k1, k2, k3⟩)
      (fun i g ho => drain_request_blocked_any (Or.inr ho)) h
    exact ⟨r1, r2, fun hc => by simp at hc, fun _ => r3⟩
  | wrote gv n =>
    simp only [call_step] at h
    split at h
    · simp only [Option.some.injEq] at h
      subst h
      obtain ⟨e1, e2, -, e4, -, -, e7⟩ := fifo_wrote_frame gv s.fifo n
      refine ⟨e1, e2, fun hc => by simp at hc, fun _ => ⟨?_, Or.inl (le_of_eq e4)⟩⟩
      rcases e7 with e7 | ⟨-, e7⟩
      · exact Or.inl (le_of_eq e7)
      · exact Or.inr e7
    · simp at h
  | drained gv n =>
    simp only [call_step] at h
    split at h
    · simp only [Option.some.injEq] at h
      subst h
      obtain ⟨e1, e2, -, e4, -, -, e7⟩ := fifo_drained_frame gv s.fifo n
      refine ⟨e1, e2, fun hc => by simp at hc, fun _ => ⟨Or.inl (le_of_eq e4), ?_⟩⟩
      rcases e7 with e7 | ⟨-, e7⟩
      · exact Or.inl (le_of_eq e7)
      · exact Or.inr e7
    · simp at h
  | done =>
    simp only [call_step, Option.some.injEq] at h
    subst h
    exact ⟨rfl, rfl, fun _ => ⟨rfl, rfl⟩, fun hc => absurd rfl hc⟩

theorem run_calls_frame (cs : List fifo_call) :
    ∀ (s s1 : session) (k : Nat), run_calls s cs = some s1 →
      s.fifo.read_sem ≤ 1 + k → s.fifo.write_sem ≤ 1 + k →
      s1.fifo.size = s.fifo.size ∧ s1.fifo.baseaddr = s.fifo.baseaddr ∧
      s1.fifo.read_sem ≤ 1 + k + count_done cs ∧
      s1.fifo.write_sem ≤ 1 + k + count_done cs := by
  induction cs with
  | nil =>
    intro s s1 k h hr hw
    simp only [run_calls, Option.some.injEq] at h
    subst h
    exact ⟨rfl, rfl, by simp only [count_done]; omega, by simp only [count_done]; omega⟩
  | cons c cs ih =>
    intro s s1 k h hr hw
    simp only [run_calls] at h
    cases hc : call_step s c with
    | none => simp [hc] at h
    | some s2 =>
      simp only [hc] at h
      obtain ⟨f1, f2, f3, f4⟩ := call_step_frame hc
      by_cases hd : c = fifo_call.done
      · obtain ⟨g1, g2⟩ := f3 hd
        obtain ⟨r1, r2, r3, r4⟩ := ih s2 s1 (k + 1) h (by omega) (by omega)
        subst hd
        refine ⟨r1.trans f1, r2.trans f2, ?_, ?_⟩
        · simp only [count_done]; omega
        · simp only [count_done]; omega
      · obtain ⟨g1, g2⟩ := f4 hd
        obtain ⟨r1, r2, r3, r4⟩ := ih s2 s1 k h (by omega) (by omega)
        have hcd : count_done (c :: cs) = count_done cs := by
          cases c <;> simp_all [count_done]
        rw [hcd]
        exact ⟨r1.trans f1, r2.trans f2, r3, r4⟩

theorem int_of_uint_nonneg (u : Nat) (h : u ≤ INT_MAX) : 0 ≤ int_of_uint u := by
  rw [int_of_uint_small u h]
  omega

theorem write_lease_min (a b : Nat) : (if a > b then b else a) = min a b := by
  rw [Nat.min_def]
  split <;> split <;> omega

theorem drain_lease_min (a b : Nat) : (if a < b then a else b) = min a b := by
  rw [Nat.min_def]
  split <;> split <;> omega

theorem write_result_values {g : xillyfifo} {ret : Int} {i i0 : xillyinfo} (hq : queue_inv g)
    (h : Outcome.returned ret i g = write_finish g i0 0 ∨
      (g.done = 0 ∧ g.bytes_in_fifo < uint_sub g.size FIFO_BACKOFF ∧
        Outcome.returned ret i g = write_grant g i0 g.bytes_in_fifo)) :
    ret = i.bytes ∧ i.position = int_of_uint g.write_position ∧
    ((i.bytes = 0 ∧ i.addr = i0.addr) ∨
      (g.done = 0 ∧ g.bytes_in_fifo < g.size ∧
        i.bytes = int_of_uint (min (g.size - g.bytes_in_fifo) (g.size - g.write_position)) ∧
        i.addr = g.baseaddr + g.write_position)) := by
  obtain ⟨e0, e1, e2, -⟩ := queue_inv_lease_values hq
  rcases h with h | ⟨hd, hb, h⟩
  · obtain ⟨-, r1, r2, r3, r4, -⟩ := write_finish_eq h.symm
    rw [int_of_uint_zero] at r1 r2
    exact ⟨r1.trans r2.symm, r3, Or.inl ⟨r2, r4⟩⟩
  · obtain ⟨-, r1, r2, r3, r4, -⟩ := write_grant_eq h.symm
    rw [e1, e2, write_lease_min] at r1
    rw [e0] at hb
    exact ⟨r2.symm, r3, Or.inr ⟨hd, hb, r2.trans r1, r4⟩⟩

theorem drain_result_values {g : xillyfifo} {ret : Int} {i i0 : xillyinfo} (hq : queue_inv g)
    (h : Outcome.returned ret i g = drain_finish g i0 0 ∨
      (g.bytes_in_fifo ≠ 0 ∧ Outcome.returned ret i g = drain_grant g i0 g.bytes_in_fifo)) :
    ret = i.bytes ∧ i.position = int_of_uint g.read_position ∧
    ((i.bytes = 0 ∧ i.addr = i0.addr) ∨
      (g.bytes_in_fifo ≠ 0 ∧
        i.bytes = int_of_uint (min g.bytes_in_fifo (g.size - g.read_position)) ∧
        i.addr = g.baseaddr + g.read_position)) := by
  obtain ⟨-, -, -, e3⟩ := queue_inv_lease_values hq
  rcases h with h | ⟨hb, h⟩
  · obtain ⟨-, r1, r2, r3, r4, -⟩ := drain_finish_eq h.symm
    exact ⟨r1.trans r2.symm, r3, Or.inl ⟨r2, r4⟩⟩
  · obtain ⟨-, r1, r2, r3, r4, -⟩ := drain_grant_eq h.symm
    rw [e3, drain_lease_min] at r1
    exact ⟨r2.symm, r3, Or.inr ⟨hb, r2.trans r1, r4⟩⟩

/-- The window of a lease, as integers, lies inside the buffer. -/
theorem lease_window {size pos len : Nat} {p b : Int} (hs : size < UINT_RANGE)
    (hp : p = int_of_uint pos) (hb : b = 0 ∨ b = int_of_uint len) (h : pos + len ≤ size) :
    p + b ≤ (size : Int) ∧ (size ≤ INT_MAX → 0 ≤ p ∧ 0 ≤ b) := by
  have h1 := int_of_uint_le pos (by omega)
  have h2 := int_of_uint_le len (by omega)
  refine ⟨?_, fun hm => ?_⟩
  · rcases hb with hb | hb <;> omega
  · have h3 := int_of_uint_nonneg pos (by omega)
    have h4 := int_of_uint_nonneg len (by omega)
    rcases hb with hb | hb <;> omega

/-! ## Sequences of calls -/

theorem run_calls_append (a b : List fifo_call) :
    ∀ s : session, run_calls s (a ++ b) = (run_calls s a).bind (fun s1 => run_calls s1 b) := by
  induction a with
  | nil => intro s; simp [run_calls]
  | cons c cs ih =>
    intro s
    simp only [List.cons_append, run_calls]
    cases hc : call_step s c with
    | none => simp
    | some s2 => exact ih s2

theorem fifo_wrote_zero (gv : Bool) (f : xillyfifo) : fifo_wrote gv f 0 = f := by
  simp [fifo_wrote]

theorem fifo_drained_zero (gv : Bool) (f : xillyfifo) : fifo_drained gv f 0 = f := by
  simp [fifo_drained]

/-! ## The lease a request returns at once -/

theorem uint_sub_backoff (f : xillyfifo) (h : f.size < UINT_RANGE) :
    uint_sub f.size FIFO_BACKOFF = f.size := by
  rw [uint_sub_of_le _ _ h (by simp only [FIFO_BACKOFF]; omega)]
  simp only [FIFO_BACKOFF]; omega

theorem write_grant_value (f : xillyfifo) (info : xillyinfo) (hs : f.size < UINT_RANGE)
    (hb : f.bytes_in_fifo < f.size) (hw : f.write_position < f.size) :
    write_grant f info f.bytes_in_fifo =
      Outcome.returned
        (int_of_uint (min (f.size - f.bytes_in_fifo) (f.size - f.write_position)))
        { slept := info.slept,
          bytes := int_of_uint (min (f.size - f.bytes_in_fifo) (f.size - f.write_position)),
          position := int_of_uint f.write_position,
          addr := f.baseaddr + f.write_position } f := by
  have e1 : uint_add f.bytes_in_fifo FIFO_BACKOFF = f.bytes_in_fifo :=
    uint_add_of_lt _ _ (by simp only [FIFO_BACKOFF]; omega)
  have e2 : uint_sub f.size f.bytes_in_fifo = f.size - f.bytes_in_fifo :=
    uint_sub_of_le _ _ hs (by omega)
  have e3 : uint_sub f.size f.write_position = f.size - f.write_position :=
    uint_sub_of_le _ _ hs (by omega)
  simp only [write_grant, write_finish, e1, e2, e3, write_lease_min]

theorem drain_grant_value (f : xillyfifo) (info : xillyinfo) (hs : f.size < UINT_RANGE)
    (hw : f.read_position < f.size) :
    drain_grant f info f.bytes_in_fifo =
      Outcome.returned
        (int_of_uint (min f.bytes_in_fifo (f.size - f.read_position)))
        { slept := info.slept,
          bytes := int_of_uint (min f.bytes_in_fifo (f.size - f.read_position)),
          position := int_of_uint f.read_position,
          addr := f.baseaddr + f.read_position } f := by
  have e3 : uint_sub f.size f.read_position = f.size - f.read_position :=
    uint_sub_of_le _ _ hs (by omega)
  simp only [drain_grant, drain_finish, e3, drain_lease_min]

/-- With room in the fifo and `done` clear, a write request returns at once. -/
theorem fifo_request_write_now (evs : List wait_event) (f : xillyfifo) (info : xillyinfo)
    (hs : f.size < UINT_RANGE) (hd : f.done = 0) (hb : f.bytes_in_fifo < f.size)
    (hw : f.write_position < f.size) :
    fifo_request_write evs f info =
      some (Outcome.returned
        (int_of_uint (min (f.size - f.bytes_in_fifo) (f.size - f.write_position)))
        { slept := 0,
          bytes := int_of_uint (min (f.size - f.bytes_in_fifo) (f.size - f.write_position)),
          position := int_of_uint f.write_position,
          addr := f.baseaddr + f.write_position } f) := by
  rw [fifo_request_write_eq, uint_sub_backoff f hs]
  have h1 : ¬ f.done ≠ 0 := by omega
  have h2 : ¬ f.bytes_in_fifo ≥ f.size := by omega
  rw [if_neg h1, if_neg h2, write_grant_value f _ hs hb hw]

/-- With data in the fifo, a drain request returns at once. -/
theorem fifo_request_drain_now (evs : List wait_event) (f : xillyfifo) (info : xillyinfo)
    (hs : f.size < UINT_RANGE) (hb : 0 < f.bytes_in_fifo) (hw : f.read_position < f.size) :
    fifo_request_drain evs f info =
      some (Outcome.returned
        (int_of_uint (min f.bytes_in_fifo (f.size - f.read_position)))
        { slept := 0,
          bytes := int_of_uint (min f.bytes_in_fifo (f.size - f.read_position)),
          position := int_of_uint f.read_position,
          addr := f.baseaddr + f.read_position } f) := by
  rw [fifo_request_drain_eq]
  have h1 : ¬ f.bytes_in_fifo = 0 := by omega
  rw [if_neg h1, drain_grant_value f _ hs hw]

/-- With `done` set, a write request returns a zero-length lease at once. -/
theorem fifo_request_write_done (evs : List wait_event) (f : xillyfifo) (info : xillyinfo)
    (hd : f.done ≠ 0) :
    fifo_request_write evs f info =
      some (Outcome.returned 0
        { slept := 0, bytes := 0, position := int_of_uint f.write_position, addr := 0 } f) := by
  rw [fifo_request_write_eq, if_pos hd]
  simp only [write_finish, int_of_uint_zero]

/-- With `done` set and no data, a drain request returns a zero-length lease at
once. -/
theorem fifo_request_drain_done (evs : List wait_event) (f : xillyfifo) (info : xillyinfo)
    (hd : f.done ≠ 0) (hb : f.bytes_in_fifo = 0) :
    fifo_request_drain evs f info =
      some (Outcome.returned 0
        { slept := 0, bytes := 0, position := int_of_uint f.read_position, addr := 0 } f) := by
  rw [fifo_request_drain_eq, if_pos hb, if_pos hd]
  simp only [drain_finish]

/-! ## `done` stays set -/

theorem fifo_done_fields (f : xillyfifo) :
    same_queue { f with done := 1 } (fifo_done f) ∧ (fifo_done f).done = 1 ∧
    (fifo_done f).read_sem = f.read_sem + 1 ∧ (fifo_done f).write_sem = f.write_sem + 1 :=
  ⟨⟨rfl, rfl, rfl, rfl, rfl, rfl, rfl, rfl⟩, rfl, rfl, rfl⟩

theorem call_step_done {s s1 : session} {c : fifo_call} (hd : s.fifo.done ≠ 0)
    (h : call_step s c = some s1) : s1.fifo.done ≠ 0 := by
  have hw : ∀ (o : Option Outcome),
      (∀ ret i g, o = some (Outcome.returned ret i g) → same_queue s.fifo g) →
      (∀ i g, o = some (Outcome.blocked i g) → same_queue s.fifo g) →
      (after_write_request s o = some s1 ∨ after_drain_request s o = some s1) →
      s1.fifo.done ≠ 0 := by
    intro o h1 h2 ho
    cases o with
    | none => simp [after_write_request, after_drain_request] at ho
    | some oo =>
      cases oo with
      | returned ret i g =>
        have k := (h1 ret i g rfl).2.2.2.2.2.2.1
        simp only [after_write_request, after_drain_request, Option.some.injEq] at ho
        rcases ho with ho | ho <;> subst ho <;> (show g.done ≠ 0) <;> omega
      | blocked i g =>
        have k := (h2 i g rfl).2.2.2.2.2.2.1
        simp only [after_write_request, after_drain_request, Option.some.injEq] at ho
        rcases ho with ho | ho <;> subst ho <;> (show g.done ≠ 0) <;> omega
  cases c with
  | request_write evs info =>
    exact hw _ (fun ret i g ho => (write_request_returned_any (Or.inl ho)).1)
      (fun i g ho => (write_request_blocked_any (Or.inl ho)).1) (Or.inl h)
  | resume_write evs info =>
    exact hw _ (fun ret i g ho => (write_request_returned_any (Or.inr ho)).1)
      (fun i g ho => (write_request_blocked_any (Or.inr ho)).1) (Or.inl h)
  | request_drain evs info =>
    exact hw _ (fun ret i g ho => (drain_request_returned_any (Or.inl ho)).1)
      (fun i g ho => (drain_request_blocked_any (Or.inl ho)).1) (Or.inr h)
  | resume_drain evs info =>
    exact hw _ (fun ret i g ho => (drain_request_returned_any (Or.inr ho)).1)
      (fun i g ho => (drain_request_blocked_any (Or.inr ho)).1) (Or.inr h)
  | wrote gv n =>
    simp only [call_step] at h
    split at h
    · simp only [Option.some.injEq] at h
      subst h
      show (fifo_wrote gv s.fifo n).done ≠ 0
      rw [(fifo_wrote_frame gv s.fifo n).2.2.1]; exact hd
    · simp at h
  | drained gv n =>
    simp only [call_step] at h
    split at h
    · simp only [Option.some.injEq] at h
      subst h
      show (fifo_drained gv s.fifo n).done ≠ 0
      rw [(fifo_drained_frame gv s.fifo n).2.2.1]; exact hd
    · simp at h
  | done =>
    simp only [call_step, Option.some.injEq] at h
    subst h
    show (fifo_done s.fifo).done ≠ 0
    rw [(fifo_done_fields s.fifo).2.1]; omega

theorem run_calls_done (cs : List fifo_call) :
    ∀ (s s1 : session), s.fifo.done ≠ 0 → run_calls s cs = some s1 → s1.fifo.done ≠ 0 := by
  induction cs with
  | nil =>
    intro s s1 hd h
    simp only [run_calls, Option.some.injEq] at h
    subst h
    exact hd
  | cons c cs ih =>
    intro s s1 hd h
    simp only [run_calls] at h
    cases hc : call_step s c with
    | none => simp [hc] at h
    | some s2 =>
      simp only [hc] at h
      exact ih s2 s1 (call_step_done hd hc) h

/-- Once `fifo_done` has been called, `done` is set in every later state. -/
theorem run_calls_after_done {s s1 : session} {cs1 cs2 : List fifo_call}
    (h : run_calls s (cs1 ++ fifo_call.done :: cs2) = some s1) : s1.fifo.done ≠ 0 := by
  rw [run_calls_append] at h
  cases h0 : run_calls s cs1 with
  | none => simp [h0] at h
  | some s0 =>
    simp only [h0, Option.some_bind, run_calls, call_step] at h
    refine run_calls_done cs2 _ s1 ?_ h
    show (fifo_done s0.fifo).done ≠ 0
    rw [(fifo_done_fields s0.fifo).2.1]; omega

/-! ## A full fifo -/

theorem write_recheck_full (f : xillyfifo) (info : xillyinfo) (hs : f.size < UINT_RANGE)
    (hd : f.done = 0) (hb : f.size ≤ f.bytes_in_fifo) :
    write_recheck f info = loop_result.again f { info with slept := 1 } := by
  have h1 : ¬ f.done ≠ 0 := by omega
  have h2 : f.bytes_in_fifo ≥ f.size := hb
  simp only [write_recheck, write_test, if_neg h1, uint_sub_backoff f hs, if_pos h2]

theorem write_recheck_room (f : xillyfifo) (info : xillyinfo) (hs : f.size < UINT_RANGE)
    (hd : f.done = 0) (hb : f.bytes_in_fifo < f.size) (hw : f.write_position < f.size) :
    write_recheck f info =
      loop_result.exit (Outcome.returned
        (int_of_uint (min (f.size - f.bytes_in_fifo) (f.size - f.write_position)))
        { slept := info.slept,
          bytes := int_of_uint (min (f.size - f.bytes_in_fifo) (f.size - f.write_position)),
          position := int_of_uint f.write_position,
          addr := f.baseaddr + f.write_position } f) := by
  have h1 : ¬ f.done ≠ 0 := by omega
  have h2 : ¬ f.bytes_in_fifo ≥ f.size := by omega
  simp only [write_recheck, write_test, if_neg h1, uint_sub_backoff f hs, if_neg h2,
    write_grant_value f _ hs hb hw]

/-- A write request on a full fifo that returns has met a failing `sem_wait`:
the lease has length zero. -/
theorem full_no_grant {f g : xillyfifo} {evs : List wait_event} {info i : xillyinfo}
    {ret : Int} (hs : f.size < UINT_RANGE) (hb : f.size ≤ f.bytes_in_fifo)
    (h : fifo_request_write evs f info = some (Outcome.returned ret i g) ∨
      fifo_request_write_resume evs f info = some (Outcome.returned ret i g)) :
    ret = 0 ∧ i.bytes = 0 := by
  obtain ⟨k1, -, -, i0, k4⟩ := write_request_returned_any h
  obtain ⟨-, -, e3, -, -, e6, -, -⟩ := k1
  rcases k4 with k4 | ⟨-, k5, -⟩
  · obtain ⟨-, v2, v3, -⟩ := write_finish_eq k4.symm
    rw [v2, v3, int_of_uint_zero]
    exact ⟨rfl, rfl⟩
  · have hgs : g.size < UINT_RANGE := by rw [e6]; exact hs
    rw [uint_sub_backoff g hgs, e3, e6] at k5
    omega

/-- On a full fifo with `done` clear, a write request whose waits do not fail
ends parked. -/
theorem write_wait_full (fuel : Nat) :
    ∀ (evs : List wait_event) (f : xillyfifo) (info : xillyinfo),
      f.size < UINT_RANGE → f.done = 0 → f.size ≤ f.bytes_in_fifo →
      wait_event.error ∉ evs → evs.length + f.write_sem < fuel →
      ∃ g, write_wait fuel evs f info = some (Outcome.blocked { info with slept := 1 } g) ∨
        write_wait fuel evs f info = some (Outcome.blocked info g) := by
  induction fuel with
  | zero => intro evs f info _ _ _ _ h; omega
  | succ fuel ih =>
    intro evs f info hs hd hb he hf
    have step : ∀ (sem : Nat) (rest : List wait_event), wait_event.error ∉ rest →
        rest.length + sem < fuel →
        ∃ g, (match write_recheck { f with write_sem := sem } info with
            | loop_result.exit o => some o
            | loop_result.again fifo1 info1 => write_wait fuel rest fifo1 info1) =
              some (Outcome.blocked { info with slept := 1 } g) := by
      intro sem rest hr hl
      rw [write_recheck_full { f with write_sem := sem } info hs hd hb]
      obtain ⟨g, hg | hg⟩ := ih rest { f with write_sem := sem } { info with slept := 1 }
        hs hd hb hr hl
      · exact ⟨g, hg⟩
      · exact ⟨g, hg⟩
    cases evs with
    | nil =>
      by_cases h0 : f.write_sem = 0
      · exact ⟨f, Or.inr (by simp only [write_wait, sem_wait, if_pos h0])⟩
      · obtain ⟨g, hg⟩ := step (f.write_sem - 1) [] (by simp)
          (by simp only [List.length_nil] at hf ⊢; omega)
        exact ⟨g, Or.inl (by simp only [write_wait, sem_wait, if_neg h0]; exact hg)⟩
    | cons e rest =>
      have hr : wait_event.error ∉ rest := fun h => he (List.mem_cons_of_mem _ h)
      simp only [List.length_cons] at hf
      cases e with
      | error => exact absurd (List.mem_cons_self _ _) he
      | eintr =>
        obtain ⟨g, hg⟩ := step f.write_sem rest hr (by omega)
        exact ⟨g, Or.inl (by simp only [write_wait, sem_wait]; exact hg)⟩
      | normal =>
        by_cases h0 : f.write_sem = 0
        · exact ⟨f, Or.inr (by simp only [write_wait, sem_wait, if_pos h0])⟩
        · obtain ⟨g, hg⟩ := step (f.write_sem - 1) rest hr (by omega)
          exact ⟨g, Or.inl (by simp only [write_wait, sem_wait, if_neg h0]; exact hg)⟩

/-- A parked write request that is resumed when there is room, `done` is clear
and `write_sem` has been posted returns the lease. -/
theorem write_wait_room (fuel : Nat) (evs : List wait_event) (f : xillyfifo)
    (info : xillyinfo) (hs : f.size < UINT_RANGE) (hd : f.done = 0)
    (hb : f.bytes_in_fifo < f.size) (hw : f.write_position < f.size)
    (hsem : f.write_sem ≠ 0) (he : wait_event.error ∉ evs) :
    ∃ sem, write_wait (fuel + 1) evs f info =
      some (Outcome.returned
        (int_of_uint (min (f.size - f.bytes_in_fifo) (f.size - f.write_position)))
        { slept := info.slept,
          bytes := int_of_uint (min (f.size - f.bytes_in_fifo) (f.size - f.write_position)),
          position := int_of_uint f.write_position,
          addr := f.baseaddr + f.write_position } { f with write_sem := sem }) := by
  have step : ∀ (sem : Nat) (rest : List wait_event),
      (match write_recheck { f with write_sem := sem } info with
        | loop_result.exit o => some o
        | loop_result.again fifo1 info1 => write_wait fuel rest fifo1 info1) =
      some (Outcome.returned
        (int_of_uint (min (f.size - f.bytes_in_fifo) (f.size - f.write_position)))
        { slept := info.slept,
          bytes := int_of_uint (min (f.size - f.bytes_in_fifo) (f.size - f.write_position)),
          position := int_of_uint f.write_position,
          addr := f.baseaddr + f.write_position } { f with write_sem := sem }) := by
    intro sem rest
    rw [write_recheck_room { f with write_sem := sem } info hs hd hb hw]
  cases evs with
  | nil =>
    exact ⟨f.write_sem - 1, by simp only [write_wait, sem_wait, if_neg hsem]; exact step _ _⟩
  | cons e rest =>
    cases e with
    | error => exact absurd (List.mem_cons_self _ _) he
    | eintr => exact ⟨f.write_sem, by simp only [write_wait, sem_wait]; exact step _ _⟩
    | normal =>
      exact ⟨f.write_sem - 1, by simp only [write_wait, sem_wait, if_neg hsem]; exact step _ _⟩

/-! ## A lease cut at the end of the buffer -/

/-- The second of two leases: with the write cursor at 0 and room in the fifo,
the lease is all the free space. -/
theorem fifo_request_write_at_zero (evs : List wait_event) (f : xillyfifo) (info : xillyinfo)
    (n : Nat) (hs : f.size ≤ INT_MAX) (hd : f.done = 0) (hw : f.write_position = 0)
    (hn : f.bytes_in_fifo + n = f.size) (hpos : 0 < n) :
    fifo_request_write evs f info =
      some (Outcome.returned (n : Int)
        { slept := 0, bytes := (n : Int), position := 0, addr := f.baseaddr + 0 } f) := by
  have hsz : f.size < UINT_RANGE := by simp only [INT_MAX, UINT_RANGE] at *; omega
  rw [fifo_request_write_now evs f info hsz hd (by omega) (by omega)]
  have m : min (f.size - f.bytes_in_fifo) (f.size - f.write_position) = n := by omega
  rw [m, hw, int_of_uint_zero, int_of_uint_small n (by omega)]

/-- The first of two leases: with more free space than there is up to the end of
the buffer, the lease ends at the end of the buffer. -/
theorem fifo_request_write_to_end (evs : List wait_event) (f : xillyfifo) (info : xillyinfo)
    (hs : f.size ≤ INT_MAX) (hd : f.done = 0) (hw : f.write_position < f.size)
    (hb : f.bytes_in_fifo < f.write_position) :
    fifo_request_write evs f info =
      some (Outcome.returned ((f.size - f.write_position : Nat) : Int)
        { slept := 0, bytes := ((f.size - f.write_position : Nat) : Int),
          position := (f.write_position : Int), addr := f.baseaddr + f.write_position } f) := by
  have hsz : f.size < UINT_RANGE := by simp only [INT_MAX, UINT_RANGE] at *; omega
  rw [fifo_request_write_now evs f info hsz hd (by omega) hw]
  have m : min (f.size - f.bytes_in_fifo) (f.size - f.write_position) =
      f.size - f.write_position := by omega
  rw [m, int_of_uint_small _ (by omega : f.size - f.write_position ≤ INT_MAX),
    int_of_uint_small _ (by omega : f.write_position ≤ INT_MAX)]

/-- The fields `fifo_wrote` changes, for a commit that stays inside the free
space and the buffer. -/
theorem fifo_wrote_plain (gv : Bool) (f : xillyfifo) (n : Nat) (hs : f.size < UINT_RANGE)
    (h0 : 0 < n) (h1 : f.bytes_in_fifo + n ≤ f.size) (h2 : f.write_position + n ≤ f.size) :
    (fifo_wrote gv f n).bytes_in_fifo = f.bytes_in_fifo + n ∧
    (fifo_wrote gv f n).write_position =
      (if f.write_position + n ≥ f.size then f.write_position + n - f.size
       else f.write_position + n) ∧
    (fifo_wrote gv f n).size = f.size ∧
    (fifo_wrote gv f n).done = f.done ∧
    (fifo_wrote gv f n).baseaddr = f.baseaddr := by
  rw [fifo_wrote_eq]
  have hn : n ≠ 0 := by omega
  have e1 : uint_add f.bytes_in_fifo n = f.bytes_in_fifo + n :=
    uint_add_of_lt _ _ (by omega)
  have e2 : uint_add f.write_position n = f.write_position + n :=
    uint_add_of_lt _ _ (by omega)
  simp only [hn, if_false, e1, e2, true_and, and_true]
  by_cases h3 : f.write_position + n ≥ f.size
  · simp only [h3, if_true]
    exact uint_sub_of_le _ _ (by omega) h3
  · simp only [h3, if_false]

/-- Two leases around the end of the buffer fill the free space. -/
theorem two_leases {f : xillyfifo} (gv1 gv2 : Bool) (evs1 evs2 : List wait_event)
    (info1 info2 : xillyinfo) (hd : f.done = 0) (hs : f.size ≤ INT_MAX)
    (hw : f.write_position < f.size) (hb : f.bytes_in_fifo < f.write_position) :
    fifo_request_write evs1 f info1 =
      some (Outcome.returned ((f.size - f.write_position : Nat) : Int)
        { slept := 0, bytes := ((f.size - f.write_position : Nat) : Int),
          position := (f.write_position : Int), addr := f.baseaddr + f.write_position } f) ∧
    (fifo_wrote gv1 f (f.size - f.write_position)).write_position = 0 ∧
    fifo_request_write evs2 (fifo_wrote gv1 f (f.size - f.write_position)) info2 =
      some (Outcome.returned ((f.write_position - f.bytes_in_fifo : Nat) : Int)
        { slept := 0, bytes := ((f.write_position - f.bytes_in_fifo : Nat) : Int),
          position := 0,
          addr := (fifo_wrote gv1 f (f.size - f.write_position)).baseaddr + 0 }
        (fifo_wrote gv1 f (f.size - f.write_position))) ∧
    (fifo_wrote gv2 (fifo_wrote gv1 f (f.size - f.write_position))
      (f.write_position - f.bytes_in_fifo)).bytes_in_fifo = f.size ∧
    (∀ (evs : List wait_event) (info i : xillyinfo) (ret : Int) (g : xillyfifo),
      fifo_request_write evs
          (fifo_wrote gv2 (fifo_wrote gv1 f (f.size - f.write_position))
            (f.write_position - f.bytes_in_fifo)) info =
        some (Outcome.returned ret i g) → ret = 0 ∧ i.bytes = 0) := by
  have hsz : f.size < UINT_RANGE := by simp only [INT_MAX, UINT_RANGE] at *; omega
  obtain ⟨e1, e3, e6, e7, -⟩ :=
    fifo_wrote_plain gv1 f (f.size - f.write_position) hsz (by omega) (by omega) (by omega)
  have e3b : (fifo_wrote gv1 f (f.size - f.write_position)).write_position = 0 := by
    rw [e3]; split <;> omega
  obtain ⟨d1, -, d6, -, -⟩ :=
    fifo_wrote_plain gv2 (fifo_wrote gv1 f (f.size - f.write_position))
      (f.write_position - f.bytes_in_fifo) (by rw [e6]; exact hsz) (by omega)
      (by rw [e6, e1]; omega) (by rw [e6, e3b]; omega)
  refine ⟨fifo_request_write_to_end evs1 f info1 hs hd hw hb, e3b, ?_, ?_, ?_⟩
  · exact fifo_request_write_at_zero evs2 _ info2 _ (by rw [e6]; exact hs)
      (by rw [e7]; exact hd) e3b (by rw [e1, e6]; omega) (by omega)
  · rw [d1, e1]; omega
  · intro evs info i ret g h
    refine full_no_grant ?_ ?_ (Or.inl h)
    · rw [d6, e6]; exact hsz
    · rw [d6, d1, e6, e1]; omega

/-! ## Requests whose waits do not fail -/

theorem sem_wait_failed {evs : List wait_event} {sem : Nat}
    (h : sem_wait evs sem = wait_result.failed) : wait_event.error ∈ evs := by
  cases evs with
  | nil =>
    simp only [sem_wait] at h
    split at h <;> simp at h
  | cons e rest =>
    cases e with
    | error => exact List.mem_cons_self _ _
    | eintr => simp [sem_wait] at h
    | normal =>
      simp only [sem_wait] at h
      split at h <;> simp at h

theorem sem_wait_rest {evs rest : List wait_event} {sem sem1 : Nat}
    (h : sem_wait evs sem = wait_result.woke sem1 rest) (he : wait_event.error ∉ evs) :
    wait_event.error ∉ rest := by
  cases evs with
  | nil =>
    simp only [sem_wait] at h
    split at h
    · simp at h
    · simp only [wait_result.woke.injEq] at h
      rw [← h.2]; simp
  | cons e rest0 =>
    have hr : wait_event.error ∉ rest0 := fun hm => he (List.mem_cons_of_mem _ hm)
    cases e with
    | error => simp [sem_wait] at h
    | eintr =>
      simp only [sem_wait, wait_result.woke.injEq] at h
      rw [← h.2]; exact hr
    | normal =>
      simp only [sem_wait] at h
      split at h
      · simp at h
      · simp only [wait_result.woke.injEq] at h
        rw [← h.2]; exact hr

theorem write_wait_noerr (fuel : Nat) :
    ∀ (evs : List wait_event) (f : xillyfifo) (info : xillyinfo) (ret : Int) (i : xillyinfo)
      (g : xillyfifo), wait_event.error ∉ evs →
      write_wait fuel evs f info = some (Outcome.returned ret i g) →
      (g.done ≠ 0 ∧ ∃ i0 : xillyinfo, Outcome.returned ret i g = write_finish g i0 0) ∨
      (g.done = 0 ∧ g.bytes_in_fifo < uint_sub g.size FIFO_BACKOFF ∧
        ∃ i0 : xillyinfo, Outcome.returned ret i g = write_grant g i0 g.bytes_in_fifo) := by
  induction fuel with
  | zero => intro evs f info ret i g _ h; simp [write_wait] at h
  | succ fuel ih =>
    intro evs f info ret i g he h
    unfold write_wait at h
    cases hw : sem_wait evs f.write_sem with
    | parked => simp [hw] at h
    | failed => exact absurd (sem_wait_failed hw) he
    | woke sem rest =>
      simp only [hw] at h
      cases hr : write_recheck { f with write_sem := sem } info with
      | exit o =>
        simp only [hr, Option.some.injEq] at h
        subst h
        rcases write_recheck_exit hr with ⟨h1, h2⟩ | ⟨h1, h2, h3⟩
        · obtain ⟨rfl, -⟩ := write_finish_eq h2.symm
          exact Or.inl ⟨h1, info, h2⟩
        · obtain ⟨rfl, -⟩ := write_grant_eq h3.symm
          exact Or.inr ⟨h1, h2, info, h3⟩
      | again f1 i1 =>
        simp only [hr] at h
        exact ih rest _ _ ret i g (sem_wait_rest hw he) h

theorem drain_wait_noerr (fuel : Nat) :
    ∀ (evs : List wait_event) (f : xillyfifo) (info : xillyinfo) (ret : Int) (i : xillyinfo)
      (g : xillyfifo), wait_event.error ∉ evs →
      drain_wait fuel evs f info = some (Outcome.returned ret i g) →
      (g.bytes_in_fifo = 0 ∧ g.done ≠ 0 ∧
        ∃ i0 : xillyinfo, Outcome.returned ret i g = drain_finish g i0 0) ∨
      (g.bytes_in_fifo ≠ 0 ∧
        ∃ i0 : xillyinfo, Outcome.returned ret i g = drain_grant g i0 g.bytes_in_fifo) := by
  induction fuel with
  | zero => intro evs f info ret i g _ h; simp [drain_wait] at h
  | succ fuel ih =>
    intro evs f info ret i g he h
    unfold drain_wait at h
    cases hw : sem_wait evs f.read_sem with
    | parked => simp [hw] at h
    | failed => exact absurd (sem_wait_failed hw) he
    | woke sem rest =>
      simp only [hw] at h
      cases hr : drain_recheck { f with read_sem := sem } info with
      | exit o =>
        simp only [hr, Option.some.injEq] at h
        subst h
        rcases drain_test_exit hr with ⟨h1, h2, h3⟩ | ⟨h1, h3⟩
        · obtain ⟨rfl, -⟩ := drain_finish_eq h3.symm
          exact Or.inl ⟨h1, h2, info, h3⟩
        · obtain ⟨rfl, -⟩ := drain_grant_eq h3.symm
          exact Or.inr ⟨h1, info, h3⟩
      | again f1 i1 =>
        simp only [hr] at h
        exact ih rest _ _ ret i g (sem_wait_rest hw he) h

theorem write_request_noerr {evs : List wait_event} {f g : xillyfifo} {info i : xillyinfo}
    {ret : Int} (he : wait_event.error ∉ evs)
    (h : fifo_request_write evs f info = some (Outcome.returned ret i g) ∨
      fifo_request_write_resume evs f info = some (Outcome.returned ret i g)) :
    (g.done ≠ 0 ∧ ∃ i0 : xillyinfo, Outcome.returned ret i g = write_finish g i0 0) ∨
    (g.done = 0 ∧ g.bytes_in_fifo < uint_sub g.size FIFO_BACKOFF ∧
      ∃ i0 : xillyinfo, Outcome.returned ret i g = write_grant g i0 g.bytes_in_fifo) := by
  rcases h with h | h
  · rw [fifo_request_write_eq] at h
    split at h
    · rename_i hd
      simp only [Option.some.injEq] at h
      obtain ⟨rfl, -⟩ := write_finish_eq h
      exact Or.inl ⟨hd, _, h.symm⟩
    · rename_i hd
      split at h
      · exact write_wait_noerr _ _ _ _ _ _ _ he h
      · rename_i hb
        simp only [Option.some.injEq] at h
        obtain ⟨rfl, -⟩ := write_grant_eq h
        exact Or.inr ⟨by omega, by omega, _, h.symm⟩
  · rw [fifo_request_write_resume_eq] at h
    exact write_wait_noerr _ _ _ _ _ _ _ he h

theorem drain_request_noerr {evs : List wait_event} {f g : xillyfifo} {info i : xillyinfo}
    {ret : Int} (he : wait_event.error ∉ evs)
    (h : fifo_request_drain evs f info = some (Outcome.returned ret i g) ∨
      fifo_request_drain_resume evs f info = some (Outcome.returned ret i g)) :
    (g.bytes_in_fifo = 0 ∧ g.done ≠ 0 ∧
      ∃ i0 : xillyinfo, Outcome.returned ret i g = drain_finish g i0 0) ∨
    (g.bytes_in_fifo ≠ 0 ∧
      ∃ i0 : xillyinfo, Outcome.returned ret i g = drain_grant g i0 g.bytes_in_fifo) := by
  rcases h with h | h
  · rw [fifo_request_drain_eq] at h
    split at h
    · rename_i hb
      split at h
      · rename_i hd
        simp only [Option.some.injEq] at h
        obtain ⟨rfl, -⟩ := drain_finish_eq h
        exact Or.inl ⟨hb, hd, _, h.symm⟩
      · exact drain_wait_noerr _ _ _ _ _ _ _ he h
    · rename_i hb
      simp only [Option.some.injEq] at h
      obtain ⟨rfl, -⟩ := drain_grant_eq h
      exact Or.inr ⟨hb, _, h.symm⟩
  · rw [fifo_request_drain_resume_eq] at h
    exact drain_wait_noerr _ _ _ _ _ _ _ he h

/-! ## `done` seen after a wait -/

theorem write_wait_done (fuel : Nat) (evs : List wait_event) (f : xillyfifo)
    (info : xillyinfo) (hd : f.done ≠ 0) (hsem : f.write_sem ≠ 0) :
    ∃ sem, write_wait (fuel + 1) evs f info =
      some (write_finish { f with write_sem := sem } info 0) := by
  have step : ∀ (sem : Nat) (rest : List wait_event),
      (match write_recheck { f with write_sem := sem } info with
        | loop_result.exit o => some o
        | loop_result.again fifo1 info1 => write_wait fuel rest fifo1 info1) =
      some (write_finish { f with write_sem := sem } info 0) := by
    intro sem rest
    have h1 : ({ f with write_sem := sem } : xillyfifo).done ≠ 0 := hd
    simp only [write_recheck, if_pos h1]
  cases evs with
  | nil =>
    exact ⟨f.write_sem - 1, by simp only [write_wait, sem_wait, if_neg hsem]; exact step _ _⟩
  | cons e rest =>
    cases e with
    | error => exact ⟨f.write_sem, by simp only [write_wait, sem_wait]⟩
    | eintr => exact ⟨f.write_sem, by simp only [write_wait, sem_wait]; exact step _ _⟩
    | normal =>
      exact ⟨f.write_sem - 1, by simp only [write_wait, sem_wait, if_neg hsem]; exact step _ _⟩

/-! ## What a request returns is decided by the queue fields -/

theorem write_request_shape {evs : List wait_event} {f g : xillyfifo} {info i : xillyinfo}
    {ret : Int} (h : fifo_request_write evs f info = some (Outcome.returned ret i g)) :
    ret = (if f.done ≠ 0 ∨ f.bytes_in_fifo ≥ uint_sub f.size FIFO_BACKOFF then 0
      else int_of_uint
        (if uint_sub f.size (uint_add f.bytes_in_fifo FIFO_BACKOFF) >
            uint_sub f.size f.write_position
          then uint_sub f.size f.write_position
          else uint_sub f.size (uint_add f.bytes_in_fifo FIFO_BACKOFF))) ∧
    i = { slept := if f.done ≠ 0 then 0
            else if f.bytes_in_fifo ≥ uint_sub f.size FIFO_BACKOFF then 1 else 0,
          bytes := ret,
          position := int_of_uint f.write_position,
          addr := if f.done ≠ 0 ∨ f.bytes_in_fifo ≥ uint_sub f.size FIFO_BACKOFF then 0
            else f.baseaddr + f.write_position } := by
  have h0 := h
  rw [fifo_request_write_eq] at h
  by_cases hd : f.done ≠ 0
  · rw [if_pos hd] at h
    simp only [Option.some.injEq] at h
    obtain ⟨-, v2, v3, v4, v5, v6⟩ := write_finish_eq h
    rw [int_of_uint_zero] at v2 v3
    obtain ⟨s, b, p, a⟩ := i
    simp only at v3 v4 v5 v6
    simp only [if_pos hd, if_pos (Or.inl hd : f.done ≠ 0 ∨ _), xillyinfo.mk.injEq]
    exact ⟨v2, v6, v3.trans v2.symm, v4, v5⟩
  · rw [if_neg hd] at h
    by_cases hb : f.bytes_in_fifo ≥ uint_sub f.size FIFO_BACKOFF
    · rw [if_pos hb] at h
      obtain ⟨k1, -, -, i0, k4, k5⟩ := write_wait_returned _ _ _ _ _ _ _ h
      obtain ⟨-, -, e3, -, e5, e6, -, -⟩ := k1
      have hi0 : i0.slept = 1 ∧ i0.addr = 0 := by
        rcases k4 with k4 | k4 <;> rw [k4] <;> exact ⟨rfl, rfl⟩
      rcases k5 with k5 | ⟨-, k5, -⟩
      · obtain ⟨-, v2, v3, v4, v5, v6⟩ := write_finish_eq k5.symm
        rw [int_of_uint_zero] at v2 v3
        obtain ⟨s, b, p, a⟩ := i
        simp only at v3 v4 v5 v6
        simp only [if_neg hd, if_pos hb, if_pos (Or.inr hb : f.done ≠ 0 ∨ _),
          xillyinfo.mk.injEq]
        exact ⟨v2, v6.trans hi0.1, v3.trans v2.symm, by rw [v4, e5], v5.trans hi0.2⟩
      · rw [e3, e6] at k5
        omega
    · rw [if_neg hb] at h
      simp only [Option.some.injEq] at h
      obtain ⟨-, v2, v3, v4, v5, v6⟩ := write_grant_eq h
      obtain ⟨s, b, p, a⟩ := i
      simp only at v3 v4 v5 v6
      have hor : ¬ (f.done ≠ 0 ∨ f.bytes_in_fifo ≥ uint_sub f.size FIFO_BACKOFF) := by
        intro hh; rcases hh with hh | hh
        · exact hd hh
        · exact hb hh
      simp only [if_neg hd, if_neg hb, if_neg hor, xillyinfo.mk.injEq]
      exact ⟨v2, v6, v3, v4, v5⟩

theorem drain_request_shape {evs : List wait_event} {f g : xillyfifo} {info i : xillyinfo}
    {ret : Int} (h : fifo_request_drain evs f info = some (Outcome.returned ret i g)) :
    ret = (if f.bytes_in_fifo = 0 then 0
      else int_of_uint
        (if f.bytes_in_fifo < uint_sub f.size f.read_position then f.bytes_in_fifo
          else uint_sub f.size f.read_position)) ∧
    i = { slept := if f.bytes_in_fifo = 0 then (if f.done ≠ 0 then 0 else 1) else 0,
          bytes := ret,
          position := int_of_uint f.read_position,
          addr := if f.bytes_in_fifo = 0 then 0 else f.baseaddr + f.read_position } := by
  rw [fifo_request_drain_eq] at h
  by_cases hb : f.bytes_in_fifo = 0
  · rw [if_pos hb] at h
    by_cases hd : f.done ≠ 0
    · rw [if_pos hd] at h
      simp only [Option.some.injEq] at h
      obtain ⟨-, v2, v3, v4, v5, v6⟩ := drain_finish_eq h
      obtain ⟨s, b, p, a⟩ := i
      simp only at v3 v4 v5 v6
      simp only [if_pos hb, if_pos hd, xillyinfo.mk.injEq]
      exact ⟨v2, v6, v3.trans v2.symm, v4, v5⟩
    · rw [if_neg hd] at h
      obtain ⟨k1, -, -, i0, k4, k5⟩ := drain_wait_returned _ _ _ _ _ _ _ h
      obtain ⟨-, -, e3, e4, -, e6, -, -⟩ := k1
      have hi0 : i0.slept = 1 ∧ i0.addr = 0 := by
        rcases k4 with k4 | k4 <;> rw [k4] <;> exact ⟨rfl, rfl⟩
      rcases k5 with k5 | ⟨k5, -⟩
      · obtain ⟨-, v2, v3, v4, v5, v6⟩ := drain_finish_eq k5.symm
        obtain ⟨s, b, p, a⟩ := i
        simp only at v3 v4 v5 v6
        simp only [if_pos hb, if_neg hd, xillyinfo.mk.injEq]
        exact ⟨v2, v6.trans hi0.1, v3.trans v2.symm, by rw [v4, e4], v5.trans hi0.2⟩
      · rw [e3] at k5
        exact absurd hb k5
  · rw [if_neg hb] at h
    simp only [Option.some.injEq] at h
    obtain ⟨-, v2, v3, v4, v5, v6⟩ := drain_grant_eq h
    obtain ⟨s, b, p, a⟩ := i
    simp only at v3 v4 v5 v6
    simp only [if_neg hb, xillyinfo.mk.injEq]
    exact ⟨v2, v6, v3, v4, v5⟩

/-- Two write requests in a row with no commit between them return the same
lease. -/
theorem write_request_twice {evs evs2 : List wait_event} {f g g2 : xillyfifo}
    {info info2 i i2 : xillyinfo} {ret ret2 : Int}
    (h : fifo_request_write evs f info = some (Outcome.returned ret i g))
    (h2 : fifo_request_write evs2 g info2 = some (Outcome.returned ret2 i2 g2)) :
    ret2 = ret ∧ i2 = i := by
  obtain ⟨-, -, e3, -, e5, e6, e7, e8⟩ := (fifo_request_write_returned h).1
  obtain ⟨s1, s2⟩ := write_request_shape h
  obtain ⟨t1, t2⟩ := write_request_shape h2
  rw [e3, e5, e6, e7] at t1
  rw [e3, e5, e6, e7, e8] at t2
  have hr : ret2 = ret := t1.trans s1.symm
  rw [hr] at t2
  exact ⟨hr, t2.trans s2.symm⟩

/-- Two drain requests in a row with no commit between them return the same
lease. -/
theorem drain_request_twice {evs evs2 : List wait_event} {f g g2 : xillyfifo}
    {info info2 i i2 : xillyinfo} {ret ret2 : Int}
    (h : fifo_request_drain evs f info = some (Outcome.returned ret i g))
    (h2 : fifo_request_drain evs2 g info2 = some (Outcome.returned ret2 i2 g2)) :
    ret2 = ret ∧ i2 = i := by
  obtain ⟨-, -, e3, e4, -, e6, e7, e8⟩ := (fifo_request_drain_returned h).1
  obtain ⟨s1, s2⟩ := drain_request_shape h
  obtain ⟨t1, t2⟩ := drain_request_shape h2
  rw [e3, e4, e6] at t1
  rw [e3, e4, e7, e8] at t2
  have hr : ret2 = ret := t1.trans s1.symm
  rw [hr] at t2
  exact ⟨hr, t2.trans s2.symm⟩

/-! ## fifo_init: the pre-fault loop and the semaphores -/

/-- For a size above `2^32 - 1024` the counter of the pre-fault loop wraps to 0
before it reaches the size: the loop does not end. -/
theorem prefault_diverges (buf size : Nat) (hs : 4294966272 < size) (fuel : Nat) :
    ∀ (i : Nat) (mem : Memory), i % 1024 = 0 → i < UINT_RANGE →
      prefault fuel buf size i mem = none := by
  induction fuel with
  | zero => intro i mem _ _; rfl
  | succ fuel ih =>
    intro i mem h1 h2
    simp only [UINT_RANGE] at h2
    have hlt : i < size := by omega
    simp only [prefault, if_pos hlt]
    apply ih
    · simp only [uint_add, UINT_RANGE]; omega
    · simp only [uint_add, UINT_RANGE]; omega

/-- For a size up to `2^32 - 1024` the pre-fault loop ends. -/
theorem prefault_terminates (buf size : Nat) (hs : size ≤ 4294966272) (fuel : Nat) :
    ∀ (i : Nat) (mem : Memory), i % 1024 = 0 → i ≤ size + 1023 →
      size + 1024 < i + 1024 * fuel → ∃ mem1, prefault fuel buf size i mem = some mem1 := by
  induction fuel with
  | zero => intro i mem _ _ h; omega
  | succ fuel ih =>
    intro i mem h1 h2 h3
    by_cases hlt : i < size
    · simp only [prefault, if_pos hlt]
      have e : uint_add i 1024 = i + 1024 := by
        simp only [uint_add, UINT_RANGE]; omega
      rw [e]
      exact ih _ _ (by omega) (by omega) (by omega)
    · simp only [prefault, if_neg hlt]
      exact ⟨mem, rfl⟩

theorem fifo_init_sems_ret {fuel : Nat} {env : init_env} {f g : xillyfifo} {mem m : Memory}
    {size : Nat} {r : Int} (sems : sem_alloc)
    (h : fifo_init fuel env f mem size = some (r, g, m)) :
    (fifo_init_sems env sems).1 = r := by
  unfold fifo_init at h
  unfold fifo_init_sems
  dsimp only at h ⊢
  split at h
  · rename_i h1
    simp only [Option.some.injEq, Prod.mk.injEq] at h
    rw [if_pos h1]; exact h.1
  · rename_i h1
    rw [if_neg h1]
    split at h
    · rename_i h2
      simp only [Option.some.injEq, Prod.mk.injEq] at h
      rw [if_pos h2]; exact h.1
    · rename_i h2
      rw [if_neg h2]
      split at h
      · rename_i h3
        simp only [Option.some.injEq, Prod.mk.injEq] at h
        rw [if_pos h3]; exact h.1
      · rename_i h3
        rw [if_neg h3]
        split at h
        · split at h
          · simp at h
          · simp only [Option.some.injEq, Prod.mk.injEq] at h
            exact h.1
        · simp only [Option.some.injEq, Prod.mk.injEq] at h
          exact h.1

theorem fifo_init_failure {fuel : Nat} {env : init_env} {f g : xillyfifo} {mem m : Memory}
    {size : Nat} (h : fifo_init fuel env f mem size = some (-1, g, m)) :
    g.baseaddr = 0 ∧
    (env.read_sem_ok = false ∨ env.write_sem_ok = false ∨ env.malloc_addr = 0) := by
  unfold fifo_init at h
  dsimp only at h
  split at h
  · rename_i h1
    simp only [Option.some.injEq, Prod.mk.injEq, true_and] at h
    exact ⟨by rw [← h.1], Or.inl h1⟩
  · split at h
    · rename_i h2
      simp only [Option.some.injEq, Prod.mk.injEq, true_and] at h
      exact ⟨by rw [← h.1], Or.inr (Or.inl h2)⟩
    · split at h
      · rename_i h3
        simp only [Option.some.injEq, Prod.mk.injEq, true_and] at h
        exact ⟨by rw [← h.1]; exact h3, Or.inr (Or.inr h3)⟩
      · split at h
        · split at h
          · simp at h
          · simp at h
        · simp at h

theorem int_of_uint_ne_zero (u : Nat) (h1 : 0 < u) (h2 : u < UINT_RANGE) :
    int_of_uint u ≠ 0 := by
  simp only [int_of_uint, INT_MAX, UINT_RANGE] at *
  rw [Nat.mod_eq_of_lt h2]
  split
  · omega
  · push_cast; omega

/-! ## The bytes in the ring -/

theorem mod_wrap (size x : Nat) (h : x < size + size) :
    x % size = if x < size then x else x - size := by
  split
  · rename_i h1
    exact Nat.mod_eq_of_lt h1
  · rename_i h1
    rw [Nat.mod_eq_sub_mod (by omega), Nat.mod_eq_of_lt (by omega)]

/-- Bytes stored in the free part of the ring come after the pending ones. -/
theorem window_append (mem : Memory) (base size rp bytes wp k : Nat) (data : List Nat)
    (hb : bytes ≤ size) (hrp : rp < size ∨ (size = 0 ∧ rp = 0))
    (hwp : wp = rp + bytes ∨ wp + size = rp + bytes)
    (hk : k ≤ data.length) (h1 : data.length ≤ size - bytes) (h2 : data.length ≤ size - wp) :
    (List.range (bytes + k)).map
        (fun j => store_bytes mem (base + wp) data (base + (rp + j) % size)) =
      (List.range bytes).map (fun j => mem (base + (rp + j) % size)) ++ data.take k := by
  apply List.ext_getElem
  · simp only [List.length_map, List.length_range, List.length_append, List.length_take]
    omega
  · intro j hj1 hj2
    simp only [List.length_map, List.length_range] at hj1
    rw [List.getElem_map, List.getElem_range]
    have hm := mod_wrap size (rp + j) (by omega)
    by_cases hlt : j < bytes
    · rw [List.getElem_append_left (by simp only [List.length_map, List.length_range]; exact hlt),
        List.getElem_map, List.getElem_range]
      have hno : ¬ (base + wp ≤ base + (rp + j) % size ∧
          base + (rp + j) % size < base + wp + data.length) := by
        rw [hm]; split <;> omega
      simp only [store_bytes, if_neg hno]
    · rw [List.getElem_append_right (by simp only [List.length_map, List.length_range]; omega),
        List.getElem_take]
      simp only [List.length_map, List.length_range]
      have hidx : (rp + j) % size = wp + (j - bytes) := by
        rw [hm]; split <;> omega
      have hyes : base + wp ≤ base + (rp + j) % size ∧
          base + (rp + j) % size < base + wp + data.length := by
        rw [hidx]; omega
      simp only [store_bytes, if_pos hyes]
      rw [hidx]
      have e : base + (wp + (j - bytes)) - (base + wp) = j - bytes := by omega
      rw [e, List.getD_eq_getElem _ _ (by omega)]

/-- The pending bytes are those of a lease at the read cursor followed by the
rest. -/
theorem window_split (mem : Memory) (base size rp bytes k : Nat)
    (hb : bytes ≤ size) (hrp : rp < size ∨ (size = 0 ∧ rp = 0))
    (hk : k ≤ bytes) (h2 : k ≤ size - rp) :
    (List.range bytes).map (fun j => mem (base + (rp + j) % size)) =
      load_bytes mem (base + rp) k ++
        (List.range (bytes - k)).map
          (fun j => mem (base +
            ((if rp + k ≥ size then rp + k - size else rp + k) + j) % size)) := by
  apply List.ext_getElem
  · simp only [load_bytes, List.length_map, List.length_range, List.length_append]
    omega
  · intro j hj1 hj2
    simp only [List.length_map, List.length_range] at hj1
    rw [List.getElem_map, List.getElem_range]
    have hm := mod_wrap size (rp + j) (by omega)
    by_cases hlt : j < k
    · rw [List.getElem_append_left
          (by simp only [load_bytes, List.length_map, List.length_range]; exact hlt)]
      simp only [load_bytes, List.getElem_map, List.getElem_range]
      have hidx : (rp + j) % size = rp + j := by
        rw [hm]; split <;> omega
      rw [hidx, Nat.add_assoc]
    · rw [List.getElem_append_right
          (by simp only [load_bytes, List.length_map, List.length_range]; omega)]
      simp only [load_bytes, List.getElem_map, List.getElem_range, List.length_map,
        List.length_range]
      have hidx : ((if rp + k ≥ size then rp + k - size else rp + k) + (j - k)) % size =
          (rp + j) % size := by
        rw [hm]
        split
        · rename_i hge
          rw [mod_wrap size _ (by omega)]
          split <;> split <;> omega
        · rename_i hge
          rw [mod_wrap size _ (by omega)]
          split <;> split <;> omega
      rw [hidx]

theorem store_bytes_nil (mem : Memory) (addr : Nat) : store_bytes mem addr [] = mem := by
  funext a
  simp [store_bytes]

theorem pending_same {f g : xillyfifo} (h : same_queue f g) (mem : Memory) :
    pending g mem = pending f mem := by
  obtain ⟨-, -, e3, e4, -, e6, -, e8⟩ := h
  simp only [pending, e3, e4, e6, e8]

theorem pending_wrote (gv : Bool) (f : xillyfifo) (mem : Memory) (data : List Nat) (k : Nat)
    (hq : queue_inv f) (hk : k ≤ data.length) (h1 : data.length ≤ f.size - f.bytes_in_fifo)
    (h2 : data.length ≤ f.size - f.write_position) :
    pending (fifo_wrote gv f k) (store_bytes mem (f.baseaddr + f.write_position) data) =
      pending f mem ++ data.take k := by
  obtain ⟨e1, -, -, e4, -, e6, -, e8, -⟩ := fifo_wrote_fields gv f k hq (by omega) (by omega)
  obtain ⟨a1, a2, a3, a4, a5, a6, a7⟩ := hq
  simp only [pending, e1, e4, e6, e8]
  exact window_append mem f.baseaddr f.size f.read_position f.bytes_in_fifo f.write_position k
    data a2 a3 a5 hk h1 h2

theorem pending_drained (gv : Bool) (f : xillyfifo) (mem : Memory) (k : Nat)
    (hq : queue_inv f) (h1 : k ≤ f.bytes_in_fifo) (h2 : k ≤ f.size - f.read_position) :
    pending f mem =
      load_bytes mem (f.baseaddr + f.read_position) k ++ pending (fifo_drained gv f k) mem := by
  obtain ⟨e1, -, e3, -, -, e6, -, e8, -⟩ := fifo_drained_fields gv f k hq h1 h2
  obtain ⟨a1, a2, a3, a4, a5, a6, a7⟩ := hq
  simp only [pending, e1, e3, e6, e8]
  exact window_split mem f.baseaddr f.size f.read_position f.bytes_in_fifo k a2 a3 h1 h2

/-! ## A stream stays consistent -/

theorem stream_after_write_request_inv {s s1 : stream} {o : Option Outcome}
    (hi : stream_inv s)
    (ho : ∀ ret i g, o = some (Outcome.returned ret i g) →
      same_queue s.fifo g ∧ ∃ i0 : xillyinfo,
        (Outcome.returned ret i g = write_finish g i0 0 ∨
          (g.done = 0 ∧ g.bytes_in_fifo < uint_sub g.size FIFO_BACKOFF ∧
            Outcome.returned ret i g = write_grant g i0 g.bytes_in_fifo)))
    (hb : ∀ i g, o = some (Outcome.blocked i g) → same_queue s.fifo g)
    (h : stream_after_write_request s o = some s1) : stream_inv s1 := by
  obtain ⟨i1, i2, i3, i4⟩ := hi
  cases o with
  | none => simp [stream_after_write_request] at h
  | some oo =>
    cases oo with
    | returned ret i g =>
      simp only [stream_after_write_request, Option.some.injEq] at h
      subst h
      obtain ⟨k1, i0, k2⟩ := ho ret i g rfl
      have hg := same_queue_inv k1 i1.1
      obtain ⟨-, -, -, -, v5⟩ := write_result_bounds hg k2
      have hs : session_inv { fifo := g, write_lease := uint_of_int ret, read_lease := s.read_lease } :=
        @after_write_request_inv
          { fifo := s.fifo, write_lease := s.write_lease, read_lease := s.read_lease } _ s.fifo
          (some (Outcome.returned ret i g)) i1 rfl
          (fun ret1 j g1 he => by
            simp only [Option.some.injEq, Outcome.returned.injEq] at he
            obtain ⟨rfl, rfl, rfl⟩ := he
            exact ⟨k1, i0, k2⟩)
          (fun j g1 he => by simp at he) rfl
      refine ⟨hs, v5, ?_, ?_⟩
      · intro hp
        show s.read_addr = g.baseaddr + g.read_position
        rw [k1.2.2.2.2.2.2.2, k1.2.2.2.1]
        exact i3 hp
      · show s.written = s.consumed ++ pending g s.mem
        rw [pending_same k1]
        exact i4
    | blocked i g =>
      simp only [stream_after_write_request, Option.some.injEq] at h
      subst h
      have k1 := hb i g rfl
      refine ⟨@session_inv_same s.fifo g s.write_lease s.read_lease k1 i1, ?_, ?_, ?_⟩
      · intro hp
        show s.write_addr = g.baseaddr + g.write_position
        rw [k1.2.2.2.2.2.2.2, k1.2.2.2.2.1]
        exact i2 hp
      · intro hp
        show s.read_addr = g.baseaddr + g.read_position
        rw [k1.2.2.2.2.2.2.2, k1.2.2.2.1]
        exact i3 hp
      · show s.written = s.consumed ++ pending g s.mem
        rw [pending_same k1]
        exact i4

theorem stream_after_drain_request_inv {s s1 : stream} {o : Option Outcome}
    (hi : stream_inv s)
    (ho : ∀ ret i g, o = some (Outcome.returned ret i g) →
      same_queue s.fifo g ∧ ∃ i0 : xillyinfo,
        (Outcome.returned ret i g = drain_finish g i0 0 ∨
          (g.bytes_in_fifo ≠ 0 ∧
            Outcome.returned ret i g = drain_grant g i0 g.bytes_in_fifo)))
    (hb : ∀ i g, o = some (Outcome.blocked i g) → same_queue s.fifo g)
    (h : stream_after_drain_request s o = some s1) : stream_inv s1 := by
  obtain ⟨i1, i2, i3, i4⟩ := hi
  cases o with
  | none => simp [stream_after_drain_request] at h
  | some oo =>
    cases oo with
    | returned ret i g =>
      simp only [stream_after_drain_request, Option.some.injEq] at h
      subst h
      obtain ⟨k1, i0, k2⟩ := ho ret i g rfl
      have hg := same_queue_inv k1 i1.1
      obtain ⟨-, -, -, -, v5⟩ := drain_result_bounds hg k2
      have hs : session_inv { fifo := g, write_lease := s.write_lease, read_lease := uint_of_int ret } :=
        @after_drain_request_inv
          { fifo := s.fifo, write_lease := s.write_lease, read_lease := s.read_lease } _ s.fifo
          (some (Outcome.returned ret i g)) i1 rfl
          (fun ret1 j g1 he => by
            simp only [Option.some.injEq, Outcome.returned.injEq] at he
            obtain ⟨rfl, rfl, rfl⟩ := he
            exact ⟨k1, i0, k2⟩)
          (fun j g1 he => by simp at he) rfl
      refine ⟨hs, ?_, v5, ?_⟩
      · intro hp
        show s.write_addr = g.baseaddr + g.write_position
        rw [k1.2.2.2.2.2.2.2, k1.2.2.2.2.1]
        exact i2 hp
      · show s.written = s.consumed ++ pending g s.mem
        rw [pending_same k1]
        exact i4
    | blocked i g =>
      simp only [stream_after_drain_request, Option.some.injEq] at h
      subst h
      have k1 := hb i g rfl
      refine ⟨@session_inv_same s.fifo g s.write_lease s.read_lease k1 i1, ?_, ?_, ?_⟩
      · intro hp
        show s.write_addr = g.baseaddr + g.write_position
        rw [k1.2.2.2.2.2.2.2, k1.2.2.2.2.1]
        exact i2 hp
      · intro hp
        show s.read_addr = g.baseaddr + g.read_position
        rw [k1.2.2.2.2.2.2.2, k1.2.2.2.1]
        exact i3 hp
      · show s.written = s.consumed ++ pending g s.mem
        rw [pending_same k1]
        exact i4

theorem stream_produce_inv {s : stream} (gv : Bool) (data : List Nat) (k : Nat)
    (hi : stream_inv s) (hl : data.length ≤ s.write_lease) (hk : k ≤ data.length) :
    stream_inv { s with
      mem := store_bytes s.mem s.write_addr data,
      fifo := fifo_wrote gv s.fifo k,
      write_addr := s.write_addr + k,
      write_lease := s.write_lease - k,
      written := s.written ++ data.take k } := by
  obtain ⟨i1, i2, i3, i4⟩ := hi
  have hs := @call_step_inv { fifo := s.fifo, write_lease := s.write_lease, read_lease := s.read_lease }
      { fifo := fifo_wrote gv s.fifo k, write_lease := s.write_lease - k,
        read_lease := s.read_lease } (fifo_call.wrote gv k) i1
      (by simp only [call_step, if_pos (show k ≤ s.write_lease by omega)])
  obtain ⟨hq, w1, w2, -, -⟩ := i1
  have w1b : s.write_lease ≤ s.fifo.size - s.fifo.bytes_in_fifo := w1
  have w2b : s.write_lease ≤ s.fifo.size - s.fifo.write_position := w2
  obtain ⟨-, -, e3, e4, -, -, -, e8, -⟩ :=
    fifo_wrote_fields gv s.fifo k hq (by omega) (by omega)
  refine ⟨hs, ?_, ?_, ?_⟩
  · intro hp
    have hp2 : 0 < s.write_lease - k := hp
    show s.write_addr + k =
      (fifo_wrote gv s.fifo k).baseaddr + (fifo_wrote gv s.fifo k).write_position
    rw [e8, e3, i2 (by omega)]
    split <;> omega
  · intro hp
    show s.read_addr =
      (fifo_wrote gv s.fifo k).baseaddr + (fifo_wrote gv s.fifo k).read_position
    rw [e8, e4]
    exact i3 hp
  · show s.written ++ data.take k =
      s.consumed ++ pending (fifo_wrote gv s.fifo k) (store_bytes s.mem s.write_addr data)
    by_cases hd : data.length = 0
    · have hnil : data = [] := List.length_eq_zero.mp hd
      have hk0 : k = 0 := by omega
      subst hnil
      subst hk0
      rw [store_bytes_nil, fifo_wrote_zero, ← i4]
      simp
    · rw [i2 (by omega), pending_wrote gv s.fifo s.mem data k hq hk (by omega) (by omega),
        i4, List.append_assoc]

theorem stream_consume_inv {s : stream} (gv : Bool) (k : Nat)
    (hi : stream_inv s) (hk : k ≤ s.read_lease) :
    stream_inv { s with
      consumed := s.consumed ++ load_bytes s.mem s.read_addr k,
      fifo := fifo_drained gv s.fifo k,
      read_addr := s.read_addr + k,
      read_lease := s.read_lease - k } := by
  obtain ⟨i1, i2, i3, i4⟩ := hi
  have hs := @call_step_inv { fifo := s.fifo, write_lease := s.write_lease, read_lease := s.read_lease }
      { fifo := fifo_drained gv s.fifo k, write_lease := s.write_lease,
        read_lease := s.read_lease - k } (fifo_call.drained gv k) i1
      (by simp only [call_step, if_pos (show k ≤ s.read_lease by omega)])
  obtain ⟨hq, -, -, r1, r2⟩ := i1
  have r1b : s.read_lease ≤ s.fifo.bytes_in_fifo := r1
  have r2b : s.read_lease ≤ s.fifo.size - s.fifo.read_position := r2
  obtain ⟨-, -, e3, e4, -, -, -, e8, -⟩ :=
    fifo_drained_fields gv s.fifo k hq (by omega) (by omega)
  refine ⟨hs, ?_, ?_, ?_⟩
  · intro hp
    show s.write_addr =
      (fifo_drained gv s.fifo k).baseaddr + (fifo_drained gv s.fifo k).write_position
    rw [e8, e4]
    exact i2 hp
  · intro hp
    have hp2 : 0 < s.read_lease - k := hp
    show s.read_addr + k =
      (fifo_drained gv s.fifo k).baseaddr + (fifo_drained gv s.fifo k).read_position
    rw [e8, e3, i3 (by omega)]
    split <;> omega
  · show s.written =
      (s.consumed ++ load_bytes s.mem s.read_addr k) ++ pending (fifo_drained gv s.fifo k) s.mem
    by_cases hk0 : k = 0
    · subst hk0
      rw [fifo_drained_zero, i4]
      simp [load_bytes]
    · rw [i3 (by omega), List.append_assoc,
        ← pending_drained gv s.fifo s.mem k hq (by omega) (by omega)]
      exact i4

theorem stream_do_inv {s s1 : stream} {c : stream_step} (hi : stream_inv s)
    (h : stream_do s c = some s1) : stream_inv s1 := by
  cases c with
  | request_write evs info =>
    refine stream_after_write_request_inv hi ?_ ?_ h
    · intro ret i g ho
      obtain ⟨k1, -, -, k4⟩ := write_request_returned_any (Or.inl ho)
      exact ⟨k1, k4⟩
    · intro i g ho
      exact (write_request_blocked_any (Or.inl ho)).1
  | resume_write evs info =>
    refine stream_after_write_request_inv hi ?_ ?_ h
    · intro ret i g ho
      obtain ⟨k1, -, -, k4⟩ := write_request_returned_any (Or.inr ho)
      exact ⟨k1, k4⟩
    · intro i g ho
      exact (write_request_blocked_any (Or.inr ho)).1
  | request_drain evs info =>
    refine stream_after_drain_request_inv hi ?_ ?_ h
    · intro ret i g ho
      obtain ⟨k1, -, -, k4⟩ := drain_request_returned_any (Or.inl ho)
      exact ⟨k1, k4⟩
    · intro i g ho
      exact (drain_request_blocked_any (Or.inl ho)).1
  | resume_drain evs info =>
    refine stream_after_drain_request_inv hi ?_ ?_ h
    · intro ret i g ho
      obtain ⟨k1, -, -, k4⟩ := drain_request_returned_any (Or.inr ho)
      exact ⟨k1, k4⟩
    · intro i g ho
      exact (drain_request_blocked_any (Or.inr ho)).1
  | produce gv data k =>
    simp only [stream_do] at h
    split at h
    · rename_i hc
      simp only [Option.some.injEq] at h
      subst h
      exact stream_produce_inv gv data k hi hc.1 hc.2
    · simp at h
  | consume gv k =>
    simp only [stream_do] at h
    split at h
    · rename_i hc
      simp only [Option.some.injEq] at h
      subst h
      exact stream_consume_inv gv k hi hc
    · simp at h
  | done =>
    simp only [stream_do, Option.some.injEq] at h
    subst h
    obtain ⟨⟨h0, h1, h2, h3, h4⟩, i2, i3, i4⟩ := hi
    exact ⟨⟨fifo_done_queue_inv _ h0, h1, h2, h3, h4⟩, i2, i3, i4⟩

theorem stream_run_inv (cs : List stream_step) :
    ∀ (s s1 : stream), stream_inv s → stream_run s cs = some s1 → stream_inv s1 := by
  induction cs with
  | nil =>
    intro s s1 hi h
    simp only [stream_run, Option.some.injEq] at h
    subst h
    exact hi
  | cons c cs ih =>
    intro s s1 hi h
    simp only [stream_run] at h
    cases hc : stream_do s c with
    | none => simp [hc] at h
    | some s2 =>
      simp only [hc] at h
      exact ih s2 s1 (stream_do_inv hi hc) h

theorem stream_fresh_inv {size : Nat} {f : xillyfifo} (h : init_success size f)
    (mem : Memory) : stream_inv (stream_fresh f mem) := by
  refine ⟨fresh_session_inv h, fun hp => ?_, fun hp => ?_, ?_⟩
  · exact absurd hp (by simp [stream_fresh])
  · exact absurd hp (by simp [stream_fresh])
  · obtain ⟨addr, -, rfl, -⟩ := init_success_fresh h
    simp [stream_fresh, pending, fifo_fresh]

/-! # The claims -/

/-- C1. In every state reached from a successful `fifo_init(size)` by calls of
`fifo_request_write`, `fifo_wrote`, `fifo_request_drain`, `fifo_drained` and
`fifo_done` (a parked request may also be resumed) in which every commit reports
no more than what is left of the most recent lease returned on its side,
`0 <= bytes_in_fifo <= size`, and `write_total - read_total == bytes_in_fifo`:
as an `unsigned long` subtraction always, and as a subtraction of numbers as
long as the totals have not wrapped around. -/
theorem C1_occupancy_invariant (size : Nat) (f : xillyfifo) (cs : List fifo_call) (s : session)
    (hi : init_success size f) (hr : run_calls (fresh f) cs = some s) :
    s.fifo.size = size ∧ 0 ≤ s.fifo.bytes_in_fifo ∧ s.fifo.bytes_in_fifo ≤ s.fifo.size ∧
    ulong_sub s.fifo.write_total s.fifo.read_total = s.fifo.bytes_in_fifo ∧
    (s.fifo.read_total + s.fifo.bytes_in_fifo < ULONG_RANGE →
      s.fifo.write_total - s.fifo.read_total = s.fifo.bytes_in_fifo) := by
  obtain ⟨⟨a1, a2, a3, a4, a5, a6, a7⟩, -⟩ := reachable_inv hi hr
  obtain ⟨addr, -, rfl, hs⟩ := init_success_fresh hi
  obtain ⟨r1, -⟩ := run_calls_frame cs _ _ 0 hr (Nat.zero_le _) (le_refl _)
  refine ⟨r1, Nat.zero_le _, a2, ?_, ?_⟩
  · rw [a7]
    simp only [ulong_sub, ULONG_RANGE, UINT_RANGE] at *
    split <;> omega
  · intro hlt
    rw [a7]
    simp only [ULONG_RANGE, UINT_RANGE] at *
    omega

/-- Witness of C1: a fifo of 16 bytes, filled to the brim across the wrap. -/
theorem C1_occupancy_invariant_witness :
    init_success 16 (fifo_fresh 16 4096) ∧
    run_calls (fresh (fifo_fresh 16 4096)) calls_wrap16 = some session_wrap16 ∧
    (session_wrap16.fifo.size = 16 ∧ 0 ≤ session_wrap16.fifo.bytes_in_fifo ∧
      session_wrap16.fifo.bytes_in_fifo ≤ session_wrap16.fifo.size ∧
      ulong_sub session_wrap16.fifo.write_total session_wrap16.fifo.read_total =
        session_wrap16.fifo.bytes_in_fifo ∧
      (session_wrap16.fifo.read_total + session_wrap16.fifo.bytes_in_fifo < ULONG_RANGE →
        session_wrap16.fifo.write_total - session_wrap16.fifo.read_total =
          session_wrap16.fifo.bytes_in_fifo)) :=
  ⟨init_success_of_fresh 16 4096 (by decide) (by decide), by decide,
    C1_occupancy_invariant 16 (fifo_fresh 16 4096) calls_wrap16 session_wrap16
      (init_success_of_fresh 16 4096 (by decide) (by decide)) (by decide)⟩

/-- C2. In every state reached from a successful `fifo_init(size)` under the
caller contract, every lease returned by `fifo_request_write` or
`fifo_request_drain` (called afresh, or resumed after having been parked)
satisfies `info.position + info.bytes <= size`: no lease spans the physical end
of the buffer. While `size` fits an `int`, neither field is negative either. -/
theorem C2_lease_bound (size : Nat) (f : xillyfifo) (cs : List fifo_call) (s : session)
    (evs : List wait_event) (info i : xillyinfo) (ret : Int) (g : xillyfifo)
    (hi : init_success size f) (hr : run_calls (fresh f) cs = some s)
    (hreq :
      fifo_request_write evs s.fifo info = some (Outcome.returned ret i g) ∨
      fifo_request_write_resume evs s.fifo info = some (Outcome.returned ret i g) ∨
      fifo_request_drain evs s.fifo info = some (Outcome.returned ret i g) ∨
      fifo_request_drain_resume evs s.fifo info = some (Outcome.returned ret i g)) :
    i.position + i.bytes ≤ (size : Int) ∧ (size ≤ INT_MAX → 0 ≤ i.position ∧ 0 ≤ i.bytes) := by
  obtain ⟨hq, -⟩ := reachable_inv hi hr
  obtain ⟨addr, -, rfl, hs⟩ := init_success_fresh hi
  obtain ⟨hsz, -⟩ := run_calls_frame cs _ _ 0 hr (Nat.zero_le _) (le_refl _)
  have hsz2 : s.fifo.size = size := hsz
  have hw : ∀ h : (fifo_request_write evs s.fifo info = some (Outcome.returned ret i g) ∨
      fifo_request_write_resume evs s.fifo info = some (Outcome.returned ret i g)),
      i.position + i.bytes ≤ (size : Int) ∧ (size ≤ INT_MAX → 0 ≤ i.position ∧ 0 ≤ i.bytes) := by
    intro h
    obtain ⟨k1, -, -, i0, k4⟩ := write_request_returned_any h
    have hg := same_queue_inv k1 hq
    have hgs : g.size = size := k1.2.2.2.2.2.1.trans hsz2
    obtain ⟨-, v2, v3⟩ := write_result_values hg k4
    obtain ⟨a1, a2, a3, a4, a5, a6, a7⟩ := hg
    rcases v3 with ⟨v3, -⟩ | ⟨-, -, v3, -⟩
    · exact @lease_window _ _ 0 _ _ hs v2 (Or.inl v3) (by omega)
    · exact lease_window hs v2 (Or.inr v3) (by rw [← hgs]; omega)
  have hd : ∀ h : (fifo_request_drain evs s.fifo info = some (Outcome.returned ret i g) ∨
      fifo_request_drain_resume evs s.fifo info = some (Outcome.returned ret i g)),
      i.position + i.bytes ≤ (size : Int) ∧ (size ≤ INT_MAX → 0 ≤ i.position ∧ 0 ≤ i.bytes) := by
    intro h
    obtain ⟨k1, -, -, i0, k4⟩ := drain_request_returned_any h
    have hg := same_queue_inv k1 hq
    have hgs : g.size = size := k1.2.2.2.2.2.1.trans hsz2
    obtain ⟨-, v2, v3⟩ := drain_result_values hg k4
    obtain ⟨a1, a2, a3, a4, a5, a6, a7⟩ := hg
    rcases v3 with ⟨v3, -⟩ | ⟨-, v3, -⟩
    · exact @lease_window _ _ 0 _ _ hs v2 (Or.inl v3) (by omega)
    · exact lease_window hs v2 (Or.inr v3) (by rw [← hgs]; omega)
  rcases hreq with h | h | h | h
  · exact hw (Or.inl h)
  · exact hw (Or.inr h)
  · exact hd (Or.inl h)
  · exact hd (Or.inr h)

/-- Witness of C2: on a fifo of 16 bytes with both cursors at 12, a write request
returns 4 bytes at offset 12, up to the end of the buffer. -/
theorem C2_lease_bound_witness :
    init_success 16 (fifo_fresh 16 4096) ∧
    run_calls (fresh (fifo_fresh 16 4096)) calls_fill12 = some session_fill12 ∧
    fifo_request_write [] session_fill12.fifo info_zero =
      some (Outcome.returned 4 lease_12_4 session_fill12.fifo) ∧
    (lease_12_4.position + lease_12_4.bytes ≤ ((16 : Nat) : Int) ∧
      (16 ≤ INT_MAX → 0 ≤ lease_12_4.position ∧ 0 ≤ lease_12_4.bytes)) :=
  ⟨init_success_of_fresh 16 4096 (by decide) (by decide), by decide, by decide,
    C2_lease_bound 16 (fifo_fresh 16 4096) calls_fill12 session_fill12 [] info_zero
      lease_12_4 4 session_fill12.fifo
      (init_success_of_fresh 16 4096 (by decide) (by decide)) (by decide)
      (Or.inl (by decide))⟩

/-- C3. FIFO round trip across wraparound. For every size and every sequence of
producer steps (`fifo_request_write`, a store of bytes into the leased window
followed by `fifo_wrote(k)` with `k` within the lease) and consumer steps
(`fifo_request_drain`, a load of `k` bytes of the leased window followed by
`fifo_drained(k)` with `k` within the lease), also with `fifo_done` among them,
run from a successful `fifo_init`: the bytes the consumer has read are a prefix
of the bytes the producer has committed, and are all of them whenever
`bytes_in_fifo` is 0. -/
theorem C3_round_trip (size : Nat) (f : xillyfifo) (mem : Memory) (cs : List stream_step)
    (s : stream) (hi : init_success size f)
    (hr : stream_run (stream_fresh f mem) cs = some s) :
    (∃ t : List Nat, s.written = s.consumed ++ t) ∧
    (s.fifo.bytes_in_fifo = 0 → s.consumed = s.written) := by
  obtain ⟨-, -, -, h4⟩ := stream_run_inv cs _ _ (stream_fresh_inv hi mem) hr
  refine ⟨⟨pending s.fifo s.mem, h4⟩, fun h0 => ?_⟩
  rw [h4]
  simp [pending, h0]

/-- Witness of C3: capacity 16; after 12 bytes have gone through, both cursors are
at 12 and the fifo is empty; 16 bytes are then written through the leases
(offset 12, length 4) and (offset 0, length 12), and read back through the
leases (offset 12, length 4) and (offset 0, length 12): the consumer has read
exactly what was written. -/
theorem C3_round_trip_witness :
    init_success 16 (fifo_fresh 16 4096) ∧
    stream_run (stream_fresh (fifo_fresh 16 4096) mem_zero) steps_wrap16 =
      some stream_wrap16 ∧
    (stream_run (stream_fresh (fifo_fresh 16 4096) mem_zero) (steps_wrap16.take 4)).map
        (fun s => (s.fifo.read_position, s.fifo.write_position, s.fifo.bytes_in_fifo,
          fifo_request_write [] s.fifo info_zero)) =
      some (12, 12, 0, some (Outcome.returned 4 lease_12_4 session_fill12.fifo)) ∧
    (stream_run (stream_fresh (fifo_fresh 16 4096) mem_zero) (steps_wrap16.take 6)).map
        (fun s => (s.fifo.read_position, s.fifo.write_position, s.fifo.bytes_in_fifo,
          fifo_request_write [] s.fifo info_zero)) =
      some (12, 0, 4, some (Outcome.returned 12
        { slept := 0, bytes := 12, position := 0, addr := 4096 }
        { read_total := 12, write_total := 16, bytes_in_fifo := 4, read_position := 12,
          write_position := 0, size := 16, done := 0, baseaddr := 4096, write_sem := 1,
          read_sem := 1 })) ∧
    stream_wrap16.consumed = stream_wrap16.written ∧
    ((∃ t : List Nat, stream_wrap16.written = stream_wrap16.consumed ++ t) ∧
      (stream_wrap16.fifo.bytes_in_fifo = 0 → stream_wrap16.consumed = stream_wrap16.written)) :=
  ⟨init_success_of_fresh 16 4096 (by decide) (by decide), rfl, by decide, by decide, by decide,
    C3_round_trip 16 (fifo_fresh 16 4096) mem_zero steps_wrap16 stream_wrap16
      (init_success_of_fresh 16 4096 (by decide) (by decide)) rfl⟩

/-- C4, as stated, fails: on a fresh fifo of `2^31` bytes the lease is the whole
buffer, `min(size - bytes_in_fifo, size - write_position) = 2147483648`, which
the `int` field `info.bytes` cannot hold; the call returns `-2147483648` there. -/
theorem C4_counterexample :
    (fifo_fresh 2147483648 4096).in_range ∧ (fifo_fresh 2147483648 4096).done = 0 ∧
    (fifo_fresh 2147483648 4096).bytes_in_fifo < (fifo_fresh 2147483648 4096).size ∧
    (fifo_fresh 2147483648 4096).write_position < (fifo_fresh 2147483648 4096).size ∧
    fifo_request_write [] (fifo_fresh 2147483648 4096) info_zero =
      some (Outcome.returned (-2147483648)
        { slept := 0, bytes := -2147483648, position := 0, addr := 4096 }
        (fifo_fresh 2147483648 4096)) ∧
    (-2147483648 : Int) ≠
      ((min ((fifo_fresh 2147483648 4096).size - (fifo_fresh 2147483648 4096).bytes_in_fifo)
        ((fifo_fresh 2147483648 4096).size - (fifo_fresh 2147483648 4096).write_position) : Nat) :
        Int) := by
  decide

/-- C4, amended. For every fifo state with `done == 0`, `bytes_in_fifo < size`
and `write_position < size`, `fifo_request_write` returns without waiting
(`info.slept == 0`) and without changing the fifo; `info.addr` is
`baseaddr + write_position`, `info.position` is `write_position` converted to
`int`, `info.bytes` is `min(size - bytes_in_fifo, size - write_position)`
converted to `int`, and the return value equals `info.bytes`. While `size` fits
an `int` the two conversions change nothing. -/
theorem C4_write_lease (evs : List wait_event) (f : xillyfifo) (info : xillyinfo)
    (hr : f.in_range) (hd : f.done = 0) (hb : f.bytes_in_fifo < f.size)
    (hw : f.write_position < f.size) :
    ∃ i : xillyinfo,
      fifo_request_write evs f info = some (Outcome.returned i.bytes i f) ∧
      i.slept = 0 ∧ i.addr = f.baseaddr + f.write_position ∧
      i.position = int_of_uint f.write_position ∧
      i.bytes = int_of_uint (min (f.size - f.bytes_in_fifo) (f.size - f.write_position)) ∧
      (f.size ≤ INT_MAX →
        i.position = (f.write_position : Int) ∧
        i.bytes = ((min (f.size - f.bytes_in_fifo) (f.size - f.write_position) : Nat) : Int)) := by
  refine ⟨{ slept := 0,
            bytes := int_of_uint (min (f.size - f.bytes_in_fifo) (f.size - f.write_position)),
            position := int_of_uint f.write_position,
            addr := f.baseaddr + f.write_position }, ?_, rfl, rfl, rfl, rfl, ?_⟩
  · exact fifo_request_write_now evs f info hr.2.2.2.2.2.1 hd hb hw
  · intro hs
    exact ⟨int_of_uint_small _ (by omega), int_of_uint_small _ (by omega)⟩

/-- Witness of C4: size 16, 2 bytes pending, write cursor at 5. -/
theorem C4_write_lease_witness :
    ∃ i : xillyinfo,
      fifo_request_write [] { fifo_fresh 16 4096 with
          bytes_in_fifo := 2, read_position := 3, write_position := 5 } info_zero =
        some (Outcome.returned i.bytes i { fifo_fresh 16 4096 with
          bytes_in_fifo := 2, read_position := 3, write_position := 5 }) ∧
      i.slept = 0 ∧ i.addr = 4096 + 5 ∧ i.position = int_of_uint 5 ∧
      i.bytes = int_of_uint (min (16 - 2) (16 - 5)) ∧
      (16 ≤ INT_MAX → i.position = ((5 : Nat) : Int) ∧
        i.bytes = ((min (16 - 2) (16 - 5) : Nat) : Int)) :=
  C4_write_lease [] { fifo_fresh 16 4096 with
      bytes_in_fifo := 2, read_position := 3, write_position := 5 } info_zero
    (by decide) (by decide) (by decide) (by decide)

/-- C5, as stated, fails: where `min(bytes_in_fifo, size - read_position)` is
`2147483648`, the `int` field `info.bytes` cannot hold it; the call returns
`-2147483648` there. -/
theorem C5_counterexample :
    ({ fifo_fresh 4294967295 4096 with
        bytes_in_fifo := 2147483648, write_position := 2147483648,
        write_total := 2147483648 } : xillyfifo).in_range ∧
    fifo_request_drain [] { fifo_fresh 4294967295 4096 with
        bytes_in_fifo := 2147483648, write_position := 2147483648,
        write_total := 2147483648 } info_zero =
      some (Outcome.returned (-2147483648)
        { slept := 0, bytes := -2147483648, position := 0, addr := 4096 }
        { fifo_fresh 4294967295 4096 with
          bytes_in_fifo := 2147483648, write_position := 2147483648,
          write_total := 2147483648 }) ∧
    (-2147483648 : Int) ≠ ((min 2147483648 (4294967295 - 0) : Nat) : Int) := by
  decide

/-- C5, amended. For every fifo state with `bytes_in_fifo > 0` and
`read_position < size`, whether or not `done` is set, `fifo_request_drain`
returns without waiting (`info.slept == 0`) and without changing the fifo;
`info.addr` is `baseaddr + read_position`, `info.position` is `read_position`
converted to `int`, `info.bytes` is `min(bytes_in_fifo, size - read_position)`
converted to `int`, and the return value equals `info.bytes`. While `size` fits
an `int` the two conversions change nothing. -/
theorem C5_drain_lease (evs : List wait_event) (f : xillyfifo) (info : xillyinfo)
    (hr : f.in_range) (hb : 0 < f.bytes_in_fifo) (hw : f.read_position < f.size) :
    ∃ i : xillyinfo,
      fifo_request_drain evs f info = some (Outcome.returned i.bytes i f) ∧
      i.slept = 0 ∧ i.addr = f.baseaddr + f.read_position ∧
      i.position = int_of_uint f.read_position ∧
      i.bytes = int_of_uint (min f.bytes_in_fifo (f.size - f.read_position)) ∧
      (f.size ≤ INT_MAX →
        i.position = (f.read_position : Int) ∧
        i.bytes = ((min f.bytes_in_fifo (f.size - f.read_position) : Nat) : Int)) := by
  refine ⟨{ slept := 0,
            bytes := int_of_uint (min f.bytes_in_fifo (f.size - f.read_position)),
            position := int_of_uint f.read_position,
            addr := f.baseaddr + f.read_position }, ?_, rfl, rfl, rfl, rfl, ?_⟩
  · exact fifo_request_drain_now evs f info hr.2.2.2.2.2.1 hb hw
  · intro hs
    exact ⟨int_of_uint_small _ (by omega), int_of_uint_small _ (by omega)⟩

/-- Witness of C5: size 16, 5 bytes pending from offset 13, `done` set. -/
theorem C5_drain_lease_witness :
    ∃ i : xillyinfo,
      fifo_request_drain [] { fifo_fresh 16 4096 with
          bytes_in_fifo := 5, read_position := 13, write_position := 2, done := 1 }
          info_zero =
        some (Outcome.returned i.bytes i { fifo_fresh 16 4096 with
          bytes_in_fifo := 5, read_position := 13, write_position := 2, done := 1 }) ∧
      i.slept = 0 ∧ i.addr = 4096 + 13 ∧ i.position = int_of_uint 13 ∧
      i.bytes = int_of_uint (min 5 (16 - 13)) ∧
      (16 ≤ INT_MAX → i.position = ((13 : Nat) : Int) ∧
        i.bytes = ((min 5 (16 - 13) : Nat) : Int)) :=
  C5_drain_lease [] { fifo_fresh 16 4096 with
      bytes_in_fifo := 5, read_position := 13, write_position := 2, done := 1 } info_zero
    (by decide) (by decide) (by decide)

/-- C6. `fifo_wrote(0)` leaves every fifo state unchanged. In a state reached
from a successful `fifo_init` under the caller contract, for every `n > 0` not
exceeding what is left of the most recent write lease, `write_position + n <=
size`, and `fifo_wrote(n)` increases `bytes_in_fifo` by `n`, increases
`write_total` by `n` (as an `unsigned long`, so exactly `n` unless the total
wraps at `2^64`), and sets `write_position` to `(write_position + n) mod size`,
which is below `size`. -/
theorem C6_fifo_wrote (size : Nat) (f : xillyfifo) (cs : List fifo_call) (s : session)
    (gv : Bool) (n : Nat)
    (hi : init_success size f) (hr : run_calls (fresh f) cs = some s)
    (hpos : 0 < n) (hn : n ≤ s.write_lease) :
    (∀ (gv0 : Bool) (f0 : xillyfifo), fifo_wrote gv0 f0 0 = f0) ∧
    s.fifo.write_position + n ≤ s.fifo.size ∧
    (fifo_wrote gv s.fifo n).bytes_in_fifo = s.fifo.bytes_in_fifo + n ∧
    (fifo_wrote gv s.fifo n).write_total = ulong_add s.fifo.write_total n ∧
    (s.fifo.write_total + n < ULONG_RANGE →
      (fifo_wrote gv s.fifo n).write_total = s.fifo.write_total + n) ∧
    (fifo_wrote gv s.fifo n).write_position = (s.fifo.write_position + n) % s.fifo.size ∧
    (fifo_wrote gv s.fifo n).write_position < s.fifo.size := by
  obtain ⟨hq, h1, h2, -, -⟩ := reachable_inv hi hr
  obtain ⟨e1, e2, e3, -⟩ := fifo_wrote_fields gv s.fifo n hq (by omega) (by omega)
  obtain ⟨a1, a2, a3, a4, a5, a6, a7⟩ := hq
  have hwp : s.fifo.write_position + n ≤ s.fifo.size := by omega
  have hmod : (if s.fifo.write_position + n ≥ s.fifo.size
      then s.fifo.write_position + n - s.fifo.size else s.fifo.write_position + n) =
      (s.fifo.write_position + n) % s.fifo.size := by
    split
    · have : s.fifo.write_position + n = s.fifo.size := by omega
      rw [this, Nat.sub_self, Nat.mod_self]
    · rw [Nat.mod_eq_of_lt (by omega)]
  refine ⟨fifo_wrote_zero, hwp, e1, e2, ?_, ?_, ?_⟩
  · intro hlt
    rw [e2, ulong_add, Nat.mod_eq_of_lt hlt]
  · rw [e3, hmod]
  · rw [e3, hmod]
    exact Nat.mod_lt _ (by omega)

/-- Witness of C6: 4 bytes are left of the write lease at offset 12 of 16; writing
them takes the cursor to 0. -/
theorem C6_fifo_wrote_witness :
    init_success 16 (fifo_fresh 16 4096) ∧
    run_calls (fresh (fifo_fresh 16 4096)) calls_fill12 = some session_fill12 ∧
    ((∀ (gv0 : Bool) (f0 : xillyfifo), fifo_wrote gv0 f0 0 = f0) ∧
    session_fill12.fifo.write_position + 4 ≤ session_fill12.fifo.size ∧
    (fifo_wrote true session_fill12.fifo 4).bytes_in_fifo =
      session_fill12.fifo.bytes_in_fifo + 4 ∧
    (fifo_wrote true session_fill12.fifo 4).write_total =
      ulong_add session_fill12.fifo.write_total 4 ∧
    (session_fill12.fifo.write_total + 4 < ULONG_RANGE →
      (fifo_wrote true session_fill12.fifo 4).write_total =
        session_fill12.fifo.write_total + 4) ∧
    (fifo_wrote true session_fill12.fifo 4).write_position =
      (session_fill12.fifo.write_position + 4) % session_fill12.fifo.size ∧
    (fifo_wrote true session_fill12.fifo 4).write_position < session_fill12.fifo.size) :=
  ⟨init_success_of_fresh 16 4096 (by decide) (by decide), by decide,
    C6_fifo_wrote 16 (fifo_fresh 16 4096) calls_fill12 session_fill12 true 4
      (init_success_of_fresh 16 4096 (by decide) (by decide)) (by decide)
      (by decide) (by decide)⟩

/-- C7. `fifo_drained(0)` leaves every fifo state unchanged. In a state reached
from a successful `fifo_init` under the caller contract, for every `n > 0` not
exceeding what is left of the most recent read lease, `n <= bytes_in_fifo` and
`read_position + n <= size`, and `fifo_drained(n)` decreases `bytes_in_fifo` by
`n`, increases `read_total` by `n` (as an `unsigned long`, so exactly `n` unless
the total wraps at `2^64`), and sets `read_position` to
`(read_position + n) mod size`, which is below `size`. -/
theorem C7_fifo_drained (size : Nat) (f : xillyfifo) (cs : List fifo_call) (s : session)
    (gv : Bool) (n : Nat)
    (hi : init_success size f) (hr : run_calls (fresh f) cs = some s)
    (hpos : 0 < n) (hn : n ≤ s.read_lease) :
    (∀ (gv0 : Bool) (f0 : xillyfifo), fifo_drained gv0 f0 0 = f0) ∧
    n ≤ s.fifo.bytes_in_fifo ∧ s.fifo.read_position + n ≤ s.fifo.size ∧
    (fifo_drained gv s.fifo n).bytes_in_fifo + n = s.fifo.bytes_in_fifo ∧
    (fifo_drained gv s.fifo n).read_total = ulong_add s.fifo.read_total n ∧
    (s.fifo.read_total + n < ULONG_RANGE →
      (fifo_drained gv s.fifo n).read_total = s.fifo.read_total + n) ∧
    (fifo_drained gv s.fifo n).read_position = (s.fifo.read_position + n) % s.fifo.size ∧
    (fifo_drained gv s.fifo n).read_position < s.fifo.size := by
  obtain ⟨hq, -, -, h3, h4⟩ := reachable_inv hi hr
  obtain ⟨e1, e2, e3, -⟩ := fifo_drained_fields gv s.fifo n hq (by omega) (by omega)
  obtain ⟨a1, a2, a3, a4, a5, a6, a7⟩ := hq
  have hrp : s.fifo.read_position + n ≤ s.fifo.size := by omega
  have hmod : (if s.fifo.read_position + n ≥ s.fifo.size
      then s.fifo.read_position + n - s.fifo.size else s.fifo.read_position + n) =
      (s.fifo.read_position + n) % s.fifo.size := by
    split
    · have : s.fifo.read_position + n = s.fifo.size := by omega
      rw [this, Nat.sub_self, Nat.mod_self]
    · rw [Nat.mod_eq_of_lt (by omega)]
  refine ⟨fifo_drained_zero, by omega, hrp, by rw [e1]; omega, e2, ?_, ?_, ?_⟩
  · intro hlt
    rw [e2, ulong_add, Nat.mod_eq_of_lt hlt]
  · rw [e3, hmod]
  · rw [e3, hmod]
    exact Nat.mod_lt _ (by omega)

/-- Witness of C7: the consumer holds a lease of 12 bytes at offset 0 of 16 and
commits 5 of them. -/
theorem C7_fifo_drained_witness :
    init_success 16 (fifo_fresh 16 4096) ∧
    run_calls (fresh (fifo_fresh 16 4096)) calls_read12 = some session_read12 ∧
    ((∀ (gv0 : Bool) (f0 : xillyfifo), fifo_drained gv0 f0 0 = f0) ∧
    5 ≤ session_read12.fifo.bytes_in_fifo ∧
    session_read12.fifo.read_position + 5 ≤ session_read12.fifo.size ∧
    (fifo_drained true session_read12.fifo 5).bytes_in_fifo + 5 =
      session_read12.fifo.bytes_in_fifo ∧
    (fifo_drained true session_read12.fifo 5).read_total =
      ulong_add session_read12.fifo.read_total 5 ∧
    (session_read12.fifo.read_total + 5 < ULONG_RANGE →
      (fifo_drained true session_read12.fifo 5).read_total =
        session_read12.fifo.read_total + 5) ∧
    (fifo_drained true session_read12.fifo 5).read_position =
      (session_read12.fifo.read_position + 5) % session_read12.fifo.size ∧
    (fifo_drained true session_read12.fifo 5).read_position < session_read12.fifo.size) :=
  ⟨init_success_of_fresh 16 4096 (by decide) (by decide), by decide,
    C7_fifo_drained 16 (fifo_fresh 16 4096) calls_read12 session_read12 true 5
      (init_success_of_fresh 16 4096 (by decide) (by decide)) (by decide)
      (by decide) (by decide)⟩

/-- C8, as stated, fails: 3 bytes are written to a fifo of 16 bytes, `fifo_done`
is called, and a drain request issued after that returns a lease of 3 bytes,
not a zero-length lease. -/
theorem C8_counterexample :
    run_calls (fresh (fifo_fresh 16 4096)) (calls_in3 ++ [fifo_call.done]) =
      some session_done3 ∧
    fifo_request_drain [] session_done3.fifo info_zero =
      some (Outcome.returned 3 { slept := 0, bytes := 3, position := 0, addr := 4096 }
        session_done3.fifo) := by
  decide

/-- C8, amended. In every state reached after `fifo_done` has been called, a
newly issued `fifo_request_write` returns a zero-length lease (return value 0,
`info.bytes == 0`) without waiting, and a newly issued `fifo_request_drain`
returns without waiting: a zero-length lease when `bytes_in_fifo == 0`, and
otherwise the lease of the data still in the fifo, with `info.bytes` equal to
`min(bytes_in_fifo, size - read_position)` converted to `int`, which is not
zero, and is that min itself (so `>= 1`) when `size <= INT_MAX`. Neither call
changes the fifo. -/
theorem C8_after_done (size : Nat) (f : xillyfifo) (cs1 cs2 : List fifo_call) (s : session)
    (evs : List wait_event) (info : xillyinfo)
    (hi : init_success size f)
    (hr : run_calls (fresh f) (cs1 ++ fifo_call.done :: cs2) = some s) :
    (∃ i : xillyinfo,
      fifo_request_write evs s.fifo info = some (Outcome.returned 0 i s.fifo) ∧
      i.bytes = 0 ∧ i.slept = 0) ∧
    (∃ i : xillyinfo,
      fifo_request_drain evs s.fifo info = some (Outcome.returned i.bytes i s.fifo) ∧
      i.slept = 0 ∧
      (s.fifo.bytes_in_fifo = 0 → i.bytes = 0) ∧
      (0 < s.fifo.bytes_in_fifo →
        i.bytes = int_of_uint (min s.fifo.bytes_in_fifo (s.fifo.size - s.fifo.read_position)) ∧
        i.bytes ≠ 0 ∧
        (s.fifo.size ≤ INT_MAX →
          i.bytes =
            ((min s.fifo.bytes_in_fifo (s.fifo.size - s.fifo.read_position) : Nat) : Int) ∧
          1 ≤ i.bytes))) := by
  have hd : s.fifo.done ≠ 0 := run_calls_after_done hr
  obtain ⟨⟨a1, a2, a3, a4, a5, a6, a7⟩, -⟩ := reachable_inv hi hr
  refine ⟨⟨{ slept := 0, bytes := 0, position := int_of_uint s.fifo.write_position, addr := 0 },
    fifo_request_write_done evs s.fifo info hd, rfl, rfl⟩, ?_⟩
  by_cases hb : s.fifo.bytes_in_fifo = 0
  · exact ⟨{ slept := 0, bytes := 0, position := int_of_uint s.fifo.read_position, addr := 0 },
      fifo_request_drain_done evs s.fifo info hd hb, rfl, fun _ => rfl, fun h => by omega⟩
  · have hrp : s.fifo.read_position < s.fifo.size := by omega
    refine ⟨{ slept := 0,
              bytes := int_of_uint (min s.fifo.bytes_in_fifo (s.fifo.size - s.fifo.read_position)),
              position := int_of_uint s.fifo.read_position,
              addr := s.fifo.baseaddr + s.fifo.read_position },
      fifo_request_drain_now evs s.fifo info a1 (by omega) hrp, rfl,
      fun h => absurd h hb, fun _ => ⟨rfl, ?_, fun hsz => ?_⟩⟩
    · show int_of_uint (min s.fifo.bytes_in_fifo (s.fifo.size - s.fifo.read_position)) ≠ 0
      exact int_of_uint_ne_zero _ (by omega) (by omega)
    · have hv : int_of_uint (min s.fifo.bytes_in_fifo (s.fifo.size - s.fifo.read_position)) =
          ((min s.fifo.bytes_in_fifo (s.fifo.size - s.fifo.read_position) : Nat) : Int) :=
        int_of_uint_small _ (by omega)
      refine ⟨hv, ?_⟩
      show 1 ≤ int_of_uint (min s.fifo.bytes_in_fifo (s.fifo.size - s.fifo.read_position))
      rw [hv]
      omega

/-- Witness of C8: 3 bytes written, then `fifo_done`. -/
theorem C8_after_done_witness :
    init_success 16 (fifo_fresh 16 4096) ∧
    run_calls (fresh (fifo_fresh 16 4096)) (calls_in3 ++ fifo_call.done :: []) =
      some session_done3 ∧
    ((∃ i : xillyinfo,
      fifo_request_write [] session_done3.fifo info_zero =
        some (Outcome.returned 0 i session_done3.fifo) ∧
      i.bytes = 0 ∧ i.slept = 0) ∧
    (∃ i : xillyinfo,
      fifo_request_drain [] session_done3.fifo info_zero =
        some (Outcome.returned i.bytes i session_done3.fifo) ∧
      i.slept = 0 ∧
      (session_done3.fifo.bytes_in_fifo = 0 → i.bytes = 0) ∧
      (0 < session_done3.fifo.bytes_in_fifo →
        i.bytes = int_of_uint (min session_done3.fifo.bytes_in_fifo
          (session_done3.fifo.size - session_done3.fifo.read_position)) ∧
        i.bytes ≠ 0 ∧
        (session_done3.fifo.size ≤ INT_MAX →
          i.bytes = ((min session_done3.fifo.bytes_in_fifo
            (session_done3.fifo.size - session_done3.fifo.read_position) : Nat) : Int) ∧
          1 ≤ i.bytes)))) :=
  ⟨init_success_of_fresh 16 4096 (by decide) (by decide), by decide,
    C8_after_done 16 (fifo_fresh 16 4096) calls_in3 [] session_done3 [] info_zero
      (init_success_of_fresh 16 4096 (by decide) (by decide)) (by decide)⟩

/-- C9, as stated, fails: `fifo_done` right after `fifo_init` posts `write_sem`,
which `fifo_init` has set to 1; its value is then 2. -/
theorem C9_counterexample :
    init_success 8 (fifo_fresh 8 4096) ∧
    (run_calls (fresh (fifo_fresh 8 4096)) [fifo_call.done]).map
      (fun s => s.fifo.write_sem) = some 2 :=
  ⟨init_success_of_fresh 8 4096 (by decide) (by decide), by decide⟩

/-- C9, amended. In every state reached from a successful `fifo_init` by calls of
`fifo_request_write`, `fifo_wrote`, `fifo_request_drain`, `fifo_drained` and
`fifo_done`, the value of `read_sem` and the value of `write_sem` are each at
most 1 plus the number of calls of `fifo_done` made so far; so each is 0 or 1 as
long as `fifo_done` has not been called. -/
theorem C9_semaphore_bound (size : Nat) (f : xillyfifo) (cs : List fifo_call) (s : session)
    (hi : init_success size f) (hr : run_calls (fresh f) cs = some s) :
    s.fifo.read_sem ≤ 1 + count_done cs ∧ s.fifo.write_sem ≤ 1 + count_done cs ∧
    (count_done cs = 0 →
      (s.fifo.read_sem = 0 ∨ s.fifo.read_sem = 1) ∧
      (s.fifo.write_sem = 0 ∨ s.fifo.write_sem = 1)) := by
  obtain ⟨addr, -, rfl, -⟩ := init_success_fresh hi
  obtain ⟨-, -, r3, r4⟩ := run_calls_frame cs _ _ 0 hr (Nat.zero_le _) (le_refl _)
  refine ⟨by omega, by omega, fun h0 => ?_⟩
  rw [h0] at r3 r4
  omega

/-- Witness of C9: the run `calls_wrap16`, which has no call of `fifo_done`. -/
theorem C9_semaphore_bound_witness :
    init_success 16 (fifo_fresh 16 4096) ∧
    run_calls (fresh (fifo_fresh 16 4096)) calls_wrap16 = some session_wrap16 ∧
    (session_wrap16.fifo.read_sem ≤ 1 + count_done calls_wrap16 ∧
    session_wrap16.fifo.write_sem ≤ 1 + count_done calls_wrap16 ∧
    (count_done calls_wrap16 = 0 →
      (session_wrap16.fifo.read_sem = 0 ∨ session_wrap16.fifo.read_sem = 1) ∧
      (session_wrap16.fifo.write_sem = 0 ∨ session_wrap16.fifo.write_sem = 1))) :=
  ⟨init_success_of_fresh 16 4096 (by decide) (by decide), by decide,
    C9_semaphore_bound 16 (fifo_fresh 16 4096) calls_wrap16 session_wrap16
      (init_success_of_fresh 16 4096 (by decide) (by decide)) (by decide)⟩

/-- C10, as stated, fails for a capacity that does not fit an `int`: on a fifo of
`2^31` bytes the producer commits the whole buffer, the consumer is leased and
commits all `2^31` bytes, and the re-check of `fifo_request_write` then returns
a lease with `info.bytes == -2147483648`, which is not at least 1. -/
theorem C10_counterexample :
    init_success 2147483648 (fifo_fresh 2147483648 4096) ∧
    (run_calls (fresh (fifo_fresh 2147483648 4096))
      [fifo_call.request_write [] info_zero, fifo_call.wrote true 2147483648,
       fifo_call.request_drain [] info_zero]).map
      (fun s => (s.fifo.bytes_in_fifo, s.fifo.size, s.fifo.done, s.read_lease,
        write_recheck (fifo_drained true s.fifo 2147483648) info_zero)) =
    some (2147483648, 2147483648, 0, 2147483648,
      loop_result.exit (Outcome.returned (-2147483648)
        { slept := 0, bytes := -2147483648, position := 0, addr := 4096 }
        { read_total := 2147483648, write_total := 2147483648, bytes_in_fifo := 0,
          read_position := 0, write_position := 0, size := 2147483648, done := 0,
          baseaddr := 4096, write_sem := 1, read_sem := 1 })) ∧
    ¬ (1 ≤ (-2147483648 : Int)) :=
  ⟨init_success_of_fresh 2147483648 4096 (by decide) (by decide), by decide, by decide⟩

/-- C10, amended. Backpressure. In a state reached from a successful
`fifo_init(size)`, `size > 0`, in which the fifo is full (`bytes_in_fifo ==
size`) and `done` is clear, `fifo_request_write` grants no lease: if it returns
at all (a `sem_wait` failed) the lease has length zero, and when no `sem_wait`
fails it ends parked in `sem_wait` with `info.slept == 1`; every re-check of the
wait condition sends it back to wait. After a `fifo_drained(n)` with `1 <= n`
(and `n` within the read lease) the re-check returns a lease whose `info.bytes`
is not zero, and is at least 1 when `size <= INT_MAX`; the parked call returns
it once resumed. -/
theorem C10_backpressure (size : Nat) (f : xillyfifo) (cs : List fifo_call) (s : session)
    (hi : init_success size f) (hr : run_calls (fresh f) cs = some s)
    (hpos : 0 < size) (hfull : s.fifo.bytes_in_fifo = s.fifo.size) (hd : s.fifo.done = 0) :
    (∀ (evs : List wait_event) (info i : xillyinfo) (ret : Int) (g : xillyfifo),
      fifo_request_write evs s.fifo info = some (Outcome.returned ret i g) →
        ret = 0 ∧ i.bytes = 0) ∧
    (∀ (evs : List wait_event) (info : xillyinfo), wait_event.error ∉ evs →
      ∃ (i : xillyinfo) (g : xillyfifo),
        fifo_request_write evs s.fifo info = some (Outcome.blocked i g) ∧ i.slept = 1) ∧
    (∀ (g : xillyfifo) (info : xillyinfo), same_queue s.fifo g →
      write_recheck g info = loop_result.again g { info with slept := 1 }) ∧
    (∀ (gv : Bool) (n : Nat) (g : xillyfifo) (info : xillyinfo), 1 ≤ n → n ≤ s.read_lease →
      same_queue (fifo_drained gv s.fifo n) g →
      ∃ i : xillyinfo,
        write_recheck g info = loop_result.exit (Outcome.returned i.bytes i g) ∧
        i.bytes ≠ 0 ∧ (size ≤ INT_MAX → 1 ≤ i.bytes)) ∧
    (∀ (n : Nat) (evs : List wait_event) (info : xillyinfo), 1 ≤ n → n ≤ s.read_lease →
      wait_event.error ∉ evs →
      ∃ (i : xillyinfo) (g : xillyfifo),
        fifo_request_write_resume evs (fifo_drained true s.fifo n) info =
          some (Outcome.returned i.bytes i g) ∧
        i.bytes ≠ 0 ∧ (size ≤ INT_MAX → 1 ≤ i.bytes)) := by
  obtain ⟨hq, -, -, h3, h4⟩ := reachable_inv hi hr
  obtain ⟨addr, -, rfl, hs⟩ := init_success_fresh hi
  obtain ⟨hsz, -⟩ := run_calls_frame cs _ _ 0 hr (Nat.zero_le _) (le_refl _)
  have hsz2 : s.fifo.size = size := hsz
  have hq0 := hq
  obtain ⟨a1, a2, a3, a4, a5, a6, a7⟩ := hq
  have hwp : s.fifo.write_position < s.fifo.size := by omega
  have room : ∀ (gv : Bool) (n : Nat) (g : xillyfifo), 1 ≤ n → n ≤ s.read_lease →
      same_queue (fifo_drained gv s.fifo n) g →
      g.size < UINT_RANGE ∧ g.done = 0 ∧ g.bytes_in_fifo < g.size ∧
      g.write_position < g.size ∧ g.size = size := by
    intro gv n g h1 h2 hsq
    obtain ⟨e1, -, -, e4, -, e6, e7, -⟩ :=
      fifo_drained_fields gv s.fifo n hq0 (by omega) (by omega)
    obtain ⟨-, -, q3, -, q5, q6, q7, -⟩ := hsq
    rw [q3, q5, q6, q7, e1, e4, e6, e7]
    exact ⟨a1, hd, by omega, hwp, hsz2⟩
  have lease : ∀ g : xillyfifo, g.size < UINT_RANGE → g.bytes_in_fifo < g.size →
      g.write_position < g.size → g.size = size →
      int_of_uint (min (g.size - g.bytes_in_fifo) (g.size - g.write_position)) ≠ 0 ∧
      (size ≤ INT_MAX →
        1 ≤ int_of_uint (min (g.size - g.bytes_in_fifo) (g.size - g.write_position))) := by
    intro g r1 r3 r4 r5
    refine ⟨int_of_uint_ne_zero _ (by omega) (by omega), fun hmax => ?_⟩
    rw [int_of_uint_small _ (by omega)]
    omega
  refine ⟨?_, ?_, ?_, ?_, ?_⟩
  · intro evs info i ret g h
    exact full_no_grant a1 (by omega) (Or.inl h)
  · intro evs info he
    rw [fifo_request_write_eq, uint_sub_backoff s.fifo a1]
    have h1 : ¬ s.fifo.done ≠ 0 := by omega
    have h2 : s.fifo.bytes_in_fifo ≥ s.fifo.size := by omega
    rw [if_neg h1, if_pos h2]
    obtain ⟨g, hg | hg⟩ := write_wait_full (wait_bound evs s.fifo.write_sem) evs s.fifo
      { info with slept := 1, addr := 0 } a1 hd (by omega) he (wait_bound_gt _ _)
    · exact ⟨_, g, hg, rfl⟩
    · exact ⟨_, g, hg, rfl⟩
  · intro g info hsq
    obtain ⟨-, -, q3, -, -, q6, q7, -⟩ := hsq
    exact write_recheck_full g info (by rw [q6]; exact a1) (by rw [q7]; exact hd)
      (by rw [q6, q3]; omega)
  · intro gv n g info h1 h2 hsq
    obtain ⟨r1, r2, r3, r4, r5⟩ := room gv n g h1 h2 hsq
    exact ⟨{ slept := info.slept,
             bytes := int_of_uint (min (g.size - g.bytes_in_fifo) (g.size - g.write_position)),
             position := int_of_uint g.write_position,
             addr := g.baseaddr + g.write_position },
      write_recheck_room g info r1 r2 r3 r4, lease g r1 r3 r4 r5⟩
  · intro n evs info h1 h2 he
    obtain ⟨r1, r2, r3, r4, r5⟩ :=
      room true n (fifo_drained true s.fifo n) h1 h2 (same_queue_refl _)
    have hsem : (fifo_drained true s.fifo n).write_sem ≠ 0 := by
      rw [(fifo_drained_fields true s.fifo n hq0 (by omega) (by omega)).2.2.2.2.2.2.2.2.2]
      by_cases h0 : s.fifo.write_sem = 0
      · have hn : n ≠ 0 := by omega
        simp [h0, hn]
      · simp [h0]
    rw [fifo_request_write_resume_eq]
    obtain ⟨sem, hw⟩ := write_wait_room (evs.length + (fifo_drained true s.fifo n).write_sem)
      evs (fifo_drained true s.fifo n) info r1 r2 r3 r4 hsem he
    exact ⟨{ slept := info.slept,
             bytes := int_of_uint (min
               ((fifo_drained true s.fifo n).size - (fifo_drained true s.fifo n).bytes_in_fifo)
               ((fifo_drained true s.fifo n).size -
                 (fifo_drained true s.fifo n).write_position)),
             position := int_of_uint (fifo_drained true s.fifo n).write_position,
             addr := (fifo_drained true s.fifo n).baseaddr +
               (fifo_drained true s.fifo n).write_position },
      { fifo_drained true s.fifo n with write_sem := sem }, hw,
      lease (fifo_drained true s.fifo n) r1 r3 r4 r5⟩

/-- Witness of C10: the fifo of 16 bytes is full and the consumer holds a lease of
4 bytes; a write request parks, and returns a lease of at least 1 byte once the
4 bytes are committed as read. -/
theorem C10_backpressure_witness :
    init_success 16 (fifo_fresh 16 4096) ∧
    run_calls (fresh (fifo_fresh 16 4096)) calls_full16 = some session_full16 ∧
    session_full16.fifo.bytes_in_fifo = session_full16.fifo.size ∧
    session_full16.fifo.done = 0 ∧
    (∃ (i : xillyinfo) (g : xillyfifo),
      fifo_request_write [] session_full16.fifo info_zero = some (Outcome.blocked i g) ∧
      i.slept = 1) ∧
    (∃ (i : xillyinfo) (g : xillyfifo),
      fifo_request_write_resume [] (fifo_drained true session_full16.fifo 4) info_zero =
        some (Outcome.returned i.bytes i g) ∧ i.bytes ≠ 0 ∧ (16 ≤ INT_MAX → 1 ≤ i.bytes)) :=
  ⟨init_success_of_fresh 16 4096 (by decide) (by decide), by decide, by decide, by decide,
    (C10_backpressure 16 (fifo_fresh 16 4096) calls_full16 session_full16
      (init_success_of_fresh 16 4096 (by decide) (by decide)) (by decide) (by decide)
      (by decide) (by decide)).2.1 [] info_zero (by decide),
    (C10_backpressure 16 (fifo_fresh 16 4096) calls_full16 session_full16
      (init_success_of_fresh 16 4096 (by decide) (by decide)) (by decide) (by decide)
      (by decide) (by decide)).2.2.2.2 4 [] info_zero (by decide) (by decide) (by decide)⟩

/-- C11, as stated, fails for a size that does not fit an `int`: on a fifo of
`2^32 - 1` bytes with both cursors at 1 and no byte pending (one byte has gone
through), `done == 0` and the free space `4294967295` exceeds
`size - write_position = 4294967294`, and `fifo_request_write` returns
`info.bytes == -2`, not `size - write_position`. -/
theorem C11_counterexample :
    init_success 4294967295 (fifo_fresh 4294967295 4096) ∧
    (run_calls (fresh (fifo_fresh 4294967295 4096))
      [fifo_call.request_write [] info_zero, fifo_call.wrote true 1,
       fifo_call.request_drain [] info_zero, fifo_call.drained true 1]).map
      (fun s => (s.fifo.done,
        decide (s.fifo.size - s.fifo.write_position < s.fifo.size - s.fifo.bytes_in_fifo),
        s.fifo.size - s.fifo.write_position,
        fifo_request_write [] s.fifo info_zero)) =
    some (0, true, 4294967294,
      some (Outcome.returned (-2)
        { slept := 0, bytes := -2, position := 1, addr := 4097 }
        { read_total := 1, write_total := 1, bytes_in_fifo := 0, read_position := 1,
          write_position := 1, size := 4294967295, done := 0, baseaddr := 4096,
          write_sem := 1, read_sem := 1 })) ∧
    (-2 : Int) ≠ ((4294967294 : Nat) : Int) :=
  ⟨init_success_of_fresh 4294967295 4096 (by decide) (by decide), by decide, by decide⟩

/-- C11, amended. Two-step wraparound. For every fifo state with
`size <= INT_MAX`, the write cursor inside the buffer (`write_position < size`),
`done == 0` and the free space `size - bytes_in_fifo` exceeding
`size - write_position`, `fifo_request_write` grants exactly
`size - write_position` bytes at `write_position`; after that whole lease is
committed `write_position` is 0, and the next `fifo_request_write` grants the
remaining free bytes at offset 0, so that the two leases total the original
free space. After both commits the fifo is full and a further write request is
granted nothing. -/
theorem C11_two_step_wrap (f : xillyfifo) (gv1 gv2 : Bool) (evs1 evs2 : List wait_event)
    (info1 info2 : xillyinfo) (hs : f.size ≤ INT_MAX) (hw : f.write_position < f.size)
    (hd : f.done = 0) (hfree : f.size - f.write_position < f.size - f.bytes_in_fifo) :
    ∃ i1 i2 : xillyinfo,
      fifo_request_write evs1 f info1 = some (Outcome.returned i1.bytes i1 f) ∧
      i1.slept = 0 ∧ i1.position = (f.write_position : Int) ∧
      i1.bytes = ((f.size - f.write_position : Nat) : Int) ∧
      (fifo_wrote gv1 f (f.size - f.write_position)).write_position = 0 ∧
      fifo_request_write evs2 (fifo_wrote gv1 f (f.size - f.write_position)) info2 =
        some (Outcome.returned i2.bytes i2 (fifo_wrote gv1 f (f.size - f.write_position))) ∧
      i2.slept = 0 ∧ i2.position = 0 ∧
      i2.bytes = ((f.write_position - f.bytes_in_fifo : Nat) : Int) ∧
      i1.bytes + i2.bytes = ((f.size - f.bytes_in_fifo : Nat) : Int) ∧
      (fifo_wrote gv2 (fifo_wrote gv1 f (f.size - f.write_position))
        (f.write_position - f.bytes_in_fifo)).bytes_in_fifo = f.size ∧
      (∀ (evs : List wait_event) (info i : xillyinfo) (ret : Int) (g : xillyfifo),
        fifo_request_write evs
            (fifo_wrote gv2 (fifo_wrote gv1 f (f.size - f.write_position))
              (f.write_position - f.bytes_in_fifo)) info =
          some (Outcome.returned ret i g) → ret = 0 ∧ i.bytes = 0) := by
  have hb : f.bytes_in_fifo < f.write_position := by omega
  obtain ⟨w1, w2, w3, w4, w5⟩ := two_leases gv1 gv2 evs1 evs2 info1 info2 hd hs hw hb
  refine ⟨{ slept := 0, bytes := ((f.size - f.write_position : Nat) : Int),
            position := (f.write_position : Int),
            addr := f.baseaddr + f.write_position },
    { slept := 0, bytes := ((f.write_position - f.bytes_in_fifo : Nat) : Int),
      position := 0,
      addr := (fifo_wrote gv1 f (f.size - f.write_position)).baseaddr + 0 },
    w1, rfl, rfl, rfl, w2, w3, rfl, rfl, rfl, ?_, w4, w5⟩
  show ((f.size - f.write_position : Nat) : Int) +
    ((f.write_position - f.bytes_in_fifo : Nat) : Int) =
    ((f.size - f.bytes_in_fifo : Nat) : Int)
  omega

/-- Witness of C11: capacity 8; 5 bytes written and 3 read leave 2 pending and the
write cursor at 5; 6 bytes are free, the first lease is 3 bytes at offset 5 and
the second 3 bytes at offset 0; then the fifo holds 8 bytes. -/
theorem C11_two_step_wrap_witness :
    init_success 8 (fifo_fresh 8 4096) ∧
    run_calls (fresh (fifo_fresh 8 4096)) calls_cap8 = some session_cap8 ∧
    (∃ i1 i2 : xillyinfo,
      fifo_request_write [] session_cap8.fifo info_zero =
        some (Outcome.returned i1.bytes i1 session_cap8.fifo) ∧
      i1.slept = 0 ∧ i1.position = ((5 : Nat) : Int) ∧
      i1.bytes = ((8 - 5 : Nat) : Int) ∧
      (fifo_wrote true session_cap8.fifo (8 - 5)).write_position = 0 ∧
      fifo_request_write [] (fifo_wrote true session_cap8.fifo (8 - 5)) info_zero =
        some (Outcome.returned i2.bytes i2 (fifo_wrote true session_cap8.fifo (8 - 5))) ∧
      i2.slept = 0 ∧ i2.position = 0 ∧
      i2.bytes = ((5 - 2 : Nat) : Int) ∧
      i1.bytes + i2.bytes = ((8 - 2 : Nat) : Int) ∧
      (fifo_wrote true (fifo_wrote true session_cap8.fifo (8 - 5)) (5 - 2)).bytes_in_fifo = 8 ∧
      (∀ (evs : List wait_event) (info i : xillyinfo) (ret : Int) (g : xillyfifo),
        fifo_request_write evs
            (fifo_wrote true (fifo_wrote true session_cap8.fifo (8 - 5)) (5 - 2)) info =
          some (Outcome.returned ret i g) → ret = 0 ∧ i.bytes = 0)) :=
  ⟨init_success_of_fresh 8 4096 (by decide) (by decide), by decide,
    C11_two_step_wrap session_cap8.fifo true true [] [] info_zero info_zero
      (by decide) (by decide) (by decide) (by decide)⟩

/-- C12, as stated, fails: each call of `fifo_done` posts both semaphores, so a
second call leaves counters one higher than the first. -/
theorem C12_counterexample :
    fifo_done (fifo_done (fifo_fresh 8 4096)) ≠ fifo_done (fifo_fresh 8 4096) ∧
    (fifo_done (fifo_fresh 8 4096)).write_sem = 2 ∧
    (fifo_done (fifo_done (fifo_fresh 8 4096))).write_sem = 3 := by
  decide

/-- C12, amended. `fifo_done` is idempotent on every field but the two semaphore
counters: for every fifo state, calling it twice leaves `done == 1` and the
cursors, totals, `bytes_in_fifo`, `size` and `baseaddr` as one call leaves them,
while the second call posts `read_sem` and `write_sem` once more. -/
theorem C12_fifo_done_twice (f : xillyfifo) :
    same_queue (fifo_done f) (fifo_done (fifo_done f)) ∧
    (fifo_done f).done = 1 ∧ (fifo_done (fifo_done f)).done = 1 ∧
    (fifo_done (fifo_done f)).read_sem = (fifo_done f).read_sem + 1 ∧
    (fifo_done (fifo_done f)).write_sem = (fifo_done f).write_sem + 1 ∧
    fifo_done (fifo_done f) ≠ fifo_done f := by
  refine ⟨⟨rfl, rfl, rfl, rfl, rfl, rfl, rfl, rfl⟩, rfl, rfl, rfl, rfl, ?_⟩
  intro h
  have h1 : (fifo_done (fifo_done f)).read_sem = (fifo_done f).read_sem := by rw [h]
  have h2 : (fifo_done (fifo_done f)).read_sem = (fifo_done f).read_sem + 1 := rfl
  omega

/-- C13, as stated, fails: `info.position` is an `int`. On a fifo of `2^32 - 1`
bytes the producer commits `2147483648` bytes of its lease and `fifo_done` is
called; `write_position` is then `2147483648`, and `fifo_request_write` returns
`info.position == -2147483648`, not `write_position`. -/
theorem C13_counterexample :
    init_success 4294967295 (fifo_fresh 4294967295 4096) ∧
    (run_calls (fresh (fifo_fresh 4294967295 4096))
      [fifo_call.request_write [] info_zero, fifo_call.wrote true 2147483648,
       fifo_call.done]).map
      (fun s => (s.fifo.done, s.fifo.write_position,
        fifo_request_write [] s.fifo info_zero)) =
    some (1, 2147483648,
      some (Outcome.returned 0
        { slept := 0, bytes := 0, position := -2147483648, addr := 0 }
        { read_total := 0, write_total := 2147483648, bytes_in_fifo := 2147483648,
          read_position := 0, write_position := 2147483648, size := 4294967295, done := 1,
          baseaddr := 4096, write_sem := 2, read_sem := 2 })) ∧
    (-2147483648 : Int) ≠ ((2147483648 : Nat) : Int) :=
  ⟨init_success_of_fresh 4294967295 4096 (by decide) (by decide), by decide, by decide⟩

/-- C13, amended. For every fifo state in which `done` is set when
`fifo_request_write` is called, whatever `bytes_in_fifo` is, the call returns 0
with `info.bytes == 0`, `info.addr == NULL`, `info.slept == 0` and
`info.position` equal to `write_position` converted to `int` (so to
`write_position` itself when it is at most `INT_MAX`), and changes no field of
the fifo. A call that was parked in `sem_wait` and goes on when `done` is set
returns, if it returns, the same zero-length lease with `info.slept == 1`,
having changed at most the semaphore counters; it does return when `write_sem`
is not zero, as `fifo_done` leaves it. -/
theorem C13_write_after_done (evs : List wait_event) (f : xillyfifo) (info : xillyinfo)
    (hd : f.done ≠ 0) :
    fifo_request_write evs f info =
      some (Outcome.returned 0
        { slept := 0, bytes := 0, position := int_of_uint f.write_position, addr := 0 } f) ∧
    (f.write_position ≤ INT_MAX → int_of_uint f.write_position = (f.write_position : Int)) ∧
    (∀ (evs0 : List wait_event) (f0 : xillyfifo) (info0 ib : xillyinfo) (fb : xillyfifo),
      fifo_request_write evs0 f0 info0 = some (Outcome.blocked ib fb) →
      (∀ (ret : Int) (i : xillyinfo) (g : xillyfifo),
        fifo_request_write_resume evs f ib = some (Outcome.returned ret i g) →
        ret = 0 ∧ i.bytes = 0 ∧ i.addr = 0 ∧ i.position = int_of_uint f.write_position ∧
        i.slept = 1 ∧ same_queue f g) ∧
      (f.write_sem ≠ 0 →
        ∃ (i : xillyinfo) (g : xillyfifo),
          fifo_request_write_resume evs f ib = some (Outcome.returned 0 i g))) := by
  refine ⟨fifo_request_write_done evs f info hd, fun h => int_of_uint_small _ h, ?_⟩
  intro evs0 f0 info0 ib fb hb
  have hib : ib.slept = 1 ∧ ib.addr = 0 := by
    rw [fifo_request_write_eq] at hb
    split at hb
    · simp [write_finish] at hb
    · split at hb
      · obtain ⟨-, -, -, k⟩ := write_wait_blocked _ _ _ _ _ _ hb
        rcases k with k | k <;> rw [k] <;> exact ⟨rfl, rfl⟩
      · simp [write_grant, write_finish] at hb
  refine ⟨?_, ?_⟩
  · intro ret i g h
    rw [fifo_request_write_resume_eq] at h
    obtain ⟨k1, -, -, i0, k4, k5⟩ := write_wait_returned _ _ _ _ _ _ _ h
    have hgd : g.done ≠ 0 := by rw [k1.2.2.2.2.2.2.1]; exact hd
    have hi0 : i0.slept = 1 ∧ i0.addr = 0 := by
      rcases k4 with k4 | k4 <;> rw [k4]
      · exact hib
      · exact ⟨rfl, hib.2⟩
    rcases k5 with k5 | ⟨k5, -⟩
    · obtain ⟨-, v2, v3, v4, v5, v6⟩ := write_finish_eq k5.symm
      rw [int_of_uint_zero] at v2 v3
      exact ⟨v2, v3, v5.trans hi0.2, by rw [v4, k1.2.2.2.2.1], v6.trans hi0.1, k1⟩
    · exact absurd k5 hgd
  · intro hsem
    rw [fifo_request_write_resume_eq]
    obtain ⟨sem, hw⟩ := write_wait_done (evs.length + f.write_sem) evs f ib hd hsem
    exact ⟨{ slept := ib.slept, bytes := 0, position := int_of_uint f.write_position,
             addr := ib.addr }, { f with write_sem := sem }, by
      rw [show wait_bound evs f.write_sem = evs.length + f.write_sem + 1 from rfl, hw]
      simp only [write_finish, int_of_uint_zero]⟩

/-- Witness of C13: `done` is set on a fifo of 16 bytes holding 3. -/
theorem C13_write_after_done_witness :
    session_done3.fifo.done ≠ 0 ∧
    fifo_request_write [] session_done3.fifo info_zero =
      some (Outcome.returned 0
        { slept := 0, bytes := 0,
          position := int_of_uint session_done3.fifo.write_position, addr := 0 }
        session_done3.fifo) :=
  ⟨by decide, (C13_write_after_done [] session_done3.fifo info_zero (by decide)).1⟩

/-- C14. Wake-signal post discipline, `sem_getvalue` succeeding (as it does on an
initialised semaphore): for every `n > 0`, after `fifo_wrote(n)` the value of
`read_sem` is 1 if it was 0 and unchanged if it was not zero, and after
`fifo_drained(n)` the value of `write_sem` is 1 if it was 0 and unchanged
otherwise; so after a non-zero commit the other side's semaphore is not zero.
(On the fallback path of a failing `sem_getvalue` nothing is posted.) -/
theorem C14_post_discipline (f : xillyfifo) (n : Nat) (hn : 0 < n) :
    (f.read_sem = 0 → (fifo_wrote true f n).read_sem = 1) ∧
    (f.read_sem ≠ 0 → (fifo_wrote true f n).read_sem = f.read_sem) ∧
    (fifo_wrote true f n).read_sem ≠ 0 ∧
    (f.write_sem = 0 → (fifo_drained true f n).write_sem = 1) ∧
    (f.write_sem ≠ 0 → (fifo_drained true f n).write_sem = f.write_sem) ∧
    (fifo_drained true f n).write_sem ≠ 0 ∧
    (fifo_wrote false f n).read_sem = f.read_sem ∧
    (fifo_drained false f n).write_sem = f.write_sem := by
  have h0 : n ≠ 0 := by omega
  have w : ∀ gv : Bool, (fifo_wrote gv f n).read_sem =
      (if gv = true ∧ f.read_sem = 0 then f.read_sem + 1 else f.read_sem) := by
    intro gv
    rw [fifo_wrote_eq, if_neg h0]
  have d : ∀ gv : Bool, (fifo_drained gv f n).write_sem =
      (if gv = true ∧ f.write_sem = 0 then f.write_sem + 1 else f.write_sem) := by
    intro gv
    rw [fifo_drained_eq, if_neg h0]
  rw [w true, w false, d true, d false]
  refine ⟨?_, ?_, ?_, ?_, ?_, ?_, ?_, ?_⟩
  · intro h; simp [h]
  · intro h; simp [h]
  · by_cases h : f.read_sem = 0 <;> simp [h]
  · intro h; simp [h]
  · intro h; simp [h]
  · by_cases h : f.write_sem = 0 <;> simp [h]
  · simp
  · simp

/-- Witness of C14: a commit of 12 bytes on a fresh fifo of 16 bytes. -/
theorem C14_post_discipline_witness :
    ((fifo_fresh 16 4096).read_sem = 0 → (fifo_wrote true (fifo_fresh 16 4096) 12).read_sem = 1) ∧
    ((fifo_fresh 16 4096).read_sem ≠ 0 →
      (fifo_wrote true (fifo_fresh 16 4096) 12).read_sem = (fifo_fresh 16 4096).read_sem) ∧
    (fifo_wrote true (fifo_fresh 16 4096) 12).read_sem ≠ 0 ∧
    ((fifo_fresh 16 4096).write_sem = 0 →
      (fifo_drained true (fifo_fresh 16 4096) 12).write_sem = 1) ∧
    ((fifo_fresh 16 4096).write_sem ≠ 0 →
      (fifo_drained true (fifo_fresh 16 4096) 12).write_sem = (fifo_fresh 16 4096).write_sem) ∧
    (fifo_drained true (fifo_fresh 16 4096) 12).write_sem ≠ 0 ∧
    (fifo_wrote false (fifo_fresh 16 4096) 12).read_sem = (fifo_fresh 16 4096).read_sem ∧
    (fifo_drained false (fifo_fresh 16 4096) 12).write_sem = (fifo_fresh 16 4096).write_sem :=
  C14_post_discipline (fifo_fresh 16 4096) 12 (by decide)

/-- C15. Single-writer-per-field frame. `fifo_request_write` (also when it ends
parked, or is resumed) and `fifo_request_drain` change no field of the fifo but
a semaphore counter: `bytes_in_fifo`, both cursors, both totals, `size`, `done`
and `baseaddr` stay. `fifo_wrote` never changes `read_position` or `read_total`,
and `fifo_drained` never changes `write_position` or `write_total`. So two
successive requests on one side with no commit in between return the same
lease. -/
theorem C15_frame (evs : List wait_event) (f : xillyfifo) (info : xillyinfo) (gv : Bool)
    (n : Nat) :
    (∀ (ret : Int) (i : xillyinfo) (g : xillyfifo),
      (fifo_request_write evs f info = some (Outcome.returned ret i g) ∨
        fifo_request_write_resume evs f info = some (Outcome.returned ret i g)) →
      same_queue f g) ∧
    (∀ (i : xillyinfo) (g : xillyfifo),
      (fifo_request_write evs f info = some (Outcome.blocked i g) ∨
        fifo_request_write_resume evs f info = some (Outcome.blocked i g)) →
      same_queue f g) ∧
    (∀ (ret : Int) (i : xillyinfo) (g : xillyfifo),
      (fifo_request_drain evs f info = some (Outcome.returned ret i g) ∨
        fifo_request_drain_resume evs f info = some (Outcome.returned ret i g)) →
      same_queue f g) ∧
    (∀ (i : xillyinfo) (g : xillyfifo),
      (fifo_request_drain evs f info = some (Outcome.blocked i g) ∨
        fifo_request_drain_resume evs f info = some (Outcome.blocked i g)) →
      same_queue f g) ∧
    (fifo_wrote gv f n).read_position = f.read_position ∧
    (fifo_wrote gv f n).read_total = f.read_total ∧
    (fifo_drained gv f n).write_position = f.write_position ∧
    (fifo_drained gv f n).write_total = f.write_total ∧
    (∀ (ret ret2 : Int) (i i2 info2 : xillyinfo) (g g2 : xillyfifo) (evs2 : List wait_event),
      fifo_request_write evs f info = some (Outcome.returned ret i g) →
      fifo_request_write evs2 g info2 = some (Outcome.returned ret2 i2 g2) →
      ret2 = ret ∧ i2 = i) ∧
    (∀ (ret ret2 : Int) (i i2 info2 : xillyinfo) (g g2 : xillyfifo) (evs2 : List wait_event),
      fifo_request_drain evs f info = some (Outcome.returned ret i g) →
      fifo_request_drain evs2 g info2 = some (Outcome.returned ret2 i2 g2) →
      ret2 = ret ∧ i2 = i) := by
  obtain ⟨-, -, -, -, w5, w6, -⟩ := fifo_wrote_frame gv f n
  obtain ⟨-, -, -, -, d5, d6, -⟩ := fifo_drained_frame gv f n
  exact ⟨fun ret i g h => (write_request_returned_any h).1,
    fun i g h => (write_request_blocked_any h).1,
    fun ret i g h => (drain_request_returned_any h).1,
    fun i g h => (drain_request_blocked_any h).1,
    w5, w6, d5, d6,
    fun ret ret2 i i2 info2 g g2 evs2 h h2 => write_request_twice h h2,
    fun ret ret2 i i2 info2 g g2 evs2 h h2 => drain_request_twice h h2⟩

/-- C16, as stated, fails: when the first `sem_init` succeeds and the second
fails, `fifo_init` returns -1 and `read_sem` is still initialised; `baseaddr` is
`NULL`, so `fifo_destroy` afterwards returns at once and destroys nothing. -/
theorem C16_counterexample :
    (fifo_init 0
      { read_sem_ok := true, write_sem_ok := false, malloc_addr := 4096, mlock_ok := true }
      (fifo_fresh 0 0) (fun _ => 0) 16).map (fun r => (r.1, r.2.1)) =
      some (-1, fifo_fresh 0 0) ∧
    fifo_init_sems
      { read_sem_ok := true, write_sem_ok := false, malloc_addr := 4096, mlock_ok := true }
      { read_sem := false, write_sem := false } =
      (-1, { read_sem := true, write_sem := false }) ∧
    fifo_destroy (fifo_fresh 0 0) { read_sem := true, write_sem := false } =
      (fifo_fresh 0 0, { read_sem := true, write_sem := false }) := by
  decide

/-- C16, amended. Whenever `fifo_init` returns -1 it has destroyed no semaphore:
a semaphore it had successfully initialised (`read_sem` when the second
`sem_init` fails, both when `malloc` fails) is still initialised when it
returns, and `baseaddr` is `NULL`, so that a later `fifo_destroy` returns at
once and destroys none either. -/
theorem C16_init_failure (fuel : Nat) (env : init_env) (f g : xillyfifo) (mem m : Memory)
    (size : Nat) (sems : sem_alloc)
    (h : fifo_init fuel env f mem size = some (-1, g, m)) :
    (fifo_init_sems env sems).1 = -1 ∧
    (env.read_sem_ok = true → (fifo_init_sems env sems).2.read_sem = true) ∧
    (env.read_sem_ok = true → env.write_sem_ok = true →
      (fifo_init_sems env sems).2.write_sem = true) ∧
    g.baseaddr = 0 ∧
    fifo_destroy g (fifo_init_sems env sems).2 = (g, (fifo_init_sems env sems).2) := by
  obtain ⟨hb, -⟩ := fifo_init_failure h
  refine ⟨fifo_init_sems_ret sems h, ?_, ?_, hb, ?_⟩
  · intro h1
    unfold fifo_init_sems
    simp only [h1, Bool.true_eq_false, if_false]
    split
    · rfl
    · split <;> rfl
  · intro h1 h2
    unfold fifo_init_sems
    simp only [h1, h2, Bool.true_eq_false, if_false]
    split <;> rfl
  · simp only [fifo_destroy, if_pos hb]

/-- Witness of C16: the first `sem_init` succeeds, the second fails. -/
theorem C16_init_failure_witness :
    (fifo_init_sems
      { read_sem_ok := true, write_sem_ok := false, malloc_addr := 4096, mlock_ok := true }
      { read_sem := false, write_sem := false }).1 = -1 ∧
    (fifo_init_sems
      { read_sem_ok := true, write_sem_ok := false, malloc_addr := 4096, mlock_ok := true }
      { read_sem := false, write_sem := false }).2.read_sem = true :=
  ⟨(C16_init_failure 0
      { read_sem_ok := true, write_sem_ok := false, malloc_addr := 4096, mlock_ok := true }
      (fifo_fresh 0 0) (fifo_fresh 0 0) (fun _ => 0) (fun _ => 0) 16
      { read_sem := false, write_sem := false } rfl).1,
    (C16_init_failure 0
      { read_sem_ok := true, write_sem_ok := false, malloc_addr := 4096, mlock_ok := true }
      (fifo_fresh 0 0) (fifo_fresh 0 0) (fun _ => 0) (fun _ => 0) 16
      { read_sem := false, write_sem := false } rfl).2.1 rfl⟩

/-- C17, as stated, fails: with 3 of 16 bytes in the fifo, fewer than `size`
bytes are free, and yet `fifo_request_write` returns a lease of 13 bytes at once,
with `info.slept == 0`. -/
theorem C17_counterexample :
    init_success 16 (fifo_fresh 16 4096) ∧
    (run_calls (fresh (fifo_fresh 16 4096)) calls_in3).map
      (fun s => (s.fifo.done, decide (s.fifo.size - s.fifo.bytes_in_fifo < s.fifo.size),
        fifo_request_write [] s.fifo info_zero)) =
    some (0, true,
      some (Outcome.returned 13 { slept := 0, bytes := 13, position := 3, addr := 4099 }
        { read_total := 0, write_total := 3, bytes_in_fifo := 3, read_position := 0,
          write_position := 3, size := 16, done := 0, baseaddr := 4096, write_sem := 1,
          read_sem := 1 })) :=
  ⟨init_success_of_fresh 16 4096 (by decide) (by decide), by decide⟩

/-- C17, amended. For every fifo state with `done == 0`, `fifo_request_write`
waits on `write_sem` (and sets `info.slept = 1`) exactly when no byte is free,
that is when `bytes_in_fifo >= size - FIFO_BACKOFF` with `FIFO_BACKOFF` at its
default 0: then it ends parked, or returns a zero-length lease, with
`info.slept == 1`; when `bytes_in_fifo < size` it returns at once with
`info.slept == 0`, leaving the fifo as it is. -/
theorem C17_write_blocking (evs : List wait_event) (f : xillyfifo) (info : xillyinfo)
    (hs : f.size < UINT_RANGE) (hd : f.done = 0) :
    (f.bytes_in_fifo ≥ f.size →
      (∃ o, fifo_request_write evs f info = some o) ∧
      (∀ (ret : Int) (i : xillyinfo) (g : xillyfifo),
        fifo_request_write evs f info = some (Outcome.returned ret i g) →
        i.slept = 1 ∧ ret = 0 ∧ i.bytes = 0) ∧
      (∀ (i : xillyinfo) (g : xillyfifo),
        fifo_request_write evs f info = some (Outcome.blocked i g) → i.slept = 1)) ∧
    (f.bytes_in_fifo < f.size →
      ∃ (ret : Int) (i : xillyinfo),
        fifo_request_write evs f info = some (Outcome.returned ret i f) ∧ i.slept = 0) := by
  have hbk := uint_sub_backoff f hs
  have h1 : ¬ f.done ≠ 0 := by omega
  refine ⟨fun hb => ⟨fifo_request_write_some evs f info, ?_, ?_⟩, fun hb => ?_⟩
  · intro ret i g h
    obtain ⟨r1, r2⟩ := full_no_grant hs hb (Or.inl h)
    obtain ⟨-, s2⟩ := write_request_shape h
    have hb2 : f.bytes_in_fifo ≥ uint_sub f.size FIFO_BACKOFF := by rw [hbk]; exact hb
    rw [s2]
    simp only [if_neg h1, if_pos hb2]
    exact ⟨trivial, r1, r1⟩
  · intro i g h
    rw [fifo_request_write_eq, if_neg h1, hbk, if_pos hb] at h
    obtain ⟨-, -, -, k⟩ := write_wait_blocked _ _ _ _ _ _ h
    rcases k with k | k <;> rw [k]
  · have h2 : ¬ f.bytes_in_fifo ≥ f.size := by omega
    rw [fifo_request_write_eq, if_neg h1, hbk, if_neg h2]
    exact ⟨_, _, rfl, rfl⟩

/-- Witness of C17: a full fifo of 16 bytes, and one holding 3 bytes. -/
theorem C17_write_blocking_witness :
    (∀ (i : xillyinfo) (g : xillyfifo),
      fifo_request_write [] session_full16.fifo info_zero = some (Outcome.blocked i g) →
      i.slept = 1) ∧
    (∃ (ret : Int) (i : xillyinfo),
      fifo_request_write [] session_cap8.fifo info_zero =
        some (Outcome.returned ret i session_cap8.fifo) ∧ i.slept = 0) :=
  ⟨((C17_write_blocking [] session_full16.fifo info_zero (by decide) (by decide)).1
      (by decide)).2.2,
    (C17_write_blocking [] session_cap8.fifo info_zero (by decide) (by decide)).2
      (by decide)⟩

/-- C19, on the code. With both `sem_init` calls and `malloc` succeeding and
`mlock` failing, `fifo_init` returns 0 with `fifo.size == size` for every size
up to `2^32 - 1024`; for every larger `unsigned int` size, such as
`4294967295`, the counter `i` of the pre-fault loop wraps to 0 before it
reaches `size`, and `fifo_init` does not return, whatever the number of
iterations allowed. -/
theorem C19_prefault_loop (addr : Nat) (f : xillyfifo) (mem : Memory) :
    (∀ fuel : Nat,
      fifo_init fuel
        { read_sem_ok := true, write_sem_ok := true, malloc_addr := addr + 1, mlock_ok := false }
        f mem 4294967295 = none) ∧
    (∀ size : Nat, 4294966272 < size → ∀ fuel : Nat,
      fifo_init fuel
        { read_sem_ok := true, write_sem_ok := true, malloc_addr := addr + 1, mlock_ok := false }
        f mem size = none) ∧
    (∀ size : Nat, size ≤ 4294966272 → ∃ (fuel : Nat) (mem1 : Memory),
      fifo_init fuel
        { read_sem_ok := true, write_sem_ok := true, malloc_addr := addr + 1, mlock_ok := false }
        f mem size = some (0, fifo_fresh size (addr + 1), mem1)) := by
  have hdiv : ∀ size : Nat, 4294966272 < size → ∀ fuel : Nat,
      fifo_init fuel
        { read_sem_ok := true, write_sem_ok := true, malloc_addr := addr + 1, mlock_ok := false }
        f mem size = none := by
    intro size hs fuel
    have hp := prefault_diverges (addr + 1) size hs fuel 0 mem (by decide) (by decide)
    simp [fifo_init, hp]
  refine ⟨hdiv 4294967295 (by decide), hdiv, ?_⟩
  intro size hs
  obtain ⟨mem1, hp⟩ := prefault_terminates (addr + 1) size hs (size + 2) 0 mem (by decide)
    (by omega) (by omega)
  exact ⟨size + 2, mem1, by simp [fifo_init, hp, fifo_fresh]⟩

/-- C20, as stated, fails: right after `fifo_init(2147483648)`, with `done == 0`
and no `sem_wait` at all, `fifo_request_write` returns a lease with
`info.bytes == -2147483648`, which is not `>= 1`; and once that lease is
committed, `fifo_request_drain` returns `info.bytes == -2147483648` with
`bytes_in_fifo > 0`. -/
theorem C20_counterexample :
    init_success 2147483648 (fifo_fresh 2147483648 4096) ∧
    run_calls (fresh (fifo_fresh 2147483648 4096)) [] =
      some (fresh (fifo_fresh 2147483648 4096)) ∧
    (fresh (fifo_fresh 2147483648 4096)).fifo.done = 0 ∧
    fifo_request_write [] (fresh (fifo_fresh 2147483648 4096)).fifo info_zero =
      some (Outcome.returned (-2147483648)
        { slept := 0, bytes := -2147483648, position := 0, addr := 4096 }
        (fifo_fresh 2147483648 4096)) ∧
    (run_calls (fresh (fifo_fresh 2147483648 4096))
      [fifo_call.request_write [] info_zero, fifo_call.wrote true 2147483648]).map
      (fun s => (s.fifo.bytes_in_fifo, fifo_request_drain [] s.fifo info_zero)) =
    some (2147483648,
      some (Outcome.returned (-2147483648)
        { slept := 0, bytes := -2147483648, position := 0, addr := 4096 }
        { read_total := 0, write_total := 2147483648, bytes_in_fifo := 2147483648,
          read_position := 0, write_position := 0, size := 2147483648, done := 0,
          baseaddr := 4096, write_sem := 1, read_sem := 1 })) ∧
    ¬ (1 ≤ (-2147483648 : Int)) :=
  ⟨init_success_of_fresh 2147483648 4096 (by decide) (by decide), by decide, by decide,
    by decide, by decide, by decide⟩

/-- C20, amended. In every state reached from a successful `fifo_init(size)` with
`size > 0`, `sem_wait` never failing with an error other than `EINTR`: a lease
that `fifo_request_write` returns while `done == 0` has `info.bytes != 0`, and
`fifo_request_drain` returns `info.bytes != 0` whenever `bytes_in_fifo > 0`;
both are `>= 1` when `size <= INT_MAX`. So `fifo_request_write` returns 0 only
if `done` is set, and `fifo_request_drain` returns 0 only if `done` is set and
`bytes_in_fifo == 0`. -/
theorem C20_zero_length (size : Nat) (f : xillyfifo) (cs : List fifo_call) (s : session)
    (evs : List wait_event) (info i : xillyinfo) (ret : Int) (g : xillyfifo)
    (hi : init_success size f) (hr : run_calls (fresh f) cs = some s)
    (hpos : 0 < size) (he : wait_event.error ∉ evs) :
    ((fifo_request_write evs s.fifo info = some (Outcome.returned ret i g) ∨
        fifo_request_write_resume evs s.fifo info = some (Outcome.returned ret i g)) →
      (s.fifo.done = 0 → i.bytes ≠ 0 ∧ (size ≤ INT_MAX → 1 ≤ i.bytes)) ∧
      (ret = 0 → s.fifo.done ≠ 0)) ∧
    ((fifo_request_drain evs s.fifo info = some (Outcome.returned ret i g) ∨
        fifo_request_drain_resume evs s.fifo info = some (Outcome.returned ret i g)) →
      (0 < s.fifo.bytes_in_fifo → i.bytes ≠ 0 ∧ (size ≤ INT_MAX → 1 ≤ i.bytes)) ∧
      (ret = 0 → s.fifo.done ≠ 0 ∧ s.fifo.bytes_in_fifo = 0)) := by
  obtain ⟨hq, -⟩ := reachable_inv hi hr
  obtain ⟨addr, -, rfl, hs⟩ := init_success_fresh hi
  obtain ⟨hsz, -⟩ := run_calls_frame cs _ _ 0 hr (Nat.zero_le _) (le_refl _)
  have hsz2 : s.fifo.size = size := hsz
  refine ⟨fun h => ?_, fun h => ?_⟩
  · obtain ⟨k1, -⟩ := write_request_returned_any h
    have hg := same_queue_inv k1 hq
    obtain ⟨-, -, e3, e4, e5, e6, e7, -⟩ := k1
    obtain ⟨a1, a2, a3, a4, a5, a6, a7⟩ := hg
    rcases write_request_noerr he h with ⟨n1, i0, n2⟩ | ⟨n1, n2, i0, n3⟩
    · obtain ⟨-, v2, -⟩ := write_finish_eq n2.symm
      exact ⟨fun hd => absurd (e7.trans hd) n1, fun _ => by rw [← e7]; exact n1⟩
    · rw [uint_sub_backoff g a1] at n2
      rw [write_grant_value g i0 a1 n2 (by omega)] at n3
      simp only [Outcome.returned.injEq] at n3
      obtain ⟨v1, v2, -⟩ := n3
      have hb : i.bytes =
          int_of_uint (min (g.size - g.bytes_in_fifo) (g.size - g.write_position)) := by
        rw [v2]
      have hne : i.bytes ≠ 0 := by
        rw [hb]
        exact int_of_uint_ne_zero _ (by omega) (by omega)
      refine ⟨fun _ => ⟨hne, fun hmax => ?_⟩, fun h0 => ?_⟩
      · rw [hb, int_of_uint_small _ (by omega)]
        omega
      · rw [v1, ← hb] at h0
        exact absurd h0 hne
  · obtain ⟨k1, -⟩ := drain_request_returned_any h
    have hg := same_queue_inv k1 hq
    obtain ⟨-, -, e3, e4, e5, e6, e7, -⟩ := k1
    obtain ⟨a1, a2, a3, a4, a5, a6, a7⟩ := hg
    rcases drain_request_noerr he h with ⟨n1, n2, i0, n3⟩ | ⟨n1, i0, n3⟩
    · exact ⟨fun hb => by omega, fun _ => ⟨by rw [← e7]; exact n2, by omega⟩⟩
    · rw [drain_grant_value g i0 a1 (by omega)] at n3
      simp only [Outcome.returned.injEq] at n3
      obtain ⟨v1, v2, -⟩ := n3
      have hb : i.bytes = int_of_uint (min g.bytes_in_fifo (g.size - g.read_position)) := by
        rw [v2]
      have hne : i.bytes ≠ 0 := by
        rw [hb]
        exact int_of_uint_ne_zero _ (by omega) (by omega)
      refine ⟨fun _ => ⟨hne, fun hmax => ?_⟩, fun h0 => ?_⟩
      · rw [hb, int_of_uint_small _ (by omega)]
        omega
      · rw [v1, ← hb] at h0
        exact absurd h0 hne

/-- Witness of C20: the fifo of 8 bytes with 2 pending and the write cursor at 5;
a write request returns 3 bytes. -/
theorem C20_zero_length_witness :
    init_success 8 (fifo_fresh 8 4096) ∧
    run_calls (fresh (fifo_fresh 8 4096)) calls_cap8 = some session_cap8 ∧
    fifo_request_write [] session_cap8.fifo info_zero =
      some (Outcome.returned 3 { slept := 0, bytes := 3, position := 5, addr := 4101 }
        session_cap8.fifo) ∧
    ((session_cap8.fifo.done = 0 →
        ({ slept := 0, bytes := 3, position := 5, addr := 4101 } : xillyinfo).bytes ≠ 0 ∧
        (8 ≤ INT_MAX →
          1 ≤ ({ slept := 0, bytes := 3, position := 5, addr := 4101 } : xillyinfo).bytes)) ∧
      ((3 : Int) = 0 → session_cap8.fifo.done ≠ 0)) :=
  ⟨init_success_of_fresh 8 4096 (by decide) (by decide), by decide, by decide,
    (C20_zero_length 8 (fifo_fresh 8 4096) calls_cap8 session_cap8 [] info_zero
      { slept := 0, bytes := 3, position := 5, addr := 4101 } 3 session_cap8.fifo
      (init_success_of_fresh 8 4096 (by decide) (by decide)) (by decide) (by decide)
      (by decide)).1 (Or.inl (by decide))⟩
